import Mathlib

/-!
# Contrast stretching of raw PGM / PPM bitmaps

A shallow embedding of `src/src/graphics.cpp` (with `src/include/graphics.h`) and
of the driver `src/src/main.cpp`.

Conventions of the embedding.

* `std::uint8_t` and `std::size_t` values are natural numbers; every narrowing
  or wrapping conversion of the source is written out as an explicit `%`.
  `std::size_t` is taken to be 64 bits wide.
* `int` values (histogram counters, `ignore_count`, the results of `std::stoi`)
  are mathematical integers: signed overflow is undefined in C++ and is outside
  the embedding, so the counting loops are those of images with fewer than 2^31
  pixels.
* A `std::array<int, 256>` is a function from bucket index to count that is
  only read and written through accessors checking the index.
* A byte stream is a list of byte values; text is the list of its character
  codes.  The input stream is in the strict mode that `main` sets up
  (`failbit | eofbit` raise `std::ios_base::failure`).
* Code that can throw, or that can leave the defined behaviour of C++ by
  indexing outside a container, returns a `Result`.
* In `normalize` the OpenMP regions are run by one worker that owns every row;
  `normalize_by` runs them under an explicit schedule (rows per worker, order
  of the critical sections, order of the remap iterations).  Both take the
  already truncated `ignore_count` (lines 177 and 252) in place of the floating
  point coefficient.
-/

namespace Graphics

/-- Ways in which the embedded code stops without a value: the exceptions thrown
by the source and its library calls, an access outside a container (undefined
behaviour in C++), and exhaustion of the fuel of a loop of the embedding. -/
inductive Failure where
  | invalid_argument (what : String)
  | out_of_range (what : String)
  | length_error
  | ios_failure
  | out_of_bounds (index : Nat)
  | out_of_fuel
  deriving DecidableEq, Repr

/-- Outcome of embedded code: a value or a `Failure`. -/
abbrev Result (α : Type) := Except Failure α

deriving instance DecidableEq for Except

/-- The constant `MAX_VALUE` of `graphics.h`. -/
abbrev MAX_VALUE : Nat := 255

/-- Number of values of `std::size_t`. -/
abbrev SIZE_MOD : Nat := 2 ^ 64

/-- Class `grayscale_pixel`: one 8-bit luminance. -/
structure grayscale_pixel where
  luminance : Nat
  deriving DecidableEq, Repr

/-- Class `RGB_pixel`: three 8-bit channels. -/
structure RGB_pixel where
  red : Nat
  green : Nat
  blue : Nat
  deriving DecidableEq, Repr

/-- Class `ImagePGM`: the geometry of `Image` and a grid of grayscale pixels. -/
structure ImagePGM where
  width : Nat
  height : Nat
  matrix : List (List grayscale_pixel)
  deriving DecidableEq, Repr

/-- Class `ImagePPM`: the geometry of `Image` and a grid of colour pixels. -/
structure ImagePPM where
  width : Nat
  height : Nat
  matrix : List (List RGB_pixel)
  deriving DecidableEq, Repr

/-! ## Threshold scans and the remap (graphics.cpp 109-147) -/

/-- Type `std::array<int, MAX_VALUE + 1>`: bucket `i` for `i <= MAX_VALUE`.  The
buckets are read with `bucket` and written with `increment`, which check the
index against the size of the array. -/
abbrev Histogram := Nat → Int

/-- Expression `cnt[i]`, read. -/
def bucket (cnt : Histogram) (i : Nat) : Result Int :=
  if i < MAX_VALUE + 1 then .ok (cnt i) else .error (.out_of_bounds i)

/-- Loop of `calculate_min_luminance`: `i` is the loop index, `psum` the
running `prefix_sum`. -/
def calculate_min_luminance.loop (cnt : Histogram) (ignore_count : Int) :
    Nat → Nat → Int → Result Nat
  | 0, _, _ => .error .out_of_fuel
  | fuel + 1, i, psum =>
    if i ≤ MAX_VALUE then
      match bucket cnt i with
      | .error e => .error e
      | .ok c =>
        let psum := psum + c
        if psum > ignore_count then .ok (i % 256)
        else calculate_min_luminance.loop cnt ignore_count fuel (i + 1) psum
    else .ok (MAX_VALUE % 256)

/-- Function `calculate_min_luminance` (graphics.cpp 109-118). -/
def calculate_min_luminance (cnt : Histogram) (ignore_count : Int) : Result Nat :=
  calculate_min_luminance.loop cnt ignore_count (MAX_VALUE + 2) 0 0

/-- Loop of `calculate_max_luminance`: `i` is the `std::size_t` loop index,
`ssum` the running `suffix_sum`.  The loop condition `i >= 0` holds for every
`std::size_t`, and `i--` wraps around at zero. -/
def calculate_max_luminance.loop (cnt : Histogram) (ignore_count : Int) :
    Nat → Nat → Int → Result Nat
  | 0, _, _ => .error .out_of_fuel
  | fuel + 1, i, ssum =>
    if 0 ≤ i then
      match bucket cnt i with
      | .error e => .error e
      | .ok c =>
        let ssum := ssum + c
        if ssum > ignore_count then .ok (i % 256)
        else calculate_max_luminance.loop cnt ignore_count fuel
          ((i + (SIZE_MOD - 1)) % SIZE_MOD) ssum
    else .ok 0

/-- Function `calculate_max_luminance` (graphics.cpp 120-129). -/
def calculate_max_luminance (cnt : Histogram) (ignore_count : Int) : Result Nat :=
  calculate_max_luminance.loop cnt ignore_count (MAX_VALUE + 2) MAX_VALUE 0

/-- Function `calculate_new_value` (graphics.cpp 131-147).  The difference
`old_value - min_value` is an `int`, converted to `std::size_t` for the product
with `MAX_VALUE`; the quotient is narrowed to 8 bits on return. -/
def calculate_new_value (old_value diff min_value max_value : Nat) : Nat :=
  if old_value < min_value then 0
  else if old_value > max_value then MAX_VALUE % 256
  else if diff > 0 then
    ((((old_value : Int) - (min_value : Int)) % (SIZE_MOD : Int)).toNat * MAX_VALUE
      % SIZE_MOD / diff) % 256
  else old_value

/-- The 8-bit subtraction `max_luminance - min_luminance` of lines 182 and 264. -/
def diff_u8 (max_luminance min_luminance : Nat) : Nat :=
  (((max_luminance : Int) - (min_luminance : Int)) % 256).toNat

/-! ## Loops over the pixel grid -/

/-- Loop `for (std::size_t i = 0; i < n; i++)` threading the state `s`. -/
def for_range {σ : Type} (n : Nat) (body : Nat → σ → Result σ) (s : σ) : Result σ :=
  (List.range n).foldlM (fun s i => body i s) s

/-- Loop that reads `v[0]`, ..., `v[n-1]` in this order. -/
def fold_indexed {α σ : Type} (v : List α) (n : Nat) (f : σ → α → Result σ) (s : σ) :
    Result σ :=
  for_range n (fun i s =>
    match v[i]? with
    | none => .error (.out_of_bounds i)
    | some a => f s a) s

/-- Loop that overwrites `v[0]`, ..., `v[n-1]` in this order, each from its own
old value. -/
def update_indexed {α : Type} (v : List α) (n : Nat) (f : α → Result α) : Result (List α) :=
  for_range n (fun i v =>
    match v[i]? with
    | none => .error (.out_of_bounds i)
    | some a => do
      let b ← f a
      pure (v.set i b)) v

/-- Statement `cnt[value]++`. -/
def increment (cnt : Histogram) (value : Nat) : Result Histogram :=
  if value < MAX_VALUE + 1 then .ok (Function.update cnt value (cnt value + 1))
  else .error (.out_of_bounds value)

/-- The array `cnt` after `std::fill(cnt.begin(), cnt.end(), 0)`. -/
def zero_histogram : Histogram := fun _ => 0

/-- The critical section: `cnt[value] += local_cnt[value]` for every value from
0 to `MAX_VALUE`. -/
def fold_into (cnt local_cnt : Histogram) : Histogram :=
  fun value => if value ≤ MAX_VALUE then cnt value + local_cnt value else cnt value

/-! ## ImagePGM::normalize (graphics.cpp 149-192) -/

/-- Lines 154-175 of `ImagePGM::normalize`: the histogram of the luminances. -/
def ImagePGM.histogram (img : ImagePGM) : Result Histogram := do
  let local_cnt ← fold_indexed img.matrix img.height (fun cnt row =>
    fold_indexed row img.width (fun cnt p => increment cnt p.luminance) cnt) zero_histogram
  pure (fold_into zero_histogram local_cnt)

/-- The local `min_luminance` of `ImagePGM::normalize` (line 179). -/
def ImagePGM.min_luminance (img : ImagePGM) (ignore_count : Int) : Result Nat := do
  let cnt ← img.histogram
  calculate_min_luminance cnt ignore_count

/-- The local `max_luminance` of `ImagePGM::normalize` (line 180). -/
def ImagePGM.max_luminance (img : ImagePGM) (ignore_count : Int) : Result Nat := do
  let cnt ← img.histogram
  calculate_max_luminance cnt ignore_count

/-- Method `ImagePGM::normalize`, from the histogram to the remapped grid. -/
def ImagePGM.normalize (img : ImagePGM) (ignore_count : Int) : Result ImagePGM := do
  let cnt ← img.histogram
  let min_luminance ← calculate_min_luminance cnt ignore_count
  let max_luminance ← calculate_max_luminance cnt ignore_count
  let diff := diff_u8 max_luminance min_luminance
  let matrix ← update_indexed img.matrix img.height (fun row =>
    update_indexed row img.width (fun p =>
      pure ⟨calculate_new_value p.luminance diff min_luminance max_luminance⟩))
  pure { img with matrix := matrix }

/-! ## ImagePPM::normalize (graphics.cpp 217-282) -/

/-- Lines 222-251 of `ImagePPM::normalize`: the histograms of the three
channels, in the order red, green, blue. -/
def ImagePPM.histograms (img : ImagePPM) : Result (Histogram × Histogram × Histogram) := do
  let (local_red, local_green, local_blue) ←
    fold_indexed img.matrix img.height (fun cnts row =>
      fold_indexed row img.width (fun cnts p => do
        let cnt_red ← increment cnts.1 p.red
        let cnt_green ← increment cnts.2.1 p.green
        let cnt_blue ← increment cnts.2.2 p.blue
        pure (cnt_red, cnt_green, cnt_blue)) cnts)
      (zero_histogram, zero_histogram, zero_histogram)
  pure (fold_into zero_histogram local_red, fold_into zero_histogram local_green,
    fold_into zero_histogram local_blue)

/-- The local `min_luminance` of `ImagePPM::normalize` (lines 254-257). -/
def ImagePPM.min_luminance (img : ImagePPM) (ignore_count : Int) : Result Nat := do
  let (cnt_red, cnt_green, cnt_blue) ← img.histograms
  let min_red ← calculate_min_luminance cnt_red ignore_count
  let min_green ← calculate_min_luminance cnt_green ignore_count
  let min_blue ← calculate_min_luminance cnt_blue ignore_count
  pure (min min_red (min min_green min_blue))

/-- The local `max_luminance` of `ImagePPM::normalize` (lines 259-262). -/
def ImagePPM.max_luminance (img : ImagePPM) (ignore_count : Int) : Result Nat := do
  let (cnt_red, cnt_green, cnt_blue) ← img.histograms
  let max_red ← calculate_max_luminance cnt_red ignore_count
  let max_green ← calculate_max_luminance cnt_green ignore_count
  let max_blue ← calculate_max_luminance cnt_blue ignore_count
  pure (max max_red (max max_green max_blue))

/-- Method `ImagePPM::normalize`, from the histograms to the remapped grid. -/
def ImagePPM.normalize (img : ImagePPM) (ignore_count : Int) : Result ImagePPM := do
  let (cnt_red, cnt_green, cnt_blue) ← img.histograms
  let min_red ← calculate_min_luminance cnt_red ignore_count
  let min_green ← calculate_min_luminance cnt_green ignore_count
  let min_blue ← calculate_min_luminance cnt_blue ignore_count
  let min_luminance := min min_red (min min_green min_blue)
  let max_red ← calculate_max_luminance cnt_red ignore_count
  let max_green ← calculate_max_luminance cnt_green ignore_count
  let max_blue ← calculate_max_luminance cnt_blue ignore_count
  let max_luminance := max max_red (max max_green max_blue)
  let diff := diff_u8 max_luminance min_luminance
  let matrix ← update_indexed img.matrix img.height (fun row =>
    update_indexed row img.width (fun p =>
      pure ⟨calculate_new_value p.red diff min_luminance max_luminance,
        calculate_new_value p.green diff min_luminance max_luminance,
        calculate_new_value p.blue diff min_luminance max_luminance⟩))
  pure { img with matrix := matrix }

/-! ## Streams, text and the header (graphics.cpp 12-107 and 194-215) -/

/-- Member `std::string::find(char)`: position of the first occurrence of `c`. -/
def find (buf : List Nat) (c : Nat) : Option Nat :=
  match buf with
  | [] => none
  | x :: xs => if x = c then some 0 else (find xs c).map (fun pos => pos + 1)

/-- Call `std::getline(in, buf)` on a strict stream: the line without its
newline and the rest of the stream.  Reaching the end of the stream before a
newline raises the failure of the stream. -/
def getline (s : List Nat) : Result (List Nat × List Nat) :=
  match find s 10 with
  | none => .error .ios_failure
  | some pos => .ok (s.take pos, s.drop (pos + 1))

/-- Call `in.read(p, 1)` on a strict stream. -/
def read_byte (s : List Nat) : Result (Nat × List Nat) :=
  match s with
  | [] => .error .ios_failure
  | b :: rest => .ok (b, rest)

/-- Predicate `isspace` of the C locale. -/
def isspace (c : Nat) : Bool := c = 32 || (9 ≤ c && c ≤ 13)

/-- Predicate `isdigit`. -/
def isdigit (c : Nat) : Bool := 48 ≤ c && c ≤ 57

/-- Largest `int`. -/
abbrev INT_MAX : Int := 2147483647

/-- Smallest `int`. -/
abbrev INT_MIN : Int := -2147483648

/-- Library function `std::stoi` in base 10: leading white space is skipped, a
sign is optional, the longest run of digits is converted and whatever follows
is ignored.  No digit raises `std::invalid_argument`, a value outside `int`
raises `std::out_of_range`. -/
def stoi (str : List Nat) : Result Int :=
  let s1 := str.dropWhile isspace
  let negative := s1.head? = some 45
  let s2 := if s1.head? = some 45 ∨ s1.head? = some 43 then s1.tail else s1
  let digits := s2.takeWhile isdigit
  if digits = [] then .error (.invalid_argument "stoi")
  else
    let magnitude : Nat := digits.foldl (fun acc c => acc * 10 + (c - 48)) 0
    let value : Int := if negative then -(magnitude : Int) else (magnitude : Int)
    if value < INT_MIN ∨ INT_MAX < value then .error (.out_of_range "stoi")
    else .ok value

/-- Digits of `std::to_string`, most significant first, pushed in front of
`acc`. -/
def to_string.loop : Nat → Nat → List Nat → List Nat
  | 0, _, acc => acc
  | fuel + 1, n, acc =>
    if n < 10 then (48 + n) :: acc
    else to_string.loop fuel (n / 10) ((48 + n % 10) :: acc)

/-- Library function `std::to_string` on an unsigned value: its decimal digits
without leading zeros. -/
def to_string (n : Nat) : List Nat := to_string.loop (n + 1) n []

/-- Constant `Image::PGM_FORMAT`, the text `P5`. -/
def PGM_FORMAT : List Nat := [80, 53]

/-- Constant `Image::PPM_FORMAT`, the text `P6`. -/
def PPM_FORMAT : List Nat := [80, 54]

/-- Method `Image::print` (graphics.cpp 38-42): the geometry line and the
maximum-value line. -/
def Image.print (width height : Nat) : List Nat :=
  to_string width ++ [32] ++ to_string height ++ [10] ++ to_string MAX_VALUE ++ [10]

/-- Method `Image::read` (graphics.cpp 48-59): width, height and the rest of
the stream.  A geometry line without a space makes the source build a string
from an iterator outside the buffer. -/
def Image.read (s : List Nat) : Result (Nat × Nat × List Nat) := do
  let (buf, s) ← getline s
  match find buf 32 with
  | none => .error (.out_of_bounds (SIZE_MOD - 1))
  | some space_position =>
    let width ← stoi (buf.take space_position)
    let height ← stoi (buf.drop (space_position + 1))
    let (buf, s) ← getline s
    let max_value ← stoi buf
    if (max_value % (SIZE_MOD : Int)).toNat ≠ MAX_VALUE then
      .error (.invalid_argument
        "Wrong format of the input file -- maximum possible value for pixel is not 255.")
    else .ok ((width % (SIZE_MOD : Int)).toNat, (height % (SIZE_MOD : Int)).toNat, s)

/-- Operator `>>` for `grayscale_pixel` (graphics.cpp 28-31). -/
def grayscale_pixel.read (s : List Nat) : Result (grayscale_pixel × List Nat) := do
  let (luminance, s) ← read_byte s
  pure (⟨luminance⟩, s)

/-- Operator `>>` for `RGB_pixel` (graphics.cpp 12-17). -/
def RGB_pixel.read (s : List Nat) : Result (RGB_pixel × List Nat) := do
  let (red, s) ← read_byte s
  let (green, s) ← read_byte s
  let (blue, s) ← read_byte s
  pure (⟨red, green, blue⟩, s)

/-- Reads `n` items one after the other. -/
def read_n {α : Type} (read_one : List Nat → Result (α × List Nat)) :
    Nat → List Nat → Result (List α × List Nat)
  | 0, s => .ok ([], s)
  | n + 1, s => do
    let (a, s) ← read_one s
    let (rest, s) ← read_n read_one n s
    pure (a :: rest, s)

/-- Member `max_size()` of a `std::vector` whose elements take `element_size`
bytes (libstdc++ on a 64-bit platform); a longer vector raises
`std::length_error`. -/
def max_size (element_size : Nat) : Nat := (2 ^ 63 - 1) / element_size

/-- Method `ImagePGM::read` (graphics.cpp 86-95) on a freshly constructed
image: the header, `matrix.resize`, then one byte per pixel in row-major
order. -/
def ImagePGM.read (s : List Nat) : Result (ImagePGM × List Nat) := do
  let (width, height, s) ← Image.read s
  if max_size 1 < width ∨ max_size 24 < height then .error .length_error
  else
    let (matrix, s) ← read_n (read_n grayscale_pixel.read width) height s
    pure (⟨width, height, matrix⟩, s)

/-- Method `ImagePPM::read` (graphics.cpp 194-203) on a freshly constructed
image. -/
def ImagePPM.read (s : List Nat) : Result (ImagePPM × List Nat) := do
  let (width, height, s) ← Image.read s
  if max_size 3 < width ∨ max_size 24 < height then .error .length_error
  else
    let (matrix, s) ← read_n (read_n RGB_pixel.read width) height s
    pure (⟨width, height, matrix⟩, s)

/-- Method `ImagePGM::print` (graphics.cpp 97-107): the bytes written. -/
def ImagePGM.print (img : ImagePGM) : Result (List Nat) :=
  fold_indexed img.matrix img.height (fun out row =>
    fold_indexed row img.width (fun out p => pure (out ++ [p.luminance])) out)
    (PGM_FORMAT ++ [10] ++ Image.print img.width img.height)

/-- Method `ImagePPM::print` (graphics.cpp 205-215): the bytes written. -/
def ImagePPM.print (img : ImagePPM) : Result (List Nat) :=
  fold_indexed img.matrix img.height (fun out row =>
    fold_indexed row img.width (fun out p => pure (out ++ [p.red, p.green, p.blue])) out)
    (PPM_FORMAT ++ [10] ++ Image.print img.width img.height)

/-- An object behind an `Image*`: one of the two concrete classes. -/
inductive Image where
  | pgm (img : ImagePGM)
  | ppm (img : ImagePPM)
  deriving DecidableEq, Repr

/-- Operator `<<` for `Image` (graphics.cpp 44-46): the virtual `print`. -/
def Image.write (image : Image) : Result (List Nat) :=
  match image with
  | .pgm img => img.print
  | .ppm img => img.print

/-- Function `Image::create_image_by_type` (graphics.cpp 68-76). -/
def Image.create_image_by_type (type : List Nat) : Result Image :=
  if type = PGM_FORMAT then .ok (.pgm ⟨0, 0, []⟩)
  else if type = PPM_FORMAT then .ok (.ppm ⟨0, 0, []⟩)
  else .error (.invalid_argument "Unknown format of the image.")

/-- Function `Image::read_image` (graphics.cpp 78-84); `in >> *image` is the
virtual `read` of the object just created. -/
def Image.read_image (s : List Nat) : Result Image := do
  let (type, s) ← getline s
  let image ← Image.create_image_by_type type
  match image with
  | .pgm _ => do
    let (img, _) ← ImagePGM.read s
    pure (.pgm img)
  | .ppm _ => do
    let (img, _) ← ImagePPM.read s
    pure (.ppm img)

/-! ## Vocabulary of the statements -/

/-- Sum `cnt[0] + ... + cnt[i-1]` of the buckets below index `i`. -/
def sum_below (cnt : Histogram) (i : Nat) : Int := ((List.range i).map cnt).sum

/-- Sum `cnt[0] + ... + cnt[i]` of the buckets up to index `i`. -/
def sum_upto (cnt : Histogram) (i : Nat) : Int := sum_below cnt (i + 1)

/-- Sum `cnt[i] + ... + cnt[255]` of the buckets from index `i` on. -/
def sum_from (cnt : Histogram) (i : Nat) : Int :=
  ((List.range' i (MAX_VALUE + 1 - i)).map cnt).sum

/-- Per-value occurrence counts of a list of samples. -/
def counts (vals : List Nat) : Histogram := fun i => (vals.count i : Int)

/-- The luminances of a grayscale image, in row-major order. -/
def ImagePGM.samples (img : ImagePGM) : List Nat :=
  img.matrix.flatten.map (fun p => p.luminance)

/-- The grid has `height` rows of `width` pixels and every sample is an 8-bit
value. -/
def ImagePGM.well_formed (img : ImagePGM) : Prop :=
  img.matrix.length = img.height ∧ (∀ row ∈ img.matrix, row.length = img.width) ∧
    ∀ row ∈ img.matrix, ∀ p ∈ row, p.luminance < 256

instance (img : ImagePGM) : Decidable img.well_formed := by
  unfold ImagePGM.well_formed; infer_instance

/-- The values of the red channel of a colour image, in row-major order. -/
def ImagePPM.reds (img : ImagePPM) : List Nat := img.matrix.flatten.map (fun p => p.red)

/-- The values of the green channel of a colour image, in row-major order. -/
def ImagePPM.greens (img : ImagePPM) : List Nat := img.matrix.flatten.map (fun p => p.green)

/-- The values of the blue channel of a colour image, in row-major order. -/
def ImagePPM.blues (img : ImagePPM) : List Nat := img.matrix.flatten.map (fun p => p.blue)

/-- The grid has `height` rows of `width` pixels and every channel value is an
8-bit value. -/
def ImagePPM.well_formed (img : ImagePPM) : Prop :=
  img.matrix.length = img.height ∧ (∀ row ∈ img.matrix, row.length = img.width) ∧
    ∀ row ∈ img.matrix, ∀ p ∈ row, p.red < 256 ∧ p.green < 256 ∧ p.blue < 256

instance (img : ImagePPM) : Decidable img.well_formed := by
  unfold ImagePPM.well_formed; infer_instance

/-- The pixel at `[row][column]` of a grid, when the grid has one there. -/
def pixel_at {α : Type} (matrix : List (List α)) (row column : Nat) : Option α :=
  (matrix[row]?).bind (fun r => r[column]?)

/-- The three per-channel results of a scan, when all three scans return. -/
def scan3 (scan : Histogram → Int → Result Nat) (img : ImagePPM) (k : Int) :
    Result (Nat × Nat × Nat) := do
  let r ← scan (counts img.reds) k
  let g ← scan (counts img.greens) k
  let b ← scan (counts img.blues) k
  pure (r, g, b)

/-- Remap of one colour pixel with the shared thresholds. -/
def remap_rgb (mn mx : Nat) (p : RGB_pixel) : RGB_pixel :=
  ⟨calculate_new_value p.red (diff_u8 mx mn) mn mx,
    calculate_new_value p.green (diff_u8 mx mn) mn mx,
    calculate_new_value p.blue (diff_u8 mx mn) mn mx⟩

/-! ## Concrete images and histograms used as instances -/

/-- Grayscale image of one row `0 100 200`. -/
def three_level_image : ImagePGM := ⟨3, 1, [[⟨0⟩, ⟨100⟩, ⟨200⟩]]⟩

/-- Grayscale image of two rows `10 20` and `30 40`. -/
def ramp_image : ImagePGM := ⟨2, 2, [[⟨10⟩, ⟨20⟩], [⟨30⟩, ⟨40⟩]]⟩

/-- Histogram of 10 pixels at value 0 and 90 pixels at value 200. -/
def two_level_histogram : Histogram :=
  Function.update (Function.update zero_histogram 0 10) 200 90

/-- Colour image of one row with the two pixels (10, 20, 30) and (40, 50, 60). -/
def two_pixel_colour_image : ImagePPM := ⟨2, 1, [[⟨10, 20, 30⟩, ⟨40, 50, 60⟩]]⟩

/-- Grayscale image of one row `10 100 100`. -/
def dark_outlier_image : ImagePGM := ⟨3, 1, [[⟨10⟩, ⟨100⟩, ⟨100⟩]]⟩

/-- Colour image of one row with twice the pixel (10, 20, 30). -/
def uniform_colour_image : ImagePPM := ⟨2, 1, [[⟨10, 20, 30⟩, ⟨10, 20, 30⟩]]⟩

/-- Grayscale image of two rows `7 7`. -/
def uniform_gray_image : ImagePGM := ⟨2, 2, [[⟨7⟩, ⟨7⟩], [⟨7⟩, ⟨7⟩]]⟩

/-- Colour image of one row with twice the pixel (9, 9, 9). -/
def uniform_grey_colour_image : ImagePPM := ⟨2, 1, [[⟨9, 9, 9⟩, ⟨9, 9, 9⟩]]⟩

/-- The text `P5`, `1 1`, `99999999999` in three lines, then one pixel byte. -/
def header_with_huge_maximum : List Nat :=
  [80, 53, 10, 49, 32, 49, 10, 57, 57, 57, 57, 57, 57, 57, 57, 57, 57, 57, 10, 7]

/-- The text `P5`, `1 1`, `0255` in three lines, then one pixel byte. -/
def header_with_padded_maximum : List Nat :=
  [80, 53, 10, 49, 32, 49, 10, 48, 50, 53, 53, 10, 7]

/-- The header read once both of its lines have been taken from the stream. -/
def parse_header (geometry line rest : List Nat) : Result (Nat × Nat × List Nat) :=
  match find geometry 32 with
  | none => .error (.out_of_bounds (SIZE_MOD - 1))
  | some space_position => do
    let width ← stoi (geometry.take space_position)
    let height ← stoi (geometry.drop (space_position + 1))
    let max_value ← stoi line
    if (max_value % (SIZE_MOD : Int)).toNat ≠ MAX_VALUE then
      .error (.invalid_argument
        "Wrong format of the input file -- maximum possible value for pixel is not 255.")
    else .ok ((width % (SIZE_MOD : Int)).toNat, (height % (SIZE_MOD : Int)).toNat, rest)

/-- Histogram of 5 pixels at value 0 and 5 pixels at value 200. -/
def split_histogram : Histogram :=
  Function.update (Function.update zero_histogram 0 5) 200 5

/-- Grayscale image without pixels, as read from the file `P5`, `0 0`, `255`. -/
def empty_image : ImagePGM := ⟨0, 0, []⟩

/-- Failures that the header and pixel readers can end in. -/
def reader_failure (e : Failure) : Prop :=
  e = .ios_failure ∨ e = .invalid_argument "stoi" ∨ e = .out_of_range "stoi" ∨
  e = .out_of_bounds (SIZE_MOD - 1) ∨ e = .length_error ∨
  e = .invalid_argument
    "Wrong format of the input file -- maximum possible value for pixel is not 255."

/-! ## The driver (main.cpp) -/

/-- Virtual method `normalize` of an `Image`. -/
def Image.normalize (image : Image) (ignore_count : Int) : Result Image :=
  match image with
  | .pgm img => do
    let img ← img.normalize ignore_count
    pure (.pgm img)
  | .ppm img => do
    let img ← img.normalize ignore_count
    pure (.ppm img)

/-- Member `width` of an `Image`. -/
def Image.width (image : Image) : Nat :=
  match image with
  | .pgm img => img.width
  | .ppm img => img.width

/-- Member `height` of an `Image`. -/
def Image.height (image : Image) : Nat :=
  match image with
  | .pgm img => img.height
  | .ppm img => img.height

/-- What a run of the driver takes from outside the program: the files that can
be opened for reading with their contents, the library function `atoi`, the
truncated product `(int)(atof(argument) * width * height)` of line 177, the
value of `omp_get_max_threads()` and the measured time in milliseconds. -/
structure Env where
  file : String → Option (List Nat)
  atoi : String → Int
  truncated_product : String → Nat → Nat → Int
  omp_get_max_threads : Int
  elapsed_ms : Int

/-- How the process ends: `return` of `main` with a code, or `std::terminate`
after an exception that no handler of `main` catches (which includes the
failures of the embedding that stand for undefined behaviour). -/
inductive Exit where
  | code (n : Int)
  | terminate (e : Failure)
  deriving DecidableEq, Repr

/-- What a run of the driver does: the lines printed on standard output, the
paths of the files it opened, the bytes written to the output file, and how the
process ends. -/
structure Run where
  stdout : List String
  opened : List String
  written : Option (String × List Nat)
  exit : Exit
  deriving DecidableEq, Repr

/-- Constant `NUMBER_OF_DEFAULT_ARGUMENTS` of main.cpp. -/
def NUMBER_OF_DEFAULT_ARGUMENTS : Nat := 4

/-- Text of `what()` of the `std::ios_base::failure` of a strict stream
(libstdc++). -/
def ios_failure_what : String := "basic_ios::clear: iostream error"

/-- Line printed by `print_info` (main.cpp 12-21). -/
def print_info (env : Env) (ms threads_count : Int) : String :=
  let threads_count := if threads_count = 0 then env.omp_get_max_threads else threads_count
  "Time (" ++ toString threads_count ++ " thread" ++ (if threads_count > 1 then "s" else "")
    ++ "): " ++ toString ms ++ " ms"

/-- The two `catch` clauses of `main` (main.cpp 52-58), reached with the files
`opened` so far; any other exception leaves `main`. -/
def handle (opened : List String) (e : Failure) : Run :=
  match e with
  | .invalid_argument what => ⟨["Error: " ++ what], opened, none, .code 1⟩
  | .ios_failure => ⟨["Failed to read input file: " ++ ios_failure_what], opened, none, .code 1⟩
  | e => ⟨[], opened, none, .terminate e⟩

/-- Function `main` (main.cpp 27-60); `argv` includes the program name. -/
def main (env : Env) (argv : List String) : Run :=
  if argv.length < NUMBER_OF_DEFAULT_ARGUMENTS then
    handle [] (.invalid_argument "wrong number of arguments.")
  else
    let threads_count := env.atoi (argv.getD 1 "")
    let input_file_name := argv.getD 2 ""
    let output_file_name := argv.getD 3 ""
    match env.file input_file_name with
    | none => handle [input_file_name] .ios_failure
    | some bytes =>
      match Image.read_image bytes with
      | .error e => handle [input_file_name] e
      | .ok image =>
        let ignore_count : Int :=
          match argv[4]? with
          | none => 0
          | some argument => env.truncated_product argument image.width image.height
        match image.normalize ignore_count with
        | .error e => handle [input_file_name] e
        | .ok image =>
          let line := print_info env env.elapsed_ms threads_count
          match image.write with
          | .error e => ⟨[line], [input_file_name, output_file_name], none, .terminate e⟩
          | .ok bytes =>
            ⟨[line], [input_file_name, output_file_name], some (output_file_name, bytes),
              .code 0⟩

/-- An environment with the file `in.pgm` holding the text `P5`, `1 1`,
`99999999999` and one pixel byte, and the file `ramp.pgm` holding the 2 x 2
ramp. -/
def example_env : Env where
  file := fun name =>
    if name = "in.pgm" then some header_with_huge_maximum
    else if name = "ramp.pgm" then
      some [80, 53, 10, 50, 32, 50, 10, 50, 53, 53, 10, 10, 20, 30, 40]
    else none
  atoi := fun _ => 1
  truncated_product := fun _ _ _ => 0
  omp_get_max_threads := 4
  elapsed_ms := 0

/-! ## The parallel regions with an explicit schedule

A schedule of the counting region gives, for each worker in the order in which
the workers enter the critical section, the rows that `omp for` assigned to it;
a schedule of the remap region gives the order in which the row iterations are
carried out. -/

/-- Iterations `order` of a loop that reads `v[i]`. -/
def fold_in_order {α σ : Type} (v : List α) (order : List Nat) (f : σ → α → Result σ) (s : σ) :
    Result σ :=
  order.foldlM (fun s i =>
    match v[i]? with
    | none => .error (.out_of_bounds i)
    | some a => f s a) s

/-- Iterations `order` of a loop that overwrites `v[i]` from its own old value. -/
def update_in_order {α : Type} (v : List α) (order : List Nat) (f : α → Result α) :
    Result (List α) :=
  order.foldlM (fun v i =>
    match v[i]? with
    | none => .error (.out_of_bounds i)
    | some a => do
      let b ← f a
      pure (v.set i b)) v

/-- Lines 154-175 of `ImagePGM::normalize` under a schedule: every worker counts
its rows into a local histogram, which is then folded into the shared one. -/
def ImagePGM.histogram_by (img : ImagePGM) (workers : List (List Nat)) : Result Histogram :=
  workers.foldlM (fun cnt rows => do
    let local_cnt ← fold_in_order img.matrix rows (fun cnt row =>
      fold_indexed row img.width (fun cnt p => increment cnt p.luminance) cnt) zero_histogram
    pure (fold_into cnt local_cnt)) zero_histogram

/-- Method `ImagePGM::normalize` under a schedule of its two parallel regions. -/
def ImagePGM.normalize_by (img : ImagePGM) (workers : List (List Nat)) (order : List Nat)
    (ignore_count : Int) : Result ImagePGM := do
  let cnt ← img.histogram_by workers
  let min_luminance ← calculate_min_luminance cnt ignore_count
  let max_luminance ← calculate_max_luminance cnt ignore_count
  let diff := diff_u8 max_luminance min_luminance
  let matrix ← update_in_order img.matrix order (fun row =>
    update_indexed row img.width (fun p =>
      pure ⟨calculate_new_value p.luminance diff min_luminance max_luminance⟩))
  pure { img with matrix := matrix }

/-- Lines 222-251 of `ImagePPM::normalize` under a schedule. -/
def ImagePPM.histograms_by (img : ImagePPM) (workers : List (List Nat)) :
    Result (Histogram × Histogram × Histogram) :=
  workers.foldlM (fun cnts rows => do
    let (local_red, local_green, local_blue) ←
      fold_in_order img.matrix rows (fun cnts row =>
        fold_indexed row img.width (fun cnts p => do
          let cnt_red ← increment cnts.1 p.red
          let cnt_green ← increment cnts.2.1 p.green
          let cnt_blue ← increment cnts.2.2 p.blue
          pure (cnt_red, cnt_green, cnt_blue)) cnts)
        (zero_histogram, zero_histogram, zero_histogram)
    pure (fold_into cnts.1 local_red, fold_into cnts.2.1 local_green,
      fold_into cnts.2.2 local_blue)) (zero_histogram, zero_histogram, zero_histogram)

/-- Method `ImagePPM::normalize` under a schedule of its two parallel regions. -/
def ImagePPM.normalize_by (img : ImagePPM) (workers : List (List Nat)) (order : List Nat)
    (ignore_count : Int) : Result ImagePPM := do
  let (cnt_red, cnt_green, cnt_blue) ← img.histograms_by workers
  let min_red ← calculate_min_luminance cnt_red ignore_count
  let min_green ← calculate_min_luminance cnt_green ignore_count
  let min_blue ← calculate_min_luminance cnt_blue ignore_count
  let min_luminance := min min_red (min min_green min_blue)
  let max_red ← calculate_max_luminance cnt_red ignore_count
  let max_green ← calculate_max_luminance cnt_green ignore_count
  let max_blue ← calculate_max_luminance cnt_blue ignore_count
  let max_luminance := max max_red (max max_green max_blue)
  let diff := diff_u8 max_luminance min_luminance
  let matrix ← update_in_order img.matrix order (fun row =>
    update_indexed row img.width (fun p =>
      pure ⟨calculate_new_value p.red diff min_luminance max_luminance,
        calculate_new_value p.green diff min_luminance max_luminance,
        calculate_new_value p.blue diff min_luminance max_luminance⟩))
  pure { img with matrix := matrix }

/-- Grayscale image of three rows `1 2`, `3 4`, `5 250`. -/
def three_row_image : ImagePGM := ⟨2, 3, [[⟨1⟩, ⟨2⟩], [⟨3⟩, ⟨4⟩], [⟨5⟩, ⟨250⟩]]⟩

/-- Colour image of two rows of one pixel, (1, 2, 3) and (4, 5, 250). -/
def two_row_colour_image : ImagePPM := ⟨1, 2, [[⟨1, 2, 3⟩], [⟨4, 5, 250⟩]]⟩

/-! ## Auxiliary lemmas -/

set_option maxRecDepth 100000

theorem bucket_ok (cnt : Histogram) (i : Nat) (h : i < 256) : bucket cnt i = .ok (cnt i) := by
  unfold bucket
  simp only [MAX_VALUE]
  rw [if_pos h]

theorem sum_below_succ (cnt : Histogram) (i : Nat) :
    sum_below cnt (i + 1) = sum_below cnt i + cnt i := by
  unfold sum_below
  rw [List.range_succ, List.map_append, List.sum_append]
  simp

theorem sum_from_step (cnt : Histogram) (i : Nat) (h : i < 256) :
    sum_from cnt i = cnt i + sum_from cnt (i + 1) := by
  unfold sum_from
  have e : MAX_VALUE + 1 - i = (MAX_VALUE + 1 - (i + 1)) + 1 := by simp only [MAX_VALUE]; omega
  rw [e, List.range'_succ, List.map_cons, List.sum_cons]

theorem sum_from_end (cnt : Histogram) : sum_from cnt 256 = 0 := by
  unfold sum_from
  rfl

theorem min_loop_spec (cnt : Histogram) (k : Int) :
    ∀ (fuel i : Nat) (psum : Int), i ≤ 256 → 257 ≤ i + fuel →
      psum = sum_below cnt i → (∀ j, j < i → sum_upto cnt j ≤ k) →
      ∃ r, calculate_min_luminance.loop cnt k fuel i psum = .ok r ∧ r < 256 ∧
        ((∃ j, j < 256 ∧ sum_upto cnt j > k) →
          sum_upto cnt r > k ∧ ∀ j, j < r → sum_upto cnt j ≤ k) ∧
        ((∀ j, j < 256 → sum_upto cnt j ≤ k) → r = 255) := by
  intro fuel
  induction fuel with
  | zero => intro i psum hi hf; omega
  | succ fuel ih =>
    intro i psum hi hf hps hlow
    unfold calculate_min_luminance.loop
    by_cases hi2 : i ≤ MAX_VALUE
    · have hil : i < 256 := by simp only [MAX_VALUE] at hi2; omega
      have hsum : sum_upto cnt i = psum + cnt i := by
        unfold sum_upto
        rw [sum_below_succ, hps]
      simp only [hi2, if_true, bucket_ok cnt i hil]
      by_cases hgt : psum + cnt i > k
      · simp only [hgt, if_true]
        have hmod : i % 256 = i := Nat.mod_eq_of_lt (by omega)
        refine ⟨i % 256, rfl, by omega, ?_, ?_⟩
        · intro _
          rw [hmod]
          exact ⟨by rw [hsum]; exact hgt, hlow⟩
        · intro hall
          have := hall i (by omega)
          rw [hsum] at this
          omega
      · simp only [hgt, if_false]
        apply ih (i + 1) (psum + cnt i) (by omega) (by omega) hsum.symm
        intro j hj
        by_cases hji : j = i
        · subst hji; rw [hsum]; omega
        · exact hlow j (by omega)
    · simp only [hi2, if_false]
      have hi3 : i = 256 := by simp only [MAX_VALUE] at hi2; omega
      subst hi3
      refine ⟨255, rfl, by omega, ?_, ?_⟩
      · rintro ⟨j, hj, hjk⟩
        have := hlow j hj
        omega
      · intro _; rfl

theorem max_loop_spec (cnt : Histogram) (k : Int) :
    ∀ (fuel i : Nat) (ssum : Int), i < 256 → i + 1 ≤ fuel →
      ssum = sum_from cnt (i + 1) →
      (∀ j, i < j → j < 256 → sum_from cnt j ≤ k) →
      (∃ j, j ≤ i ∧ sum_from cnt j > k) →
      ∃ r, calculate_max_luminance.loop cnt k fuel i ssum = .ok r ∧ r ≤ i ∧
        sum_from cnt r > k ∧ ∀ j, r < j → j < 256 → sum_from cnt j ≤ k := by
  intro fuel
  induction fuel with
  | zero => intro i ssum hi hf; omega
  | succ fuel ih =>
    intro i ssum hi hf hss hhigh hex
    unfold calculate_max_luminance.loop
    have hsum : sum_from cnt i = ssum + cnt i := by
      rw [sum_from_step cnt i hi, hss]; ring
    simp only [Nat.zero_le, if_true, bucket_ok cnt i hi]
    by_cases hgt : ssum + cnt i > k
    · simp only [hgt, if_true]
      have hmod : i % 256 = i := Nat.mod_eq_of_lt hi
      rw [hmod]
      exact ⟨i, rfl, le_refl _, by rw [hsum]; exact hgt, hhigh⟩
    · simp only [hgt, if_false]
      obtain ⟨j0, hj0, hj0k⟩ := hex
      have hj0i : j0 ≠ i := by
        intro h; subst h; rw [hsum] at hj0k; exact hgt hj0k
      have hpos : 0 < i := by omega
      have hnext : (i + (SIZE_MOD - 1)) % SIZE_MOD = i - 1 := by
        simp only [SIZE_MOD]; omega
      rw [hnext]
      have hi1 : i - 1 + 1 = i := by omega
      obtain ⟨r, hr, hri, hrk, hrhigh⟩ := ih (i - 1) (ssum + cnt i) (by omega) (by omega)
        (by rw [hi1]; exact hsum.symm)
        (by
          intro j hj hj2
          by_cases hji : j = i
          · subst hji; rw [hsum]; omega
          · exact hhigh j (by omega) hj2)
        ⟨j0, by omega, hj0k⟩
      exact ⟨r, hr, by omega, hrk, hrhigh⟩

theorem bind_ok {α β : Type} (a : α) (f : α → Result β) :
    (Except.ok a : Result α) >>= f = f a := rfl

theorem for_range_succ {σ : Type} (n : Nat) (body : Nat → σ → Result σ) (s : σ) :
    for_range (n + 1) body s = for_range n body s >>= body n := by
  unfold for_range
  rw [List.range_succ, List.foldlM_append]
  congr 1
  funext t
  simp [List.foldlM]

theorem fold_indexed_take {α σ : Type} (v : List α) (f : σ → α → Result σ) (s : σ) :
    ∀ n, n ≤ v.length → fold_indexed v n f s = (v.take n).foldlM f s := by
  intro n
  induction n with
  | zero => intro _; simp [fold_indexed, for_range]
  | succ n ih =>
    intro hn
    have hlt : n < v.length := by omega
    have ih2 := ih (by omega)
    unfold fold_indexed at ih2 ⊢
    rw [for_range_succ, ih2, List.take_succ, List.foldlM_append, List.getElem?_eq_getElem hlt]
    congr 1
    funext t
    simp [List.foldlM]

theorem fold_indexed_eq {α σ : Type} (v : List α) (n : Nat) (f : σ → α → Result σ) (s : σ)
    (hn : v.length = n) : fold_indexed v n f s = v.foldlM f s := by
  rw [fold_indexed_take v f s n (by omega), ← hn, List.take_length]

theorem update_indexed_take {α : Type} (v : List α) (f : α → Result α) (g : α → α)
    (hf : ∀ a ∈ v, f a = .ok (g a)) :
    ∀ n, n ≤ v.length →
      update_indexed v n f = .ok ((v.take n).map g ++ v.drop n) := by
  intro n
  induction n with
  | zero => intro _; simp [update_indexed, for_range]; rfl
  | succ n ih =>
    intro hn
    have hlt : n < v.length := by omega
    have ih2 := ih (by omega)
    unfold update_indexed at ih2 ⊢
    rw [for_range_succ, ih2, bind_ok]
    have hlen : ((v.take n).map g).length = n := by simp; omega
    have hget : (List.map g (List.take n v) ++ List.drop n v)[n]? = some v[n] := by
      rw [List.getElem?_append_right (by omega), hlen]
      simp [List.getElem?_drop, List.getElem?_eq_getElem hlt]
    simp only [hget]
    rw [hf _ (List.getElem_mem hlt), bind_ok]
    show Except.ok _ = Except.ok _
    congr 1
    have h1 : (List.map g (List.take n v) ++ List.drop n v).set n (g v[n])
        = List.map g (List.take n v) ++ (List.drop n v).set 0 (g v[n]) := by
      rw [List.set_append_right _ _ (by omega), hlen, Nat.sub_self]
    have h2 : (List.drop n v).set 0 (g v[n]) = g v[n] :: List.drop (n + 1) v := by
      rw [List.drop_eq_getElem_cons hlt]; rfl
    have h3 : List.take (n + 1) v = List.take n v ++ [v[n]] := by
      rw [List.take_succ, List.getElem?_eq_getElem hlt]; rfl
    rw [h1, h2, h3, List.map_append, List.append_assoc]
    rfl

theorem update_indexed_eq {α : Type} (v : List α) (n : Nat) (f : α → Result α) (g : α → α)
    (hf : ∀ a ∈ v, f a = .ok (g a)) (hn : v.length = n) :
    update_indexed v n f = .ok (v.map g) := by
  rw [update_indexed_take v f g hf n (by omega), ← hn]
  simp

theorem increment_counts (vals : List Nat) (v : Nat) (hv : v < 256) :
    increment (counts vals) v = .ok (counts (vals ++ [v])) := by
  unfold increment
  simp only [MAX_VALUE]
  rw [if_pos hv]
  show Except.ok _ = Except.ok _
  congr 1
  funext j
  unfold counts
  by_cases hvj : j = v
  · subst hvj
    simp [Function.update_same, List.count_append]
  · rw [Function.update_noteq hvj]
    have hvj2 : ¬ v = j := fun h => hvj h.symm
    simp [List.count_append, List.count_singleton, hvj2]

theorem zero_histogram_eq : zero_histogram = counts [] := by
  funext j
  simp [zero_histogram, counts]

theorem fold_into_zero (vals : List Nat) (hb : ∀ v ∈ vals, v < 256) :
    fold_into zero_histogram (counts vals) = counts vals := by
  funext j
  unfold fold_into zero_histogram
  by_cases hj : j ≤ MAX_VALUE
  · simp [hj]
  · simp only [hj, if_false]
    have hnot : j ∉ vals := by
      intro hmem
      have := hb j hmem
      simp only [MAX_VALUE] at hj
      omega
    unfold counts
    rw [List.count_eq_zero_of_not_mem hnot]
    rfl

theorem count_row_gray (row : List grayscale_pixel) :
    ∀ vals : List Nat, (∀ p ∈ row, p.luminance < 256) →
      row.foldlM (fun cnt p => increment cnt p.luminance) (counts vals)
        = .ok (counts (vals ++ row.map (fun p => p.luminance))) := by
  induction row with
  | nil => intro vals _; simp [List.foldlM]; rfl
  | cons p row ih =>
    intro vals h
    rw [List.foldlM_cons, increment_counts vals _ (h p (List.mem_cons_self _ _)), bind_ok,
      ih _ (fun q hq => h q (List.mem_cons_of_mem _ hq))]
    simp

theorem count_grid_gray (w : Nat) (m : List (List grayscale_pixel)) :
    ∀ vals : List Nat, (∀ row ∈ m, row.length = w) →
      (∀ row ∈ m, ∀ p ∈ row, p.luminance < 256) →
      m.foldlM (fun cnt row =>
          fold_indexed row w (fun cnt p => increment cnt p.luminance) cnt) (counts vals)
        = .ok (counts (vals ++ m.flatten.map (fun p => p.luminance))) := by
  induction m with
  | nil => intro vals _ _; simp [List.foldlM]; rfl
  | cons row m ih =>
    intro vals hw hb
    rw [List.foldlM_cons, fold_indexed_eq row w _ _ (hw row (List.mem_cons_self _ _)),
      count_row_gray row vals (hb row (List.mem_cons_self _ _)), bind_ok,
      ih _ (fun r hr => hw r (List.mem_cons_of_mem _ hr))
        (fun r hr => hb r (List.mem_cons_of_mem _ hr))]
    simp

theorem pgm_samples_lt (img : ImagePGM) (h : img.well_formed) :
    ∀ v ∈ img.samples, v < 256 := by
  intro v hv
  unfold ImagePGM.samples at hv
  obtain ⟨p, hp, rfl⟩ := List.mem_map.mp hv
  obtain ⟨row, hrow, hprow⟩ := List.mem_flatten.mp hp
  exact h.2.2 row hrow p hprow

theorem ppm_channel_lt (img : ImagePPM) (h : img.well_formed) :
    (∀ v ∈ img.reds, v < 256) ∧ (∀ v ∈ img.greens, v < 256) ∧ (∀ v ∈ img.blues, v < 256) := by
  unfold ImagePPM.reds ImagePPM.greens ImagePPM.blues
  refine ⟨?_, ?_, ?_⟩ <;>
  · intro v hv
    obtain ⟨p, hp, rfl⟩ := List.mem_map.mp hv
    obtain ⟨row, hrow, hprow⟩ := List.mem_flatten.mp hp
    have := h.2.2 row hrow p hprow
    omega

theorem pgm_histogram_eq (img : ImagePGM) (h : img.well_formed) :
    img.histogram = .ok (counts img.samples) := by
  have hlt := pgm_samples_lt img h
  obtain ⟨hh, hw, hb⟩ := h
  unfold ImagePGM.histogram
  rw [fold_indexed_eq img.matrix img.height _ _ hh, zero_histogram_eq,
    count_grid_gray img.width img.matrix [] hw hb, bind_ok, ← zero_histogram_eq]
  show Except.ok _ = Except.ok _
  have e := fold_into_zero img.samples hlt
  unfold ImagePGM.samples at e
  rw [List.nil_append, e]
  rfl

theorem count_row_rgb (row : List RGB_pixel) :
    ∀ r g b : List Nat, (∀ p ∈ row, p.red < 256 ∧ p.green < 256 ∧ p.blue < 256) →
      row.foldlM (fun (cnts : Histogram × Histogram × Histogram) p => do
          let cnt_red ← increment cnts.1 p.red
          let cnt_green ← increment cnts.2.1 p.green
          let cnt_blue ← increment cnts.2.2 p.blue
          pure (cnt_red, cnt_green, cnt_blue)) (counts r, counts g, counts b)
        = .ok (counts (r ++ row.map (fun p => p.red)), counts (g ++ row.map (fun p => p.green)),
            counts (b ++ row.map (fun p => p.blue))) := by
  induction row with
  | nil => intro r g b _; simp [List.foldlM]; rfl
  | cons p row ih =>
    intro r g b h
    obtain ⟨h1, h2, h3⟩ := h p (List.mem_cons_self _ _)
    rw [List.foldlM_cons]
    simp only [increment_counts r _ h1, increment_counts g _ h2, increment_counts b _ h3, bind_ok]
    show List.foldlM _ (counts (r ++ [p.red]), counts (g ++ [p.green]), counts (b ++ [p.blue])) row
      = _
    rw [ih _ _ _ (fun q hq => h q (List.mem_cons_of_mem _ hq))]
    simp

theorem count_grid_rgb (w : Nat) (m : List (List RGB_pixel)) :
    ∀ r g b : List Nat, (∀ row ∈ m, row.length = w) →
      (∀ row ∈ m, ∀ p ∈ row, p.red < 256 ∧ p.green < 256 ∧ p.blue < 256) →
      m.foldlM (fun (cnts : Histogram × Histogram × Histogram) row =>
          fold_indexed row w (fun cnts p => do
            let cnt_red ← increment cnts.1 p.red
            let cnt_green ← increment cnts.2.1 p.green
            let cnt_blue ← increment cnts.2.2 p.blue
            pure (cnt_red, cnt_green, cnt_blue)) cnts) (counts r, counts g, counts b)
        = .ok (counts (r ++ m.flatten.map (fun p => p.red)),
            counts (g ++ m.flatten.map (fun p => p.green)),
            counts (b ++ m.flatten.map (fun p => p.blue))) := by
  induction m with
  | nil => intro r g b _ _; simp [List.foldlM]; rfl
  | cons row m ih =>
    intro r g b hw hb
    rw [List.foldlM_cons, fold_indexed_eq row w _ _ (hw row (List.mem_cons_self _ _)),
      count_row_rgb row r g b (hb row (List.mem_cons_self _ _)), bind_ok,
      ih _ _ _ (fun r hr => hw r (List.mem_cons_of_mem _ hr))
        (fun r hr => hb r (List.mem_cons_of_mem _ hr))]
    simp

theorem ppm_histograms_eq (img : ImagePPM) (h : img.well_formed) :
    img.histograms = .ok (counts img.reds, counts img.greens, counts img.blues) := by
  obtain ⟨l1, l2, l3⟩ := ppm_channel_lt img h
  obtain ⟨hh, hw, hb⟩ := h
  unfold ImagePPM.histograms
  rw [fold_indexed_eq img.matrix img.height _ _ hh, zero_histogram_eq,
    count_grid_rgb img.width img.matrix [] [] [] hw hb, bind_ok, ← zero_histogram_eq]
  show Except.ok _ = Except.ok _
  have e1 := fold_into_zero img.reds l1
  have e2 := fold_into_zero img.greens l2
  have e3 := fold_into_zero img.blues l3
  unfold ImagePPM.reds at e1
  unfold ImagePPM.greens at e2
  unfold ImagePPM.blues at e3
  simp only [List.nil_append]
  rw [e1, e2, e3]
  rfl

theorem countP_lt_succ (vals : List Nat) (i : Nat) :
    vals.countP (fun v => decide (v < i + 1))
      = vals.countP (fun v => decide (v < i)) + vals.count i := by
  induction vals with
  | nil => simp
  | cons a l ih =>
    simp only [List.countP_cons, List.count_cons, ih]
    by_cases h1 : a < i
    · have h2 : a < i + 1 := by omega
      have h3 : ¬ a = i := by omega
      simp [h1, h2, h3]; omega
    · by_cases h3 : a = i
      · subst h3; simp; omega
      · have h2 : ¬ a < i + 1 := by omega
        simp [h1, h2, h3]

theorem sum_below_counts (vals : List Nat) :
    ∀ i, sum_below (counts vals) i = (vals.countP (fun v => decide (v < i)) : Int) := by
  intro i
  induction i with
  | zero => simp [sum_below]
  | succ i ih =>
    rw [sum_below_succ, ih, countP_lt_succ]
    unfold counts
    push_cast
    rfl

theorem sum_upto_counts (vals : List Nat) (i : Nat) :
    sum_upto (counts vals) i = (vals.countP (fun v => decide (v ≤ i)) : Int) := by
  unfold sum_upto
  rw [sum_below_counts vals (i + 1)]
  congr 2
  funext v
  simp [Nat.lt_succ_iff]

theorem countP_le_split (vals : List Nat) (i : Nat) :
    vals.countP (fun v => decide (i ≤ v))
      = vals.count i + vals.countP (fun v => decide (i + 1 ≤ v)) := by
  induction vals with
  | nil => simp
  | cons a l ih =>
    simp only [List.countP_cons, List.count_cons, ih]
    by_cases h1 : i + 1 ≤ a
    · have h2 : i ≤ a := by omega
      have h3 : ¬ a = i := by omega
      simp [h1, h2, h3]; omega
    · by_cases h3 : a = i
      · subst h3; simp; omega
      · have h2 : ¬ i ≤ a := by omega
        simp [h1, h2, h3]

theorem sum_from_counts_aux (vals : List Nat) (hb : ∀ v ∈ vals, v < 256) :
    ∀ n i, i + n = 256 →
      sum_from (counts vals) i = (vals.countP (fun v => decide (i ≤ v)) : Int) := by
  intro n
  induction n with
  | zero =>
    intro i hi
    have hi2 : i = 256 := by omega
    subst hi2
    rw [sum_from_end]
    have : vals.countP (fun v => decide (256 ≤ v)) = 0 := by
      apply List.countP_eq_zero.mpr
      intro v hv
      have := hb v hv
      simp
      omega
    rw [this]
    rfl
  | succ n ih =>
    intro i hi
    rw [sum_from_step _ i (by omega), ih (i + 1) (by omega), countP_le_split vals i]
    unfold counts
    push_cast
    rfl

theorem sum_from_counts (vals : List Nat) (hb : ∀ v ∈ vals, v < 256) (i : Nat) (hi : i ≤ 256) :
    sum_from (counts vals) i = (vals.countP (fun v => decide (i ≤ v)) : Int) :=
  sum_from_counts_aux vals hb (256 - i) i (by omega)

/-- Thresholds found by the two scans on the histogram of `vals`, when fewer
than all samples are ignored. -/
theorem thresholds_counts (vals : List Nat) (hb : ∀ v ∈ vals, v < 256) (k : Int)
    (hk : k < (vals.length : Int)) :
    ∃ mn mx, calculate_min_luminance (counts vals) k = .ok mn ∧
      calculate_max_luminance (counts vals) k = .ok mx ∧ mn < 256 ∧ mx < 256 ∧
      k < (vals.countP (fun v => decide (v ≤ mn)) : Int) ∧
      (∀ j, j < mn → (vals.countP (fun v => decide (v ≤ j)) : Int) ≤ k) ∧
      k < (vals.countP (fun v => decide (mx ≤ v)) : Int) ∧
      (∀ j, mx < j → j < 256 → (vals.countP (fun v => decide (j ≤ v)) : Int) ≤ k) := by
  have htot : sum_from (counts vals) 0 > k := by
    rw [sum_from_counts vals hb 0 (by omega)]
    have : vals.countP (fun v => decide (0 ≤ v)) = vals.length := by
      rw [List.countP_eq_length]; intro v _; simp
    rw [this]; exact hk
  have hall : sum_upto (counts vals) 255 > k := by
    rw [sum_upto_counts vals 255]
    have : vals.countP (fun v => decide (v ≤ 255)) = vals.length := by
      rw [List.countP_eq_length]; intro v hv; have := hb v hv; simp; omega
    rw [this]; exact hk
  obtain ⟨mn, hmn, hmn256, hleast, _⟩ := min_loop_spec (counts vals) k 257 0 0
    (by omega) (by omega) (by simp [sum_below]) (by intro j hj; omega)
  obtain ⟨mx, hmx, hmx255, hmxk, hmxhigh⟩ := max_loop_spec (counts vals) k 257 255 0
    (by omega) (by omega) (by rw [sum_from_end])
    (by intro j h1 h2; omega) ⟨0, by omega, htot⟩
  obtain ⟨hmnk, hmnlow⟩ := hleast ⟨255, by omega, hall⟩
  refine ⟨mn, mx, hmn, hmx, hmn256, by omega, ?_, ?_, ?_, ?_⟩
  · rw [← sum_upto_counts vals mn]; exact hmnk
  · intro j hj
    rw [← sum_upto_counts vals j]; exact hmnlow j hj
  · rw [← sum_from_counts vals hb mx (by omega)]; exact hmxk
  · intro j hj hj2
    rw [← sum_from_counts vals hb j (by omega)]; exact hmxhigh j hj hj2

theorem pixel_at_map {α : Type} (f : α → α) (m : List (List α)) (row column : Nat) :
    pixel_at (m.map (fun r => r.map f)) row column = (pixel_at m row column).map f := by
  unfold pixel_at
  rw [List.getElem?_map]
  cases m[row]? with
  | none => rfl
  | some r => simp [List.getElem?_map]

theorem mem_flatten_of_pixel_at {α : Type} (m : List (List α)) (row column : Nat) (p : α)
    (h : pixel_at m row column = some p) : p ∈ m.flatten := by
  unfold pixel_at at h
  cases hr : m[row]? with
  | none => rw [hr] at h; simp at h
  | some r =>
    rw [hr] at h
    simp only [Option.some_bind] at h
    exact List.mem_flatten.mpr ⟨r, List.getElem?_mem hr, List.getElem?_mem h⟩

theorem length_flatten_uniform {α : Type} (w : Nat) (m : List (List α))
    (h : ∀ row ∈ m, row.length = w) : m.flatten.length = m.length * w := by
  induction m with
  | nil => simp
  | cons r m ih =>
    rw [List.flatten_cons, List.length_append, h r (List.mem_cons_self _ _),
      ih (fun x hx => h x (List.mem_cons_of_mem _ hx)), List.length_cons]
    ring

theorem pgm_samples_length (img : ImagePGM) (h : img.well_formed) :
    img.samples.length = img.width * img.height := by
  unfold ImagePGM.samples
  rw [List.length_map, length_flatten_uniform img.width img.matrix h.2.1, h.1]
  ring

theorem pgm_normalize_eq (img : ImagePGM) (h : img.well_formed) (k : Int) (mn mx : Nat)
    (hmn : calculate_min_luminance (counts img.samples) k = .ok mn)
    (hmx : calculate_max_luminance (counts img.samples) k = .ok mx) :
    img.min_luminance k = .ok mn ∧ img.max_luminance k = .ok mx ∧
    img.normalize k = .ok { img with matrix := img.matrix.map (fun row => row.map (fun p =>
      ⟨calculate_new_value p.luminance (diff_u8 mx mn) mn mx⟩)) } := by
  refine ⟨?_, ?_, ?_⟩
  · unfold ImagePGM.min_luminance
    rw [pgm_histogram_eq img h, bind_ok, hmn]
  · unfold ImagePGM.max_luminance
    rw [pgm_histogram_eq img h, bind_ok, hmx]
  · unfold ImagePGM.normalize
    rw [pgm_histogram_eq img h, bind_ok, hmn, bind_ok, hmx, bind_ok]
    have hrows := update_indexed_eq img.matrix img.height
      (fun row => update_indexed row img.width (fun p =>
        pure ⟨calculate_new_value p.luminance (diff_u8 mx mn) mn mx⟩))
      (fun row => row.map (fun p => ⟨calculate_new_value p.luminance (diff_u8 mx mn) mn mx⟩))
      (fun row hrow => update_indexed_eq row img.width
        (fun p => pure ⟨calculate_new_value p.luminance (diff_u8 mx mn) mn mx⟩)
        (fun p => ⟨calculate_new_value p.luminance (diff_u8 mx mn) mn mx⟩)
        (fun _ _ => rfl) (h.2.1 row hrow))
      h.1
    simp only []
    rw [hrows, bind_ok]
    rfl

theorem mem_of_countP_pos (vals : List Nat) (q : Nat → Bool)
    (h : (0 : Int) < (vals.countP q : Int)) : ∃ v ∈ vals, q v = true := by
  have h2 : 0 < vals.countP q := by exact_mod_cast h
  exact List.countP_pos_iff.mp h2

theorem not_of_countP_le_zero (vals : List Nat) (q : Nat → Bool)
    (h : (vals.countP q : Int) ≤ 0) : ∀ v ∈ vals, q v = false := by
  have h2 : vals.countP q = 0 := by omega
  intro v hv
  have := List.countP_eq_zero.mp h2 v hv
  simpa using this

/-- With nothing ignored the scans return the smallest and the largest sample. -/
theorem thresholds_zero (vals : List Nat) (hb : ∀ v ∈ vals, v < 256) (hne : 0 < vals.length) :
    ∃ mn mx, calculate_min_luminance (counts vals) 0 = .ok mn ∧
      calculate_max_luminance (counts vals) 0 = .ok mx ∧
      mn ∈ vals ∧ (∀ v ∈ vals, mn ≤ v) ∧ mx ∈ vals ∧ (∀ v ∈ vals, v ≤ mx) := by
  obtain ⟨mn, mx, hmn, hmx, hmn256, hmx256, h1, h2, h3, h4⟩ :=
    thresholds_counts vals hb 0 (by exact_mod_cast hne)
  obtain ⟨a, ha, hale⟩ := mem_of_countP_pos vals _ h1
  obtain ⟨b, hb2, hble⟩ := mem_of_countP_pos vals _ h3
  have hlow : ∀ v ∈ vals, mn ≤ v := by
    intro v hv
    by_contra hc
    have hlt : v < mn := by omega
    have := not_of_countP_le_zero vals _ (h2 (mn - 1) (by omega)) v hv
    simp at this
    omega
  have hhigh : ∀ v ∈ vals, v ≤ mx := by
    intro v hv
    by_contra hc
    have hlt : mx < v := by omega
    have := not_of_countP_le_zero vals _ (h4 (mx + 1) (by omega) (by have := hb v hv; omega)) v hv
    simp at this
    omega
  have ha2 : a = mn := by
    have := hlow a ha
    simp at hale
    omega
  have hb3 : b = mx := by
    have := hhigh b hb2
    simp at hble
    omega
  exact ⟨mn, mx, hmn, hmx, ha2 ▸ ha, hlow, hb3 ▸ hb2, hhigh⟩

theorem calculate_new_value_below (v d mn mx : Nat) (h : v < mn) :
    calculate_new_value v d mn mx = 0 := by
  unfold calculate_new_value
  simp [h]

theorem calculate_new_value_above (v d mn mx : Nat) (h1 : mn ≤ v) (h2 : mx < v) :
    calculate_new_value v d mn mx = 255 := by
  unfold calculate_new_value
  have h3 : ¬ v < mn := by omega
  simp [h3, h2]

theorem calculate_new_value_mid (v d mn mx : Nat) (h1 : mn ≤ v) (h2 : v ≤ mx) (hmx : mx < 256)
    (hd : 0 < d) : calculate_new_value v d mn mx = (v - mn) * 255 / d % 256 := by
  unfold calculate_new_value
  have h3 : ¬ v < mn := by omega
  have h4 : ¬ v > mx := by omega
  have h5 : ((((v : Int) - (mn : Int)) % (SIZE_MOD : Int)).toNat) = v - mn := by
    have : ((SIZE_MOD : Nat) : Int) = 18446744073709551616 := by norm_num [SIZE_MOD]
    rw [this]
    omega
  have h6 : (v - mn) * MAX_VALUE % SIZE_MOD = (v - mn) * 255 := by
    apply Nat.mod_eq_of_lt
    have : (v - mn) * 255 < 256 * 255 := by
      apply Nat.mul_lt_mul_of_pos_right (by omega) (by omega)
    simp only [MAX_VALUE, SIZE_MOD]
    omega
  simp only [h3, h4, hd, if_false, if_true, h5, h6]

theorem calculate_new_value_same (v d mn mx : Nat) (h1 : mn ≤ v) (h2 : v ≤ mx) (hd : d = 0) :
    calculate_new_value v d mn mx = v := by
  unfold calculate_new_value
  have h3 : ¬ v < mn := by omega
  have h4 : ¬ v > mx := by omega
  simp [h3, h4, hd]

theorem diff_u8_of_le (mx mn : Nat) (h : mn ≤ mx) (hmx : mx < 256) : diff_u8 mx mn = mx - mn := by
  unfold diff_u8
  omega

theorem ppm_channel_length (img : ImagePPM) (h : img.well_formed) :
    img.reds.length = img.width * img.height ∧ img.greens.length = img.width * img.height ∧
    img.blues.length = img.width * img.height := by
  unfold ImagePPM.reds ImagePPM.greens ImagePPM.blues
  simp only [List.length_map, length_flatten_uniform img.width img.matrix h.2.1, h.1]
  refine ⟨?_, ?_, ?_⟩ <;> ring

theorem pgm_min_luminance_eq (img : ImagePGM) (h : img.well_formed) (k : Int) :
    img.min_luminance k = calculate_min_luminance (counts img.samples) k := by
  unfold ImagePGM.min_luminance
  rw [pgm_histogram_eq img h, bind_ok]

theorem pgm_max_luminance_eq (img : ImagePGM) (h : img.well_formed) (k : Int) :
    img.max_luminance k = calculate_max_luminance (counts img.samples) k := by
  unfold ImagePGM.max_luminance
  rw [pgm_histogram_eq img h, bind_ok]

theorem ppm_min_luminance_eq (img : ImagePPM) (h : img.well_formed) (k : Int) :
    img.min_luminance k = (do
      let t ← scan3 calculate_min_luminance img k
      pure (min t.1 (min t.2.1 t.2.2))) := by
  unfold ImagePPM.min_luminance scan3
  rw [ppm_histograms_eq img h, bind_ok]
  dsimp only
  cases calculate_min_luminance (counts img.reds) k with
  | error e => rfl
  | ok r =>
    cases calculate_min_luminance (counts img.greens) k with
    | error e => rfl
    | ok g =>
      cases calculate_min_luminance (counts img.blues) k with
      | error e => rfl
      | ok b => rfl

theorem ppm_max_luminance_eq (img : ImagePPM) (h : img.well_formed) (k : Int) :
    img.max_luminance k = (do
      let t ← scan3 calculate_max_luminance img k
      pure (max t.1 (max t.2.1 t.2.2))) := by
  unfold ImagePPM.max_luminance scan3
  rw [ppm_histograms_eq img h, bind_ok]
  dsimp only
  cases calculate_max_luminance (counts img.reds) k with
  | error e => rfl
  | ok r =>
    cases calculate_max_luminance (counts img.greens) k with
    | error e => rfl
    | ok g =>
      cases calculate_max_luminance (counts img.blues) k with
      | error e => rfl
      | ok b => rfl

theorem scan3_ok (scan : Histogram → Int → Result Nat) (img : ImagePPM) (k : Int) (r g b : Nat)
    (hr : scan (counts img.reds) k = .ok r) (hg : scan (counts img.greens) k = .ok g)
    (hb : scan (counts img.blues) k = .ok b) : scan3 scan img k = .ok (r, g, b) := by
  unfold scan3
  rw [hr, hg, hb]
  rfl

theorem scan3_inv (scan : Histogram → Int → Result Nat) (img : ImagePPM) (k : Int)
    (t : Nat × Nat × Nat) (h : scan3 scan img k = .ok t) :
    scan (counts img.reds) k = .ok t.1 ∧ scan (counts img.greens) k = .ok t.2.1 ∧
    scan (counts img.blues) k = .ok t.2.2 := by
  unfold scan3 at h
  cases hr : scan (counts img.reds) k with
  | error e => rw [hr] at h; cases h
  | ok r =>
    cases hg : scan (counts img.greens) k with
    | error e => rw [hr, hg] at h; cases h
    | ok g =>
      cases hb : scan (counts img.blues) k with
      | error e => rw [hr, hg, hb] at h; cases h
      | ok b =>
        rw [hr, hg, hb] at h
        cases h
        exact ⟨rfl, rfl, rfl⟩

theorem ppm_normalize_eq (img : ImagePPM) (h : img.well_formed) (k : Int)
    (tmin tmax : Nat × Nat × Nat)
    (hmin : scan3 calculate_min_luminance img k = .ok tmin)
    (hmax : scan3 calculate_max_luminance img k = .ok tmax) :
    img.normalize k = .ok ⟨img.width, img.height, img.matrix.map (fun row => row.map
      (remap_rgb (min tmin.1 (min tmin.2.1 tmin.2.2)) (max tmax.1 (max tmax.2.1 tmax.2.2))))⟩ := by
  obtain ⟨a1, a2, a3⟩ := scan3_inv _ img k tmin hmin
  obtain ⟨b1, b2, b3⟩ := scan3_inv _ img k tmax hmax
  unfold ImagePPM.normalize
  rw [ppm_histograms_eq img h, bind_ok]
  simp only [a1, a2, a3, b1, b2, b3, bind_ok]
  have hrows := update_indexed_eq img.matrix img.height
    (fun row => update_indexed row img.width (fun p => pure
      (remap_rgb (min tmin.1 (min tmin.2.1 tmin.2.2)) (max tmax.1 (max tmax.2.1 tmax.2.2)) p)))
    (fun row => row.map
      (remap_rgb (min tmin.1 (min tmin.2.1 tmin.2.2)) (max tmax.1 (max tmax.2.1 tmax.2.2))))
    (fun row hrow => update_indexed_eq row img.width
      (fun p => pure
        (remap_rgb (min tmin.1 (min tmin.2.1 tmin.2.2)) (max tmax.1 (max tmax.2.1 tmax.2.2)) p))
      (remap_rgb (min tmin.1 (min tmin.2.1 tmin.2.2)) (max tmax.1 (max tmax.2.1 tmax.2.2)))
      (fun _ _ => rfl) (h.2.1 row hrow))
    h.1
  unfold remap_rgb at hrows
  rw [hrows, bind_ok]
  rfl

theorem bind_eq_ok {α β : Type} (x : Result α) (f : α → Result β) (b : β)
    (h : x >>= f = .ok b) : ∃ a, x = .ok a ∧ f a = .ok b := by
  cases x with
  | error e => cases h
  | ok a => exact ⟨a, rfl, h⟩

theorem calculate_max_luminance_empty :
    calculate_max_luminance (counts []) 0 = .error (.out_of_bounds (2 ^ 64 - 1)) := by
  decide

theorem calculate_new_value_equal_thresholds (v m : Nat) :
    calculate_new_value v (diff_u8 m m) m m
      = if v < m then 0 else if m < v then 255 else v := by
  have hd : diff_u8 m m = 0 := by unfold diff_u8; simp
  unfold calculate_new_value
  rw [hd]
  simp

theorem map_map_eq_self {α : Type} (f : α → α) (m : List (List α))
    (h : ∀ row ∈ m, ∀ p ∈ row, f p = p) : m.map (fun row => row.map f) = m := by
  induction m with
  | nil => rfl
  | cons r m ih =>
    rw [List.map_cons, ih (fun row hrow => h row (List.mem_cons_of_mem _ hrow))]
    congr 1
    have hr := h r (List.mem_cons_self _ _)
    clear ih h
    induction r with
    | nil => rfl
    | cons a r ih2 =>
      rw [List.map_cons, hr a (List.mem_cons_self _ _),
        ih2 (fun p hp => hr p (List.mem_cons_of_mem _ hp))]

theorem gray_equal_thresholds (img : ImagePGM) (k : Int) (m : Nat) (hwf : img.well_formed)
    (hmin : img.min_luminance k = .ok m) (hmax : img.max_luminance k = .ok m) :
    ∃ img', img.normalize k = .ok img' ∧
      (∀ (row column : Nat) (p : grayscale_pixel), pixel_at img.matrix row column = some p →
        pixel_at img'.matrix row column
          = some ⟨if p.luminance < m then 0 else if m < p.luminance then 255 else p.luminance⟩) ∧
      (k = 0 → img' = img) := by
  rw [pgm_min_luminance_eq img hwf] at hmin
  rw [pgm_max_luminance_eq img hwf] at hmax
  obtain ⟨_, _, e3⟩ := pgm_normalize_eq img hwf k m m hmin hmax
  refine ⟨_, e3, ?_, ?_⟩
  · intro row column p hp
    have hmap := pixel_at_map
      (fun p : grayscale_pixel => ⟨calculate_new_value p.luminance (diff_u8 m m) m m⟩)
      img.matrix row column
    rw [hp, Option.map_some', calculate_new_value_equal_thresholds] at hmap
    exact hmap
  · intro hk
    subst hk
    have hb := pgm_samples_lt img hwf
    have hne : 0 < img.samples.length := by
      rcases Nat.eq_zero_or_pos img.samples.length with h0 | h0
      · rw [List.length_eq_zero.mp h0, calculate_max_luminance_empty] at hmax
        cases hmax
      · exact h0
    obtain ⟨mn, mx, hmn, hmx, h1, h2, h3, h4⟩ := thresholds_zero img.samples hb hne
    rw [hmin] at hmn
    rw [hmax] at hmx
    cases hmn
    cases hmx
    have hall : ∀ row ∈ img.matrix, ∀ p ∈ row,
        (⟨calculate_new_value p.luminance (diff_u8 m m) m m⟩ : grayscale_pixel) = p := by
      intro row hrow p hp
      have hmem : p.luminance ∈ img.samples :=
        List.mem_map.mpr ⟨p, List.mem_flatten.mpr ⟨row, hrow, hp⟩, rfl⟩
      have hv : p.luminance = m := Nat.le_antisymm (h4 _ hmem) (h2 _ hmem)
      rw [calculate_new_value_equal_thresholds, hv]
      cases p
      simp at hv ⊢
      exact hv.symm
    have hm := map_map_eq_self
      (fun p : grayscale_pixel => ⟨calculate_new_value p.luminance (diff_u8 m m) m m⟩)
      img.matrix hall
    cases img
    simp only [ImagePGM.mk.injEq, true_and]
    exact hm

theorem channel_nonempty_of_max (vals : List Nat) (r : Nat)
    (h : calculate_max_luminance (counts vals) 0 = .ok r) : 0 < vals.length := by
  rcases Nat.eq_zero_or_pos vals.length with h0 | h0
  · rw [List.length_eq_zero.mp h0, calculate_max_luminance_empty] at h
    cases h
  · exact h0

theorem channel_all_eq (vals : List Nat) (hb : ∀ v ∈ vals, v < 256) (m lo hi : Nat)
    (hlo : calculate_min_luminance (counts vals) 0 = .ok lo)
    (hhi : calculate_max_luminance (counts vals) 0 = .ok hi)
    (h1 : m ≤ lo) (h2 : hi ≤ m) : ∀ v ∈ vals, v = m := by
  obtain ⟨mn, mx, hmn, hmx, _, a2, _, a4⟩ :=
    thresholds_zero vals hb (channel_nonempty_of_max vals hi hhi)
  rw [hlo] at hmn
  rw [hhi] at hmx
  cases hmn
  cases hmx
  intro v hv
  have := a2 v hv
  have := a4 v hv
  omega

theorem colour_equal_thresholds (img : ImagePPM) (k : Int) (m : Nat) (hwf : img.well_formed)
    (hmin : img.min_luminance k = .ok m) (hmax : img.max_luminance k = .ok m) :
    ∃ img', img.normalize k = .ok img' ∧
      (∀ (row column : Nat) (p : RGB_pixel), pixel_at img.matrix row column = some p →
        pixel_at img'.matrix row column
          = some ⟨if p.red < m then 0 else if m < p.red then 255 else p.red,
              if p.green < m then 0 else if m < p.green then 255 else p.green,
              if p.blue < m then 0 else if m < p.blue then 255 else p.blue⟩) ∧
      (k = 0 → img' = img) := by
  rw [ppm_min_luminance_eq img hwf] at hmin
  rw [ppm_max_luminance_eq img hwf] at hmax
  obtain ⟨tmin, hsmin, hpmin⟩ := bind_eq_ok _ _ _ hmin
  obtain ⟨tmax, hsmax, hpmax⟩ := bind_eq_ok _ _ _ hmax
  have emin : min tmin.1 (min tmin.2.1 tmin.2.2) = m := by cases hpmin; rfl
  have emax : max tmax.1 (max tmax.2.1 tmax.2.2) = m := by cases hpmax; rfl
  have e3 := ppm_normalize_eq img hwf k tmin tmax hsmin hsmax
  rw [emin, emax] at e3
  refine ⟨_, e3, ?_, ?_⟩
  · intro row column p hp
    have hmap := pixel_at_map (remap_rgb m m) img.matrix row column
    have hval : remap_rgb m m p
        = ⟨if p.red < m then 0 else if m < p.red then 255 else p.red,
            if p.green < m then 0 else if m < p.green then 255 else p.green,
            if p.blue < m then 0 else if m < p.blue then 255 else p.blue⟩ := by
      unfold remap_rgb
      simp only [calculate_new_value_equal_thresholds]
    rw [hp, Option.map_some', hval] at hmap
    exact hmap
  · intro hk
    subst hk
    obtain ⟨br, bg, bb⟩ := ppm_channel_lt img hwf
    obtain ⟨n1, n2, n3⟩ := scan3_inv _ img 0 tmin hsmin
    obtain ⟨x1, x2, x3⟩ := scan3_inv _ img 0 tmax hsmax
    have hr := channel_all_eq img.reds br m _ _ n1 x1 (by omega) (by omega)
    have hg := channel_all_eq img.greens bg m _ _ n2 x2 (by omega) (by omega)
    have hbl := channel_all_eq img.blues bb m _ _ n3 x3 (by omega) (by omega)
    have hall : ∀ row ∈ img.matrix, ∀ p ∈ row, remap_rgb m m p = p := by
      intro row hrow p hp
      have hflat : p ∈ img.matrix.flatten := List.mem_flatten.mpr ⟨row, hrow, hp⟩
      have h1 : p.red = m := hr _ (List.mem_map.mpr ⟨p, hflat, rfl⟩)
      have h2 : p.green = m := hg _ (List.mem_map.mpr ⟨p, hflat, rfl⟩)
      have h3 : p.blue = m := hbl _ (List.mem_map.mpr ⟨p, hflat, rfl⟩)
      unfold remap_rgb
      simp only [calculate_new_value_equal_thresholds, h1, h2, h3]
      cases p
      simp at h1 h2 h3 ⊢
      exact ⟨h1.symm, h2.symm, h3.symm⟩
    have hm := map_map_eq_self (remap_rgb m m) img.matrix hall
    cases img
    simp only [ImagePPM.mk.injEq, true_and]
    exact hm

theorem find_append_of_not_mem (l r : List Nat) (c : Nat) (h : c ∉ l) :
    find (l ++ c :: r) c = some l.length := by
  induction l with
  | nil => simp [find]
  | cons x xs ih =>
    have hx : ¬ x = c := fun e => h (e ▸ List.mem_cons_self _ _)
    have hxs : c ∉ xs := fun e => h (List.mem_cons_of_mem _ e)
    simp [find, hx, ih hxs]

theorem getline_line (l r : List Nat) (h : 10 ∉ l) : getline (l ++ 10 :: r) = .ok (l, r) := by
  unfold getline
  rw [find_append_of_not_mem l r 10 h]
  simp

theorem to_string_loop_digits (fuel : Nat) :
    ∀ (n : Nat) (acc : List Nat), (∀ c ∈ acc, isdigit c = true) →
      ∀ c ∈ to_string.loop fuel n acc, isdigit c = true := by
  induction fuel with
  | zero => intro n acc h; simpa [to_string.loop] using h
  | succ fuel ih =>
    intro n acc h
    unfold to_string.loop
    by_cases hn : n < 10
    · simp only [hn, if_true]
      intro c hc
      rcases List.mem_cons.mp hc with rfl | hc
      · simp [isdigit]; omega
      · exact h c hc
    · simp only [hn, if_false]
      apply ih
      intro c hc
      rcases List.mem_cons.mp hc with rfl | hc
      · simp [isdigit]; omega
      · exact h c hc

theorem to_string_loop_ne_nil (fuel : Nat) :
    ∀ (n : Nat) (acc : List Nat), acc ≠ [] → to_string.loop fuel n acc ≠ [] := by
  induction fuel with
  | zero => intro n acc h; simpa [to_string.loop] using h
  | succ fuel ih =>
    intro n acc h
    unfold to_string.loop
    by_cases hn : n < 10
    · simp [hn]
    · simp only [hn, if_false]
      exact ih _ _ (by simp)

theorem to_string_ne_nil (n : Nat) : to_string n ≠ [] := by
  unfold to_string to_string.loop
  by_cases hn : n < 10
  · simp [hn]
  · simp only [hn, if_false]
    exact to_string_loop_ne_nil _ _ _ (by simp)

theorem to_string_digits (n : Nat) : ∀ c ∈ to_string n, isdigit c = true :=
  to_string_loop_digits (n + 1) n [] (by simp)

theorem to_string_loop_value (fuel : Nat) :
    ∀ (n : Nat) (acc : List Nat) (m L : Nat), n < fuel →
      (∀ a0, acc.foldl (fun a c => a * 10 + (c - 48)) a0 = a0 * 10 ^ L + m) →
      ∃ L', ∀ a0, (to_string.loop fuel n acc).foldl (fun a c => a * 10 + (c - 48)) a0
        = a0 * 10 ^ L' + (n * 10 ^ L + m) := by
  induction fuel with
  | zero => intro n acc m L h; omega
  | succ fuel ih =>
    intro n acc m L hn hacc
    unfold to_string.loop
    by_cases h10 : n < 10
    · simp only [h10, if_true]
      refine ⟨L + 1, fun a0 => ?_⟩
      rw [List.foldl_cons, hacc]
      have : 48 + n - 48 = n := by omega
      rw [this]
      ring
    · simp only [h10, if_false]
      have hstep : ∀ a0, ((48 + n % 10) :: acc).foldl (fun a c => a * 10 + (c - 48)) a0
          = a0 * 10 ^ (L + 1) + (n % 10 * 10 ^ L + m) := by
        intro a0
        rw [List.foldl_cons, hacc]
        have : 48 + n % 10 - 48 = n % 10 := by omega
        rw [this]
        ring
      obtain ⟨L', hL'⟩ := ih (n / 10) _ _ (L + 1) (by omega) hstep
      refine ⟨L', fun a0 => ?_⟩
      rw [hL']
      have hdiv : n / 10 * 10 ^ (L + 1) + (n % 10 * 10 ^ L + m) = n * 10 ^ L + m := by
        have h := Nat.div_add_mod n 10
        calc n / 10 * 10 ^ (L + 1) + (n % 10 * 10 ^ L + m)
            = (10 * (n / 10) + n % 10) * 10 ^ L + m := by ring
          _ = n * 10 ^ L + m := by rw [h]
      rw [hdiv]

theorem to_string_value (n : Nat) :
    (to_string n).foldl (fun a c => a * 10 + (c - 48)) 0 = n := by
  obtain ⟨L', h⟩ := to_string_loop_value (n + 1) n [] 0 0 (by omega) (by intro a0; simp)
  have := h 0
  simpa [to_string] using this

theorem stoi_to_string (n : Nat) (hn : n < 2 ^ 31) : stoi (to_string n) = .ok (n : Int) := by
  have hne := to_string_ne_nil n
  have hdig := to_string_digits n
  have hval := to_string_value n
  obtain ⟨c, t, hct⟩ := List.exists_cons_of_ne_nil hne
  have hc : isdigit c = true := hdig c (by rw [hct]; exact List.mem_cons_self _ _)
  have hc2 : 48 ≤ c ∧ c ≤ 57 := by simpa [isdigit] using hc
  have hsp : isspace c = false := by
    simp [isspace]; omega
  have h1 : (to_string n).dropWhile isspace = to_string n := by
    rw [hct, List.dropWhile_cons, hsp]; rfl
  have h2 : (to_string n).head? = some c := by rw [hct]; rfl
  have h3 : ¬ ((to_string n).head? = some 45 ∨ (to_string n).head? = some 43) := by
    rw [h2]
    simp
    omega
  have h4 : ¬ ((to_string n).head? = some 45) := fun h => h3 (Or.inl h)
  have h5 : (to_string n).takeWhile isdigit = to_string n :=
    List.takeWhile_eq_self_iff.mpr hdig
  have hr : ¬ (((n : Nat) : Int) < INT_MIN ∨ INT_MAX < ((n : Nat) : Int)) := by
    simp only [INT_MIN, INT_MAX]
    have : (n : Int) < 2147483648 := by
      have : n < 2147483648 := by simpa using hn
      exact_mod_cast this
    omega
  unfold stoi
  dsimp only
  rw [h1, if_neg h3, h5, if_neg hne, hval, if_neg h4, if_neg hr]

theorem not_mem_to_string (n c : Nat) (hc : isdigit c = false) : c ∉ to_string n := by
  intro h
  rw [to_string_digits n c h] at hc
  cases hc

theorem header_read_lines (geometry line rest : List Nat) (hg : 10 ∉ geometry)
    (hl : 10 ∉ line) :
    Image.read (geometry ++ 10 :: (line ++ 10 :: rest)) = parse_header geometry line rest := by
  unfold Image.read parse_header
  rw [getline_line geometry _ hg, bind_ok]
  dsimp only
  cases find geometry 32 with
  | none => rfl
  | some pos =>
    dsimp only
    cases stoi (List.take pos geometry) with
    | error e => rfl
    | ok w =>
      rw [bind_ok, bind_ok]
      cases stoi (List.drop (pos + 1) geometry) with
      | error e => rfl
      | ok h =>
        rw [bind_ok, bind_ok, getline_line line _ hl, bind_ok]

theorem to_string_max_value : to_string MAX_VALUE = [50, 53, 53] := by decide

theorem header_read_print (width height : Nat) (rest : List Nat) (hw : width < 2 ^ 31)
    (hh : height < 2 ^ 31) :
    Image.read (Image.print width height ++ rest) = .ok (width, height, rest) := by
  have h10w := not_mem_to_string width 10 (by decide)
  have h10h := not_mem_to_string height 10 (by decide)
  have h32w := not_mem_to_string width 32 (by decide)
  have hform : Image.print width height ++ rest
      = (to_string width ++ 32 :: to_string height) ++ 10 :: ([50, 53, 53] ++ 10 :: rest) := by
    unfold Image.print
    rw [to_string_max_value]
    simp [List.append_assoc]
  have hg : 10 ∉ to_string width ++ 32 :: to_string height := by
    intro h
    rcases List.mem_append.mp h with h | h
    · exact h10w h
    · rcases List.mem_cons.mp h with h | h
      · cases h
      · exact h10h h
  rw [hform, header_read_lines _ _ _ hg (by decide)]
  unfold parse_header
  rw [find_append_of_not_mem _ _ 32 h32w]
  dsimp only
  have ht : (to_string width ++ 32 :: to_string height).take (to_string width).length
      = to_string width := List.take_left' rfl
  have hd : (to_string width ++ 32 :: to_string height).drop ((to_string width).length + 1)
      = to_string height := by
    have e : to_string width ++ 32 :: to_string height
        = (to_string width ++ [32]) ++ to_string height := by simp
    rw [e]
    exact List.drop_left' (by simp)
  rw [ht, hd, stoi_to_string width hw, stoi_to_string height hh]
  have h255 : stoi [50, 53, 53] = .ok 255 := by decide
  rw [bind_ok, bind_ok, h255, bind_ok]
  have e1 : (((width : Int) % (SIZE_MOD : Int)).toNat) = width := by
    have : ((SIZE_MOD : Nat) : Int) = 18446744073709551616 := by norm_num [SIZE_MOD]
    rw [this]
    have : width < 2147483648 := by simpa using hw
    omega
  have e2 : (((height : Int) % (SIZE_MOD : Int)).toNat) = height := by
    have : ((SIZE_MOD : Nat) : Int) = 18446744073709551616 := by norm_num [SIZE_MOD]
    rw [this]
    have : height < 2147483648 := by simpa using hh
    omega
  rw [e1, e2]
  rfl

theorem read_n_encoded {α : Type} (read_one : List Nat → Result (α × List Nat))
    (enc : α → List Nat) (l : List α)
    (h : ∀ a ∈ l, ∀ s, read_one (enc a ++ s) = .ok (a, s)) :
    ∀ s, read_n read_one l.length ((l.map enc).flatten ++ s) = .ok (l, s) := by
  induction l with
  | nil => intro s; rfl
  | cons a l ih =>
    intro s
    have e : ((a :: l).map enc).flatten ++ s = enc a ++ ((l.map enc).flatten ++ s) := by
      simp [List.append_assoc]
    rw [e, List.length_cons]
    unfold read_n
    rw [h a (List.mem_cons_self _ _), bind_ok]
    dsimp only
    rw [ih (fun b hb => h b (List.mem_cons_of_mem _ hb)), bind_ok]
    rfl

theorem write_cells {α : Type} (enc : α → List Nat) (row : List α) :
    ∀ out : List Nat, row.foldlM (fun out p => (pure (out ++ enc p) : Result (List Nat))) out
      = .ok (out ++ (row.map enc).flatten) := by
  induction row with
  | nil => intro out; simp [List.foldlM]; rfl
  | cons p row ih =>
    intro out
    rw [List.foldlM_cons]
    show List.foldlM _ (out ++ enc p) row = _
    rw [ih]
    simp [List.append_assoc]

theorem write_grid {α : Type} (enc : α → List Nat) (w : Nat) (m : List (List α))
    (hw : ∀ row ∈ m, row.length = w) :
    ∀ out : List Nat, m.foldlM (fun out row =>
        fold_indexed row w (fun out p => (pure (out ++ enc p) : Result (List Nat))) out) out
      = .ok (out ++ (m.map (fun row => (row.map enc).flatten)).flatten) := by
  induction m with
  | nil => intro out; simp [List.foldlM]; rfl
  | cons row m ih =>
    intro out
    rw [List.foldlM_cons, fold_indexed_eq row w _ _ (hw row (List.mem_cons_self _ _)),
      write_cells, bind_ok, ih (fun r hr => hw r (List.mem_cons_of_mem _ hr))]
    simp [List.append_assoc]

theorem read_grid {α : Type} (read_one : List Nat → Result (α × List Nat))
    (enc : α → List Nat) (hread : ∀ a s, read_one (enc a ++ s) = .ok (a, s))
    (w : Nat) (m : List (List α)) (hw : ∀ row ∈ m, row.length = w) (s : List Nat) :
    read_n (read_n read_one w) m.length
      ((m.map (fun row => (row.map enc).flatten)).flatten ++ s) = .ok (m, s) := by
  apply read_n_encoded (read_n read_one w) (fun row => (row.map enc).flatten) m
  intro row hrow s'
  have := read_n_encoded read_one enc row (fun a _ s => hread a s) s'
  rw [hw row hrow] at this
  exact this

theorem stoi_range (str : List Nat) (n : Int) (h : stoi str = .ok n) :
    INT_MIN ≤ n ∧ n ≤ INT_MAX := by
  unfold stoi at h
  dsimp only at h
  split_ifs at h with h1 h2 h3 h4 h5 h6
  all_goals first
    | (cases h; done)
    | (injection h with h; subst h; simp only [not_or, not_lt] at *; assumption)

theorem max_size_values : max_size 1 = 9223372036854775807 ∧
    max_size 3 = 3074457345618258602 ∧ max_size 24 = 384307168202282325 := by
  decide

theorem pgm_print_eq (img : ImagePGM) (h : img.well_formed) :
    img.print = .ok (PGM_FORMAT ++ 10 :: (Image.print img.width img.height ++
      (img.matrix.map (fun row => (row.map (fun p => [p.luminance])).flatten)).flatten)) := by
  unfold ImagePGM.print
  rw [fold_indexed_eq img.matrix img.height _ _ h.1]
  have := write_grid (fun p : grayscale_pixel => [p.luminance]) img.width img.matrix h.2.1
    (PGM_FORMAT ++ [10] ++ Image.print img.width img.height)
  rw [this]
  simp [List.append_assoc]

theorem ppm_print_eq (img : ImagePPM) (h : img.well_formed) :
    img.print = .ok (PPM_FORMAT ++ 10 :: (Image.print img.width img.height ++
      (img.matrix.map (fun row =>
        (row.map (fun p => [p.red, p.green, p.blue])).flatten)).flatten)) := by
  unfold ImagePPM.print
  rw [fold_indexed_eq img.matrix img.height _ _ h.1]
  have := write_grid (fun p : RGB_pixel => [p.red, p.green, p.blue]) img.width img.matrix h.2.1
    (PPM_FORMAT ++ [10] ++ Image.print img.width img.height)
  rw [this]
  simp [List.append_assoc]

theorem pgm_read_print (img : ImagePGM) (h : img.well_formed) (hw : img.width < 2 ^ 31)
    (hh : img.height < 2 ^ 31) :
    ImagePGM.read (Image.print img.width img.height ++
      (img.matrix.map (fun row => (row.map (fun p => [p.luminance])).flatten)).flatten)
      = .ok (img, []) := by
  unfold ImagePGM.read
  rw [header_read_print _ _ _ hw hh, bind_ok]
  dsimp only
  have hsz : ¬ (max_size 1 < img.width ∨ max_size 24 < img.height) := by
    rw [max_size_values.1, max_size_values.2.2]
    have : img.width < 2147483648 := by simpa using hw
    have : img.height < 2147483648 := by simpa using hh
    omega
  rw [if_neg hsz]
  have hgrid := read_grid grayscale_pixel.read (fun p : grayscale_pixel => [p.luminance])
    (fun a s => rfl) img.width img.matrix h.2.1 []
  rw [List.append_nil, h.1] at hgrid
  rw [hgrid, bind_ok]
  rfl

theorem ppm_read_print (img : ImagePPM) (h : img.well_formed) (hw : img.width < 2 ^ 31)
    (hh : img.height < 2 ^ 31) :
    ImagePPM.read (Image.print img.width img.height ++
      (img.matrix.map (fun row =>
        (row.map (fun p => [p.red, p.green, p.blue])).flatten)).flatten)
      = .ok (img, []) := by
  unfold ImagePPM.read
  rw [header_read_print _ _ _ hw hh, bind_ok]
  dsimp only
  have hsz : ¬ (max_size 3 < img.width ∨ max_size 24 < img.height) := by
    rw [max_size_values.2.1, max_size_values.2.2]
    have : img.width < 2147483648 := by simpa using hw
    have : img.height < 2147483648 := by simpa using hh
    omega
  rw [if_neg hsz]
  have hgrid := read_grid RGB_pixel.read (fun p : RGB_pixel => [p.red, p.green, p.blue])
    (fun a s => rfl) img.width img.matrix h.2.1 []
  rw [List.append_nil, h.1] at hgrid
  rw [hgrid, bind_ok]
  rfl

theorem read_image_pgm (s : List Nat) :
    Image.read_image (PGM_FORMAT ++ 10 :: s) = (do
      let (img, _) ← ImagePGM.read s
      pure (.pgm img)) := by
  unfold Image.read_image
  rw [getline_line PGM_FORMAT s (by decide), bind_ok]
  rfl

theorem read_image_ppm (s : List Nat) :
    Image.read_image (PPM_FORMAT ++ 10 :: s) = (do
      let (img, _) ← ImagePPM.read s
      pure (.ppm img)) := by
  unfold Image.read_image
  rw [getline_line PPM_FORMAT s (by decide), bind_ok]
  rfl

theorem parse_header_of_geometry (geometry line rest : List Nat) (pos : Nat) (w h : Int)
    (hpos : find geometry 32 = some pos) (hw : stoi (geometry.take pos) = .ok w)
    (hh : stoi (geometry.drop (pos + 1)) = .ok h) :
    parse_header geometry line rest = (do
      let max_value ← stoi line
      if (max_value % (SIZE_MOD : Int)).toNat ≠ MAX_VALUE then
        .error (.invalid_argument
          "Wrong format of the input file -- maximum possible value for pixel is not 255.")
      else .ok ((w % (SIZE_MOD : Int)).toNat, (h % (SIZE_MOD : Int)).toNat, rest)) := by
  unfold parse_header
  rw [hpos]
  dsimp only
  rw [hw, hh, bind_ok, bind_ok]

theorem max_value_mismatch (n : Int) (h1 : INT_MIN ≤ n ∧ n ≤ INT_MAX) (h2 : n ≠ 255) :
    (n % (SIZE_MOD : Int)).toNat ≠ MAX_VALUE := by
  have : ((SIZE_MOD : Nat) : Int) = 18446744073709551616 := by norm_num [SIZE_MOD]
  rw [this]
  simp only [INT_MIN, INT_MAX, MAX_VALUE] at *
  omega

theorem sum_split (cnt : Histogram) :
    ∀ i, i ≤ 256 → sum_below cnt i + sum_from cnt i = sum_from cnt 0 := by
  intro i
  induction i with
  | zero => intro _; simp [sum_below]
  | succ i ih =>
    intro hi
    have h1 := ih (by omega)
    rw [sum_from_step cnt i (by omega)] at h1
    rw [sum_below_succ]
    omega

theorem sum_from_antitone (cnt : Histogram) (hnonneg : ∀ i, i < 256 → 0 ≤ cnt i) :
    ∀ n i, i + n ≤ 256 → sum_from cnt (i + n) ≤ sum_from cnt i := by
  intro n
  induction n with
  | zero => intro i _; exact le_refl _
  | succ n ih =>
    intro i hi
    have h1 := ih (i + 1) (by omega)
    have h2 := sum_from_step cnt i (by omega)
    have h3 := hnonneg i (by omega)
    have e : i + 1 + n = i + (n + 1) := by omega
    rw [e] at h1
    omega

theorem max_loop_runs_off (cnt : Histogram) (k : Int)
    (hall : ∀ j, j < 256 → sum_from cnt j ≤ k) :
    ∀ (fuel i : Nat) (ssum : Int), i < 256 → i + 2 ≤ fuel → ssum = sum_from cnt (i + 1) →
      calculate_max_luminance.loop cnt k fuel i ssum
        = .error (.out_of_bounds (2 ^ 64 - 1)) := by
  intro fuel
  induction fuel with
  | zero => intro i ssum hi hf; omega
  | succ fuel ih =>
    intro i ssum hi hf hss
    unfold calculate_max_luminance.loop
    have hsum : sum_from cnt i = ssum + cnt i := by
      rw [sum_from_step cnt i hi, hss]; ring
    have hle := hall i hi
    have hgt : ¬ ssum + cnt i > k := by rw [hsum] at hle; omega
    simp only [Nat.zero_le, if_true, bucket_ok cnt i hi, hgt, if_false]
    rcases Nat.eq_zero_or_pos i with h0 | hpos
    · subst h0
      have hnext : (0 + (SIZE_MOD - 1)) % SIZE_MOD = 2 ^ 64 - 1 := by
        simp only [SIZE_MOD]; omega
      rw [hnext]
      obtain ⟨fuel', rfl⟩ : ∃ f, fuel = f + 1 := ⟨fuel - 1, by omega⟩
      unfold calculate_max_luminance.loop
      have hb : bucket cnt (2 ^ 64 - 1) = .error (.out_of_bounds (2 ^ 64 - 1)) := by
        unfold bucket
        rw [if_neg (by simp only [MAX_VALUE]; omega)]
      simp only [Nat.zero_le, if_true, hb]
    · have hnext : (i + (SIZE_MOD - 1)) % SIZE_MOD = i - 1 := by
        simp only [SIZE_MOD]; omega
      rw [hnext]
      have hi1 : i - 1 + 1 = i := by omega
      exact ih (i - 1) (ssum + cnt i) (by omega) (by omega) (by rw [hi1]; exact hsum.symm)

theorem calculate_max_luminance_runs_off (cnt : Histogram) (k : Int)
    (hall : ∀ j, j < 256 → sum_from cnt j ≤ k) :
    calculate_max_luminance cnt k = .error (.out_of_bounds (2 ^ 64 - 1)) := by
  unfold calculate_max_luminance
  exact max_loop_runs_off cnt k hall 257 255 0 (by omega) (by omega) (by rw [sum_from_end])

theorem sum_from_zero_histogram : ∀ j, j < 256 → sum_from zero_histogram j ≤ 0 := by
  intro j hj
  rw [zero_histogram_eq, sum_from_counts [] (by simp) j (by omega)]
  simp

theorem flatten_rows {α : Type} (enc : α → List Nat) (m : List (List α)) :
    (m.map (fun row => (row.map enc).flatten)).flatten = (m.flatten.map enc).flatten := by
  induction m with
  | nil => rfl
  | cons r m ih =>
    simp only [List.map_cons, List.flatten_cons, List.map_append, List.flatten_append, ih]

theorem flatten_singletons {α : Type} (f : α → Nat) (l : List α) :
    (l.map (fun p => [f p])).flatten = l.map f := by
  induction l with
  | nil => rfl
  | cons a l ih =>
    simp only [List.map_cons, List.flatten_cons, ih]
    rfl

theorem to_string_loop_head (fuel : Nat) :
    ∀ (n : Nat) (acc : List Nat), 0 < n → n < fuel →
      ∃ d t, to_string.loop fuel n acc = (48 + d) :: t ∧ 0 < d ∧ d < 10 := by
  induction fuel with
  | zero => intro n acc _ h; omega
  | succ fuel ih =>
    intro n acc hpos hn
    unfold to_string.loop
    by_cases h10 : n < 10
    · simp only [h10, if_true]
      exact ⟨n, acc, rfl, hpos, h10⟩
    · simp only [h10, if_false]
      exact ih (n / 10) _ (by omega) (by omega)

theorem to_string_head (n : Nat) (hpos : 0 < n) : (to_string n).head? ≠ some 48 := by
  obtain ⟨d, t, h, hd, _⟩ := to_string_loop_head (n + 1) n [] hpos (by omega)
  unfold to_string
  rw [h]
  simp
  omega

theorem bind_eq_error {α β : Type} (x : Result α) (f : α → Result β) (e : Failure)
    (h : x >>= f = .error e) : x = .error e ∨ ∃ a, x = .ok a ∧ f a = .error e := by
  cases x with
  | error e' =>
    left
    have : (Except.error e' : Result β) = .error e := h
    cases this
    rfl
  | ok a => exact Or.inr ⟨a, rfl, h⟩

theorem getline_error (s : List Nat) (e : Failure) (h : getline s = .error e) :
    e = .ios_failure := by
  unfold getline at h
  cases hf : find s 10 with
  | none => rw [hf] at h; cases h; rfl
  | some pos => rw [hf] at h; cases h

theorem stoi_error (str : List Nat) (e : Failure) (h : stoi str = .error e) :
    e = .invalid_argument "stoi" ∨ e = .out_of_range "stoi" := by
  unfold stoi at h
  dsimp only at h
  split_ifs at h
  all_goals first
    | (cases h; left; rfl)
    | (cases h; right; rfl)

theorem read_byte_error (s : List Nat) (e : Failure) (h : read_byte s = .error e) :
    e = .ios_failure := by
  cases s with
  | nil => cases h; rfl
  | cons b r => cases h

theorem read_n_error {α : Type} (read_one : List Nat → Result (α × List Nat)) (P : Failure → Prop)
    (hone : ∀ s e, read_one s = .error e → P e) :
    ∀ n s e, read_n read_one n s = .error e → P e := by
  intro n
  induction n with
  | zero => intro s e h; cases h
  | succ n ih =>
    intro s e h
    unfold read_n at h
    rcases bind_eq_error _ _ _ h with h1 | ⟨a, _, h2⟩
    · exact hone s e h1
    · rcases bind_eq_error _ _ _ h2 with h3 | ⟨b, _, h4⟩
      · exact ih _ e h3
      · cases h4

theorem header_read_error (s : List Nat) (e : Failure) (h : Image.read s = .error e) :
    reader_failure e := by
  unfold Image.read at h
  rcases bind_eq_error _ _ _ h with h1 | ⟨⟨buf, s1⟩, _, h2⟩
  · exact Or.inl (getline_error s e h1)
  · dsimp only at h2
    cases hf : find buf 32 with
    | none =>
      rw [hf] at h2
      cases h2
      exact Or.inr (Or.inr (Or.inr (Or.inl rfl)))
    | some pos =>
      rw [hf] at h2
      dsimp only at h2
      rcases bind_eq_error _ _ _ h2 with h3 | ⟨w, _, h4⟩
      · rcases stoi_error _ e h3 with h | h
        · exact Or.inr (Or.inl h)
        · exact Or.inr (Or.inr (Or.inl h))
      · rcases bind_eq_error _ _ _ h4 with h5 | ⟨ht, _, h6⟩
        · rcases stoi_error _ e h5 with h | h
          · exact Or.inr (Or.inl h)
          · exact Or.inr (Or.inr (Or.inl h))
        · rcases bind_eq_error _ _ _ h6 with h7 | ⟨⟨buf2, s2⟩, _, h8⟩
          · exact Or.inl (getline_error _ e h7)
          · dsimp only at h8
            rcases bind_eq_error _ _ _ h8 with h9 | ⟨m, _, h10⟩
            · rcases stoi_error _ e h9 with h | h
              · exact Or.inr (Or.inl h)
              · exact Or.inr (Or.inr (Or.inl h))
            · split_ifs at h10
              cases h10
              exact Or.inr (Or.inr (Or.inr (Or.inr (Or.inr rfl))))

theorem gray_pixel_read_error (s : List Nat) (e : Failure)
    (h : grayscale_pixel.read s = .error e) : reader_failure e := by
  unfold grayscale_pixel.read at h
  rcases bind_eq_error _ _ _ h with h1 | ⟨a, _, h2⟩
  · exact Or.inl (read_byte_error s e h1)
  · cases h2

theorem rgb_pixel_read_error (s : List Nat) (e : Failure)
    (h : RGB_pixel.read s = .error e) : reader_failure e := by
  unfold RGB_pixel.read at h
  rcases bind_eq_error _ _ _ h with h1 | ⟨a, _, h2⟩
  · exact Or.inl (read_byte_error s e h1)
  · rcases bind_eq_error _ _ _ h2 with h3 | ⟨b, _, h4⟩
    · exact Or.inl (read_byte_error _ e h3)
    · rcases bind_eq_error _ _ _ h4 with h5 | ⟨c, _, h6⟩
      · exact Or.inl (read_byte_error _ e h5)
      · cases h6

theorem pgm_read_error (s : List Nat) (e : Failure) (h : ImagePGM.read s = .error e) :
    reader_failure e := by
  unfold ImagePGM.read at h
  rcases bind_eq_error _ _ _ h with h1 | ⟨⟨w, ht, s1⟩, _, h2⟩
  · exact header_read_error s e h1
  · dsimp only at h2
    split_ifs at h2
    · cases h2
      exact Or.inr (Or.inr (Or.inr (Or.inr (Or.inl rfl))))
    · rcases bind_eq_error _ _ _ h2 with h3 | ⟨a, _, h4⟩
      · exact read_n_error _ reader_failure
          (fun s' e' h' => read_n_error _ reader_failure gray_pixel_read_error _ s' e' h') _ _ e h3
      · cases h4

theorem ppm_read_error (s : List Nat) (e : Failure) (h : ImagePPM.read s = .error e) :
    reader_failure e := by
  unfold ImagePPM.read at h
  rcases bind_eq_error _ _ _ h with h1 | ⟨⟨w, ht, s1⟩, _, h2⟩
  · exact header_read_error s e h1
  · dsimp only at h2
    split_ifs at h2
    · cases h2
      exact Or.inr (Or.inr (Or.inr (Or.inr (Or.inl rfl))))
    · rcases bind_eq_error _ _ _ h2 with h3 | ⟨a, _, h4⟩
      · exact read_n_error _ reader_failure
          (fun s' e' h' => read_n_error _ reader_failure rgb_pixel_read_error _ s' e' h') _ _ e h3
      · cases h4

theorem reader_failure_not_unknown :
    ¬ reader_failure (.invalid_argument "Unknown format of the image.") := by
  unfold reader_failure
  decide

theorem main_reads (env : Env) (argv : List String) (h : ¬ argv.length < 4) :
    main env argv =
      match env.file (argv.getD 2 "") with
      | none => handle [argv.getD 2 ""] .ios_failure
      | some bytes =>
        match Image.read_image bytes with
        | .error e => handle [argv.getD 2 ""] e
        | .ok image =>
          match image.normalize (match argv[4]? with
              | none => 0
              | some argument => env.truncated_product argument image.width image.height) with
          | .error e => handle [argv.getD 2 ""] e
          | .ok image =>
            match image.write with
            | .error e => ⟨[print_info env env.elapsed_ms (env.atoi (argv.getD 1 ""))],
                [argv.getD 2 "", argv.getD 3 ""], none, .terminate e⟩
            | .ok bytes => ⟨[print_info env env.elapsed_ms (env.atoi (argv.getD 1 ""))],
                [argv.getD 2 "", argv.getD 3 ""], some (argv.getD 3 "", bytes), .code 0⟩ := by
  unfold main
  rw [if_neg (by simpa [NUMBER_OF_DEFAULT_ARGUMENTS] using h)]

/-- Read failures that the handlers of `main` catch: the input file cannot be
opened, or `read_image` ends in `std::invalid_argument` or in the failure of the
stream.  One line is printed, the exit code is 1 and only the input file has
been opened. -/
theorem main_reports_read_failure (env : Env) (argv : List String) (h : 4 ≤ argv.length) :
    (env.file (argv.getD 2 "") = none →
      main env argv = ⟨["Failed to read input file: " ++ ios_failure_what], [argv.getD 2 ""],
        none, .code 1⟩) ∧
    (∀ bytes, env.file (argv.getD 2 "") = some bytes →
      Image.read_image bytes = .error .ios_failure →
      main env argv = ⟨["Failed to read input file: " ++ ios_failure_what], [argv.getD 2 ""],
        none, .code 1⟩) ∧
    (∀ bytes what, env.file (argv.getD 2 "") = some bytes →
      Image.read_image bytes = .error (.invalid_argument what) →
      main env argv = ⟨["Error: " ++ what], [argv.getD 2 ""], none, .code 1⟩) := by
  have hm := main_reads env argv (by omega)
  refine ⟨?_, ?_, ?_⟩
  · intro hf
    rw [hm, hf]
    rfl
  · intro bytes hf hr
    rw [hm, hf]
    dsimp only
    rw [hr]
    rfl
  · intro bytes what hf hr
    rw [hm, hf]
    dsimp only
    rw [hr]
    rfl

theorem fold_in_order_eq {α σ : Type} (v : List α) (f : σ → α → Result σ) :
    ∀ (order : List Nat) (s : σ), (∀ i ∈ order, i < v.length) →
      fold_in_order v order f s = (order.filterMap (fun i => v[i]?)).foldlM f s := by
  intro order
  induction order with
  | nil => intro s _; rfl
  | cons i os ih =>
    intro s h
    have hi : i < v.length := h i (List.mem_cons_self _ _)
    unfold fold_in_order at ih ⊢
    rw [List.foldlM_cons, List.filterMap_cons]
    simp only [List.getElem?_eq_getElem hi]
    rw [List.foldlM_cons]
    congr 1
    funext t
    exact ih t (fun j hj => h j (List.mem_cons_of_mem _ hj))

theorem filterMap_range_getElem {α : Type} (m : List α) :
    (List.range m.length).filterMap (fun i => m[i]?) = m := by
  induction m using List.reverseRecOn with
  | nil => rfl
  | append_singleton l a ih =>
    rw [List.length_append, List.length_singleton, List.range_succ, List.filterMap_append]
    have h1 : (List.range l.length).filterMap (fun i => (l ++ [a])[i]?)
        = (List.range l.length).filterMap (fun i => l[i]?) := by
      apply List.filterMap_congr
      intro i hi
      rw [List.getElem?_append_left (List.mem_range.mp hi)]
    rw [h1, ih]
    simp

theorem counts_perm (a b : List Nat) (h : a.Perm b) : counts a = counts b := by
  funext i
  unfold counts
  rw [h.count_eq]

theorem fold_into_counts (a b : List Nat) (ha : ∀ v ∈ a, v < 256) (hb : ∀ v ∈ b, v < 256) :
    fold_into (counts a) (counts b) = counts (a ++ b) := by
  funext j
  unfold fold_into counts
  by_cases hj : j ≤ MAX_VALUE
  · simp [hj, List.count_append]
  · simp only [hj, if_false]
    have hj2 : 256 ≤ j := by simp only [MAX_VALUE] at hj; omega
    have h1 : j ∉ a := fun hm => by have := ha j hm; omega
    have h2 : j ∉ a ++ b := by
      intro hm
      rcases List.mem_append.mp hm with hm | hm
      · have := ha j hm; omega
      · have := hb j hm; omega
    rw [List.count_eq_zero_of_not_mem h1, List.count_eq_zero_of_not_mem h2]

theorem update_in_order_spec {α : Type} (v : List α) (f : α → Result α) (g : α → α)
    (hf : ∀ a ∈ v, f a = .ok (g a)) :
    ∀ (order : List Nat), order.Nodup → (∀ i ∈ order, i < v.length) →
      ∀ cur : List α, cur.length = v.length → (∀ i ∈ order, cur[i]? = v[i]?) →
      ∃ res, update_in_order cur order f = .ok res ∧ res.length = v.length ∧
        ∀ i, res[i]? = if i ∈ order then (v[i]?).map g else cur[i]? := by
  intro order
  induction order with
  | nil =>
    intro _ _ cur hlen _
    exact ⟨cur, rfl, hlen, fun i => by simp⟩
  | cons i os ih =>
    intro hnd hlt cur hlen hcur
    have hi : i < v.length := hlt i (List.mem_cons_self _ _)
    have hios : i ∉ os := (List.nodup_cons.mp hnd).1
    have hci : cur[i]? = some v[i] := by
      rw [hcur i (List.mem_cons_self _ _), List.getElem?_eq_getElem hi]
    obtain ⟨res, hres, hreslen, hresget⟩ := ih (List.nodup_cons.mp hnd).2
      (fun j hj => hlt j (List.mem_cons_of_mem _ hj)) (cur.set i (g v[i]))
      (by rw [List.length_set]; exact hlen)
      (by
        intro j hj
        have hji : i ≠ j := fun e => hios (e ▸ hj)
        rw [List.getElem?_set_ne hji]
        exact hcur j (List.mem_cons_of_mem _ hj))
    refine ⟨res, ?_, hreslen, ?_⟩
    · unfold update_in_order at hres ⊢
      rw [List.foldlM_cons]
      simp only [hci]
      rw [hf _ (List.getElem_mem hi), bind_ok]
      exact hres
    · intro j
      rw [hresget j]
      by_cases hj : j ∈ os
      · simp [hj]
      · by_cases hji : j = i
        · subst hji
          simp only [hj, if_false, List.mem_cons, true_or, if_true]
          rw [List.getElem?_set_self (by rw [hlen]; exact hi), List.getElem?_eq_getElem hi]
          rfl
        · have hne : i ≠ j := fun e => hji e.symm
          simp only [hj, if_false, List.mem_cons, hji, false_or]
          exact List.getElem?_set_ne hne

theorem update_in_order_perm {α : Type} (v : List α) (f : α → Result α) (g : α → α)
    (hf : ∀ a ∈ v, f a = .ok (g a)) (order : List Nat)
    (hperm : order.Perm (List.range v.length)) :
    update_in_order v order f = .ok (v.map g) := by
  have hnd : order.Nodup := hperm.nodup_iff.mpr (List.nodup_range _)
  have hmem : ∀ i, i ∈ order ↔ i < v.length := by
    intro i
    rw [hperm.mem_iff, List.mem_range]
  obtain ⟨res, hres, hlen, hget⟩ := update_in_order_spec v f g hf order hnd
    (fun i hi => (hmem i).mp hi) v rfl (fun _ _ => rfl)
  rw [hres]
  congr 1
  apply List.ext_getElem?
  intro i
  rw [hget i, List.getElem?_map]
  by_cases hi : i ∈ order
  · simp [hi]
  · have : v.length ≤ i := by
      have := (hmem i).not.mp hi
      omega
    simp [hi, List.getElem?_eq_none this]

theorem mem_of_mem_filterMap_getElem {α : Type} (m : List α) (rows : List Nat) (a : α)
    (h : a ∈ rows.filterMap (fun i => m[i]?)) : a ∈ m := by
  obtain ⟨i, _, hi⟩ := List.mem_filterMap.mp h
  exact List.getElem?_mem hi

theorem perm_rows {α : Type} (m : List α) (rows : List Nat)
    (h : rows.Perm (List.range m.length)) : (rows.filterMap (fun i => m[i]?)).Perm m := by
  have := h.filterMap (fun i => m[i]?)
  rw [filterMap_range_getElem] at this
  exact this

theorem pgm_local_count (img : ImagePGM) (hwf : img.well_formed) (rows : List Nat)
    (hrows : ∀ i ∈ rows, i < img.matrix.length) :
    fold_in_order img.matrix rows (fun cnt row =>
        fold_indexed row img.width (fun cnt p => increment cnt p.luminance) cnt) zero_histogram
      = .ok (counts ((rows.filterMap (fun i => img.matrix[i]?)).flatten.map
          (fun p => p.luminance))) := by
  rw [fold_in_order_eq _ _ rows _ hrows, zero_histogram_eq,
    count_grid_gray img.width _ []
      (fun row hrow => hwf.2.1 row (mem_of_mem_filterMap_getElem _ _ _ hrow))
      (fun row hrow => hwf.2.2 row (mem_of_mem_filterMap_getElem _ _ _ hrow))]
  rfl

theorem lt_of_mem_rows_gray (img : ImagePGM) (hwf : img.well_formed) (rows : List Nat) :
    ∀ v ∈ (rows.filterMap (fun i => img.matrix[i]?)).flatten.map (fun p => p.luminance),
      v < 256 := by
  intro v hv
  obtain ⟨p, hp, rfl⟩ := List.mem_map.mp hv
  obtain ⟨row, hrow, hprow⟩ := List.mem_flatten.mp hp
  exact hwf.2.2 row (mem_of_mem_filterMap_getElem _ _ _ hrow) p hprow

theorem pgm_histogram_by_aux (img : ImagePGM) (hwf : img.well_formed) :
    ∀ (workers : List (List Nat)) (acc : List Nat), (∀ v ∈ acc, v < 256) →
      (∀ rows ∈ workers, ∀ i ∈ rows, i < img.matrix.length) →
      workers.foldlM (fun cnt rows => do
          let local_cnt ← fold_in_order img.matrix rows (fun cnt row =>
            fold_indexed row img.width (fun cnt p => increment cnt p.luminance) cnt)
            zero_histogram
          pure (fold_into cnt local_cnt)) (counts acc)
        = .ok (counts (acc ++ (workers.flatten.filterMap (fun i => img.matrix[i]?)).flatten.map
            (fun p => p.luminance))) := by
  intro workers
  induction workers with
  | nil => intro acc _ _; simp [List.foldlM]; rfl
  | cons rows ws ih =>
    intro acc hacc hidx
    rw [List.foldlM_cons, pgm_local_count img hwf rows (hidx rows (List.mem_cons_self _ _)),
      bind_ok]
    show (do
      let s' ← (pure (fold_into (counts acc) _) : Result Histogram)
      List.foldlM _ s' ws) = _
    rw [fold_into_counts acc _ hacc (lt_of_mem_rows_gray img hwf rows)]
    show List.foldlM _ (counts _) ws = _
    rw [ih _ (by
        intro v hv
        rcases List.mem_append.mp hv with h | h
        · exact hacc v h
        · exact lt_of_mem_rows_gray img hwf rows v h)
      (fun r hr => hidx r (List.mem_cons_of_mem _ hr))]
    simp [List.append_assoc]

theorem pgm_histogram_by_eq (img : ImagePGM) (hwf : img.well_formed) (workers : List (List Nat))
    (hperm : workers.flatten.Perm (List.range img.height)) :
    img.histogram_by workers = img.histogram := by
  rw [← hwf.1] at hperm
  have hidx : ∀ rows ∈ workers, ∀ i ∈ rows, i < img.matrix.length := by
    intro rows hrows i hi
    have : i ∈ workers.flatten := List.mem_flatten.mpr ⟨rows, hrows, hi⟩
    exact List.mem_range.mp (hperm.mem_iff.mp this)
  unfold ImagePGM.histogram_by
  have h := pgm_histogram_by_aux img hwf workers [] (by simp) hidx
  rw [← zero_histogram_eq] at h
  rw [h, pgm_histogram_eq img hwf, List.nil_append]
  congr 1
  apply counts_perm
  unfold ImagePGM.samples
  exact ((perm_rows img.matrix _ hperm).flatten).map _

theorem ppm_local_count (img : ImagePPM) (hwf : img.well_formed) (rows : List Nat)
    (hrows : ∀ i ∈ rows, i < img.matrix.length) :
    fold_in_order img.matrix rows (fun (cnts : Histogram × Histogram × Histogram) row =>
        fold_indexed row img.width (fun cnts p => do
          let cnt_red ← increment cnts.1 p.red
          let cnt_green ← increment cnts.2.1 p.green
          let cnt_blue ← increment cnts.2.2 p.blue
          pure (cnt_red, cnt_green, cnt_blue)) cnts)
        (zero_histogram, zero_histogram, zero_histogram)
      = .ok (counts ((rows.filterMap (fun i => img.matrix[i]?)).flatten.map (fun p => p.red)),
          counts ((rows.filterMap (fun i => img.matrix[i]?)).flatten.map (fun p => p.green)),
          counts ((rows.filterMap (fun i => img.matrix[i]?)).flatten.map (fun p => p.blue))) := by
  rw [fold_in_order_eq _ _ rows _ hrows, zero_histogram_eq,
    count_grid_rgb img.width _ [] [] []
      (fun row hrow => hwf.2.1 row (mem_of_mem_filterMap_getElem _ _ _ hrow))
      (fun row hrow => hwf.2.2 row (mem_of_mem_filterMap_getElem _ _ _ hrow))]
  rfl

theorem lt_of_mem_rows_rgb (img : ImagePPM) (hwf : img.well_formed) (rows : List Nat) :
    (∀ v ∈ (rows.filterMap (fun i => img.matrix[i]?)).flatten.map (fun p => p.red), v < 256) ∧
    (∀ v ∈ (rows.filterMap (fun i => img.matrix[i]?)).flatten.map (fun p => p.green), v < 256) ∧
    (∀ v ∈ (rows.filterMap (fun i => img.matrix[i]?)).flatten.map (fun p => p.blue), v < 256) := by
  refine ⟨?_, ?_, ?_⟩ <;>
  · intro v hv
    obtain ⟨p, hp, rfl⟩ := List.mem_map.mp hv
    obtain ⟨row, hrow, hprow⟩ := List.mem_flatten.mp hp
    have := hwf.2.2 row (mem_of_mem_filterMap_getElem _ _ _ hrow) p hprow
    omega

theorem lt_of_mem_append (a b : List Nat) (ha : ∀ v ∈ a, v < 256) (hb : ∀ v ∈ b, v < 256) :
    ∀ v ∈ a ++ b, v < 256 := by
  intro v hv
  rcases List.mem_append.mp hv with h | h
  · exact ha v h
  · exact hb v h

theorem ppm_histograms_by_aux (img : ImagePPM) (hwf : img.well_formed) :
    ∀ (workers : List (List Nat)) (r g b : List Nat), (∀ v ∈ r, v < 256) →
      (∀ v ∈ g, v < 256) → (∀ v ∈ b, v < 256) →
      (∀ rows ∈ workers, ∀ i ∈ rows, i < img.matrix.length) →
      workers.foldlM (fun (cnts : Histogram × Histogram × Histogram) rows => do
          let (local_red, local_green, local_blue) ←
            fold_in_order img.matrix rows
              (fun (cnts : Histogram × Histogram × Histogram) (row : List RGB_pixel) =>
              fold_indexed row img.width (fun cnts p => do
                let cnt_red ← increment cnts.1 p.red
                let cnt_green ← increment cnts.2.1 p.green
                let cnt_blue ← increment cnts.2.2 p.blue
                pure (cnt_red, cnt_green, cnt_blue)) cnts)
              (zero_histogram, zero_histogram, zero_histogram)
          pure (fold_into cnts.1 local_red, fold_into cnts.2.1 local_green,
            fold_into cnts.2.2 local_blue)) (counts r, counts g, counts b)
        = .ok (counts (r ++ (workers.flatten.filterMap (fun i => img.matrix[i]?)).flatten.map
              (fun p => p.red)),
            counts (g ++ (workers.flatten.filterMap (fun i => img.matrix[i]?)).flatten.map
              (fun p => p.green)),
            counts (b ++ (workers.flatten.filterMap (fun i => img.matrix[i]?)).flatten.map
              (fun p => p.blue))) := by
  intro workers
  induction workers with
  | nil => intro r g b _ _ _ _; simp [List.foldlM]; rfl
  | cons rows ws ih =>
    intro r g b hr hg hb hidx
    obtain ⟨l1, l2, l3⟩ := lt_of_mem_rows_rgb img hwf rows
    rw [List.foldlM_cons, ppm_local_count img hwf rows (hidx rows (List.mem_cons_self _ _)),
      bind_ok]
    show List.foldlM _ (fold_into (counts r) _, fold_into (counts g) _, fold_into (counts b) _)
      ws = _
    rw [fold_into_counts r _ hr l1, fold_into_counts g _ hg l2, fold_into_counts b _ hb l3,
      ih _ _ _ (lt_of_mem_append _ _ hr l1) (lt_of_mem_append _ _ hg l2)
        (lt_of_mem_append _ _ hb l3) (fun x hx => hidx x (List.mem_cons_of_mem _ hx))]
    simp [List.append_assoc]

theorem ppm_histograms_by_eq (img : ImagePPM) (hwf : img.well_formed)
    (workers : List (List Nat)) (hperm : workers.flatten.Perm (List.range img.height)) :
    img.histograms_by workers = img.histograms := by
  rw [← hwf.1] at hperm
  have hidx : ∀ rows ∈ workers, ∀ i ∈ rows, i < img.matrix.length := by
    intro rows hrows i hi
    have : i ∈ workers.flatten := List.mem_flatten.mpr ⟨rows, hrows, hi⟩
    exact List.mem_range.mp (hperm.mem_iff.mp this)
  unfold ImagePPM.histograms_by
  have h := ppm_histograms_by_aux img hwf workers [] [] [] (by simp) (by simp) (by simp) hidx
  rw [← zero_histogram_eq] at h
  rw [h, ppm_histograms_eq img hwf]
  simp only [List.nil_append]
  have hp := (perm_rows img.matrix _ hperm).flatten
  rw [counts_perm _ _ (hp.map (fun p => p.red)), counts_perm _ _ (hp.map (fun p => p.green)),
    counts_perm _ _ (hp.map (fun p => p.blue))]
  rfl

theorem remap_in_order_eq {α : Type} (m : List (List α)) (w h : Nat) (g : α → α)
    (order : List Nat) (hh : m.length = h) (hw : ∀ row ∈ m, row.length = w)
    (hperm : order.Perm (List.range h)) :
    update_in_order m order (fun row => update_indexed row w (fun p => pure (g p)))
      = update_indexed m h (fun row => update_indexed row w (fun p => pure (g p))) := by
  have hrow : ∀ row ∈ m, update_indexed row w (fun p => (pure (g p) : Result α))
      = .ok (row.map g) :=
    fun row hrow => update_indexed_eq row w _ g (fun _ _ => rfl) (hw row hrow)
  rw [update_in_order_perm m _ (fun row => row.map g) hrow order (by rw [hh]; exact hperm),
    update_indexed_eq m h _ (fun row => row.map g) hrow hh]

theorem pgm_normalize_by_eq (img : ImagePGM) (hwf : img.well_formed)
    (workers : List (List Nat)) (order : List Nat) (k : Int)
    (hworkers : workers.flatten.Perm (List.range img.height))
    (horder : order.Perm (List.range img.height)) :
    img.normalize_by workers order k = img.normalize k := by
  unfold ImagePGM.normalize_by ImagePGM.normalize
  rw [pgm_histogram_by_eq img hwf workers hworkers]
  simp only [remap_in_order_eq img.matrix img.width img.height _ order hwf.1 hwf.2.1 horder]

theorem ppm_normalize_by_eq (img : ImagePPM) (hwf : img.well_formed)
    (workers : List (List Nat)) (order : List Nat) (k : Int)
    (hworkers : workers.flatten.Perm (List.range img.height))
    (horder : order.Perm (List.range img.height)) :
    img.normalize_by workers order k = img.normalize k := by
  unfold ImagePPM.normalize_by ImagePPM.normalize
  rw [ppm_histograms_by_eq img hwf workers hworkers]
  simp only [remap_in_order_eq img.matrix img.width img.height _ order hwf.1 hwf.2.1 horder]

theorem calculate_min_luminance_ok (cnt : Histogram) (k : Int) :
    ∃ r, calculate_min_luminance cnt k = .ok r ∧ r < 256 := by
  obtain ⟨r, hr, hr256, _⟩ := min_loop_spec cnt k 257 0 0
    (by omega) (by omega) (by simp [sum_below]) (by intro j hj; omega)
  exact ⟨r, hr, hr256⟩

theorem pgm_normalize_inv (img : ImagePGM) (hwf : img.well_formed) (k : Int) (img1 : ImagePGM)
    (h : img.normalize k = .ok img1) :
    ∃ mn mx, calculate_min_luminance (counts img.samples) k = .ok mn ∧
      calculate_max_luminance (counts img.samples) k = .ok mx ∧
      img.min_luminance k = .ok mn ∧ img.max_luminance k = .ok mx ∧
      img1 = ⟨img.width, img.height, img.matrix.map (fun row => row.map (fun p =>
        ⟨calculate_new_value p.luminance (diff_u8 mx mn) mn mx⟩))⟩ := by
  obtain ⟨mn, hmn, _⟩ := calculate_min_luminance_ok (counts img.samples) k
  cases hmx : calculate_max_luminance (counts img.samples) k with
  | error e =>
    unfold ImagePGM.normalize at h
    rw [pgm_histogram_eq img hwf, bind_ok, hmn, bind_ok, hmx] at h
    cases h
  | ok mx =>
    obtain ⟨e1, e2, e3⟩ := pgm_normalize_eq img hwf k mn mx hmn hmx
    rw [e3] at h
    cases h
    exact ⟨mn, mx, hmn, rfl, e1, e2, rfl⟩

theorem scan3_min_ok (img : ImagePPM) (k : Int) :
    ∃ t, scan3 calculate_min_luminance img k = .ok t := by
  obtain ⟨r, hr, _⟩ := calculate_min_luminance_ok (counts img.reds) k
  obtain ⟨g, hg, _⟩ := calculate_min_luminance_ok (counts img.greens) k
  obtain ⟨b, hb, _⟩ := calculate_min_luminance_ok (counts img.blues) k
  exact ⟨(r, g, b), scan3_ok _ img k r g b hr hg hb⟩

theorem ppm_normalize_inv (img : ImagePPM) (hwf : img.well_formed) (k : Int) (img1 : ImagePPM)
    (h : img.normalize k = .ok img1) :
    ∃ tmin tmax, scan3 calculate_min_luminance img k = .ok tmin ∧
      scan3 calculate_max_luminance img k = .ok tmax ∧
      img1 = ⟨img.width, img.height, img.matrix.map (fun row => row.map
        (remap_rgb (min tmin.1 (min tmin.2.1 tmin.2.2))
          (max tmax.1 (max tmax.2.1 tmax.2.2))))⟩ := by
  obtain ⟨tmin, hmin⟩ := scan3_min_ok img k
  obtain ⟨a1, a2, a3⟩ := scan3_inv _ img k tmin hmin
  have hcase : ∀ e, calculate_max_luminance (counts img.reds) k = .error e ∨
      (∃ r, calculate_max_luminance (counts img.reds) k = .ok r ∧
        calculate_max_luminance (counts img.greens) k = .error e) ∨
      (∃ r g, calculate_max_luminance (counts img.reds) k = .ok r ∧
        calculate_max_luminance (counts img.greens) k = .ok g ∧
        calculate_max_luminance (counts img.blues) k = .error e) → False := by
    intro e hc
    unfold ImagePPM.normalize at h
    rw [ppm_histograms_eq img hwf, bind_ok] at h
    simp only [a1, a2, a3, bind_ok] at h
    rcases hc with h1 | ⟨r, h1, h2⟩ | ⟨r, g, h1, h2, h3⟩
    · rw [h1] at h; cases h
    · rw [h1, bind_ok, h2] at h; cases h
    · rw [h1, bind_ok, h2, bind_ok, h3] at h; cases h
  cases h1 : calculate_max_luminance (counts img.reds) k with
  | error e => exact (hcase e (Or.inl h1)).elim
  | ok r =>
    cases h2 : calculate_max_luminance (counts img.greens) k with
    | error e => exact (hcase e (Or.inr (Or.inl ⟨r, h1, h2⟩))).elim
    | ok g =>
      cases h3 : calculate_max_luminance (counts img.blues) k with
      | error e => exact (hcase e (Or.inr (Or.inr ⟨r, g, h1, h2, h3⟩))).elim
      | ok b =>
        have hmax := scan3_ok calculate_max_luminance img k r g b h1 h2 h3
        have e3 := ppm_normalize_eq img hwf k tmin (r, g, b) hmin hmax
        rw [e3] at h
        cases h
        exact ⟨tmin, (r, g, b), hmin, hmax, rfl⟩

theorem calculate_new_value_lt (v d mn mx : Nat) (hv : v < 256) :
    calculate_new_value v d mn mx < 256 := by
  unfold calculate_new_value
  split_ifs
  · omega
  · simp only [MAX_VALUE]; omega
  · exact Nat.mod_lt _ (by omega)
  · exact hv

theorem calculate_new_value_full_range (v : Nat) (hv : v < 256) :
    calculate_new_value v (diff_u8 255 0) 0 255 = v := by
  have hd : diff_u8 255 0 = 255 := by decide
  rw [hd, calculate_new_value_mid v 255 0 255 (by omega) (by omega) (by omega) (by omega)]
  rw [Nat.sub_zero, Nat.mul_div_cancel v (by omega : 0 < 255)]
  exact Nat.mod_eq_of_lt hv

theorem map_flatten_map {α β : Type} (f : α → β) (m : List (List α)) :
    (m.map (fun row => row.map f)).flatten = m.flatten.map f := by
  induction m with
  | nil => rfl
  | cons r m ih => simp only [List.map_cons, List.flatten_cons, List.map_append, ih]

theorem pgm_remapped (img : ImagePGM) (hwf : img.well_formed) (c : Nat → Nat)
    (hc : ∀ v, v < 256 → c v < 256) :
    (ImagePGM.mk img.width img.height (img.matrix.map (fun row => row.map
        (fun p => (⟨c p.luminance⟩ : grayscale_pixel))))).well_formed ∧
    (ImagePGM.mk img.width img.height (img.matrix.map (fun row => row.map
        (fun p => (⟨c p.luminance⟩ : grayscale_pixel))))).samples = img.samples.map c := by
  constructor
  · refine ⟨?_, ?_, ?_⟩
    · show (img.matrix.map _).length = img.height
      rw [List.length_map]; exact hwf.1
    · intro row hrow
      obtain ⟨r, hr, rfl⟩ := List.mem_map.mp hrow
      show (r.map _).length = img.width
      rw [List.length_map]; exact hwf.2.1 r hr
    · intro row hrow p hp
      obtain ⟨r, hr, rfl⟩ := List.mem_map.mp hrow
      obtain ⟨q, hq, rfl⟩ := List.mem_map.mp hp
      exact hc _ (hwf.2.2 r hr q hq)
  · unfold ImagePGM.samples
    show ((img.matrix.map _).flatten).map _ = _
    rw [map_flatten_map, List.map_map, List.map_map]
    rfl

theorem pgm_idempotent (img : ImagePGM) (hwf : img.well_formed) (hw : 0 < img.width)
    (hh : 0 < img.height) :
    ∃ img1, img.normalize 0 = .ok img1 ∧ img1.normalize 0 = .ok img1 := by
  have hb := pgm_samples_lt img hwf
  have hne : 0 < img.samples.length := by
    rw [pgm_samples_length img hwf]; exact Nat.mul_pos hw hh
  obtain ⟨mn, mx, hmn, hmx, h1, h2, h3, h4⟩ := thresholds_zero img.samples hb hne
  obtain ⟨e1, e2, e3⟩ := pgm_normalize_eq img hwf 0 mn mx hmn hmx
  have hle : mn ≤ mx := h2 mx h3
  rcases Nat.eq_or_lt_of_le hle with heq | hlt
  · subst heq
    obtain ⟨img', hn, _, hsame⟩ := gray_equal_thresholds img 0 mn hwf e1 e2
    have := hsame rfl
    subst this
    exact ⟨img', hn, hn⟩
  · have hmx256 : mx < 256 := hb mx h3
    have hd : diff_u8 mx mn = mx - mn := diff_u8_of_le mx mn hle hmx256
    obtain ⟨hwf1, hs1⟩ := pgm_remapped img hwf
      (fun v => calculate_new_value v (diff_u8 mx mn) mn mx)
      (fun v hv => calculate_new_value_lt v _ mn mx hv)
    refine ⟨_, e3, ?_⟩
    have hb1 := pgm_samples_lt _ hwf1
    have hzero : 0 ∈ (ImagePGM.mk img.width img.height (img.matrix.map (fun row => row.map
        (fun p => (⟨calculate_new_value p.luminance (diff_u8 mx mn) mn mx⟩ :
          grayscale_pixel))))).samples := by
      rw [hs1]
      refine List.mem_map.mpr ⟨mn, h1, ?_⟩
      rw [hd, calculate_new_value_mid mn _ mn mx (le_refl _) hle hmx256 (by omega)]
      simp
    have htop : 255 ∈ (ImagePGM.mk img.width img.height (img.matrix.map (fun row => row.map
        (fun p => (⟨calculate_new_value p.luminance (diff_u8 mx mn) mn mx⟩ :
          grayscale_pixel))))).samples := by
      rw [hs1]
      refine List.mem_map.mpr ⟨mx, h3, ?_⟩
      rw [hd, calculate_new_value_mid mx _ mn mx hle (le_refl _) hmx256 (by omega),
        Nat.mul_div_cancel_left 255 (by omega : 0 < mx - mn)]
    obtain ⟨mn1, mx1, hmn1, hmx1, g1, g2, g3, g4⟩ :=
      thresholds_zero _ hb1 (List.length_pos_of_mem hzero)
    have emn1 : mn1 = 0 := by have := g2 0 hzero; omega
    have emx1 : mx1 = 255 := by
      have := g4 255 htop
      have := hb1 mx1 g3
      omega
    subst emn1 emx1
    obtain ⟨_, _, f3⟩ := pgm_normalize_eq _ hwf1 0 0 255 hmn1 hmx1
    rw [f3]
    congr 1
    have hm := map_map_eq_self
      (fun p : grayscale_pixel => ⟨calculate_new_value p.luminance (diff_u8 255 0) 0 255⟩)
      (img.matrix.map (fun row => row.map
        (fun p => (⟨calculate_new_value p.luminance (diff_u8 mx mn) mn mx⟩ : grayscale_pixel))))
      (by
        intro row hrow p hp
        have hlt : p.luminance < 256 := hwf1.2.2 row hrow p hp
        show (⟨calculate_new_value p.luminance (diff_u8 255 0) 0 255⟩ : grayscale_pixel) = p
        rw [calculate_new_value_full_range _ hlt])
    show ImagePGM.mk _ _ _ = ImagePGM.mk _ _ _
    rw [hm]

theorem min3_cases (a b c : Nat) :
    min a (min b c) = a ∨ min a (min b c) = b ∨ min a (min b c) = c := by omega

theorem max3_cases (a b c : Nat) :
    max a (max b c) = a ∨ max a (max b c) = b ∨ max a (max b c) = c := by omega

theorem ppm_remapped (img : ImagePPM) (hwf : img.well_formed) (mn mx : Nat) :
    (ImagePPM.mk img.width img.height
        (img.matrix.map (fun row => row.map (remap_rgb mn mx)))).well_formed ∧
    (ImagePPM.mk img.width img.height
        (img.matrix.map (fun row => row.map (remap_rgb mn mx)))).reds
      = img.reds.map (fun v => calculate_new_value v (diff_u8 mx mn) mn mx) ∧
    (ImagePPM.mk img.width img.height
        (img.matrix.map (fun row => row.map (remap_rgb mn mx)))).greens
      = img.greens.map (fun v => calculate_new_value v (diff_u8 mx mn) mn mx) ∧
    (ImagePPM.mk img.width img.height
        (img.matrix.map (fun row => row.map (remap_rgb mn mx)))).blues
      = img.blues.map (fun v => calculate_new_value v (diff_u8 mx mn) mn mx) := by
  refine ⟨⟨?_, ?_, ?_⟩, ?_, ?_, ?_⟩
  · show (img.matrix.map _).length = img.height
    rw [List.length_map]; exact hwf.1
  · intro row hrow
    obtain ⟨r, hr, rfl⟩ := List.mem_map.mp hrow
    show (r.map _).length = img.width
    rw [List.length_map]; exact hwf.2.1 r hr
  · intro row hrow p hp
    obtain ⟨r, hr, rfl⟩ := List.mem_map.mp hrow
    obtain ⟨q, hq, rfl⟩ := List.mem_map.mp hp
    obtain ⟨q1, q2, q3⟩ := hwf.2.2 r hr q hq
    exact ⟨calculate_new_value_lt _ _ _ _ q1, calculate_new_value_lt _ _ _ _ q2,
      calculate_new_value_lt _ _ _ _ q3⟩
  · unfold ImagePPM.reds
    show ((img.matrix.map _).flatten).map _ = _
    rw [map_flatten_map, List.map_map, List.map_map]
    rfl
  · unfold ImagePPM.greens
    show ((img.matrix.map _).flatten).map _ = _
    rw [map_flatten_map, List.map_map, List.map_map]
    rfl
  · unfold ImagePPM.blues
    show ((img.matrix.map _).flatten).map _ = _
    rw [map_flatten_map, List.map_map, List.map_map]
    rfl

theorem remapped_extremes (vals : List Nat) (mn mx : Nat) (hlt : mn < mx) (hmx : mx < 256) :
    (mn ∈ vals → 0 ∈ vals.map (fun v => calculate_new_value v (diff_u8 mx mn) mn mx)) ∧
    (mx ∈ vals → 255 ∈ vals.map (fun v => calculate_new_value v (diff_u8 mx mn) mn mx)) := by
  have hd : diff_u8 mx mn = mx - mn := diff_u8_of_le mx mn (by omega) hmx
  constructor
  · intro h
    refine List.mem_map.mpr ⟨mn, h, ?_⟩
    rw [hd, calculate_new_value_mid mn _ mn mx (le_refl _) (by omega) hmx (by omega)]
    simp
  · intro h
    refine List.mem_map.mpr ⟨mx, h, ?_⟩
    rw [hd, calculate_new_value_mid mx _ mn mx (by omega) (le_refl _) hmx (by omega),
      Nat.mul_div_cancel_left 255 (by omega : 0 < mx - mn)]

theorem ppm_idempotent (img : ImagePPM) (hwf : img.well_formed) (hw : 0 < img.width)
    (hh : 0 < img.height) :
    ∃ img1, img.normalize 0 = .ok img1 ∧ img1.normalize 0 = .ok img1 := by
  obtain ⟨br, bg, bb⟩ := ppm_channel_lt img hwf
  obtain ⟨lr, lg, lb⟩ := ppm_channel_length img hwf
  have hpos : 0 < img.width * img.height := Nat.mul_pos hw hh
  obtain ⟨nr, xr, hnr, hxr, r1, r2, r3, r4⟩ := thresholds_zero img.reds br (by omega)
  obtain ⟨ng, xg, hng, hxg, g1, g2, g3, g4⟩ := thresholds_zero img.greens bg (by omega)
  obtain ⟨nb, xb, hnb, hxb, b1, b2, b3, b4⟩ := thresholds_zero img.blues bb (by omega)
  have hmin := scan3_ok calculate_min_luminance img 0 nr ng nb hnr hng hnb
  have hmax := scan3_ok calculate_max_luminance img 0 xr xg xb hxr hxg hxb
  have e3 := ppm_normalize_eq img hwf 0 _ _ hmin hmax
  have hmn := min3_cases nr ng nb
  have hmx := max3_cases xr xg xb
  have hxr256 := br xr r3
  have hxg256 := bg xg g3
  have hxb256 := bb xb b3
  have hnx_r := r2 xr r3
  have hnx_g := g2 xg g3
  have hnx_b := b2 xb b3
  have hle : min nr (min ng nb) ≤ max xr (max xg xb) := by omega
  rcases Nat.eq_or_lt_of_le hle with heq | hlt
  · have m1 : img.min_luminance 0 = .ok (min nr (min ng nb)) := by
      rw [ppm_min_luminance_eq img hwf, hmin]; rfl
    have m2 : img.max_luminance 0 = .ok (min nr (min ng nb)) := by
      rw [ppm_max_luminance_eq img hwf, hmax, heq]; rfl
    obtain ⟨img', hn, _, hsame⟩ := colour_equal_thresholds img 0 _ hwf m1 m2
    have := hsame rfl
    subst this
    exact ⟨img', hn, hn⟩
  · refine ⟨_, e3, ?_⟩
    dsimp only at e3 ⊢
    generalize hMN : min nr (min ng nb) = mn at *
    generalize hMX : max xr (max xg xb) = mx at *
    have hmx256 : mx < 256 := by omega
    obtain ⟨hwf1, hr1, hg1, hb1⟩ := ppm_remapped img hwf mn mx
    obtain ⟨cr, cg, cb⟩ := ppm_channel_lt _ hwf1
    obtain ⟨kr, kg, kb⟩ := ppm_channel_length _ hwf1
    have hpos1 : 0 < (ImagePPM.mk img.width img.height
        (img.matrix.map (fun row => row.map (remap_rgb mn mx)))).width *
        (ImagePPM.mk img.width img.height
        (img.matrix.map (fun row => row.map (remap_rgb mn mx)))).height := hpos
    obtain ⟨nr', xr', hnr', hxr', r1', r2', r3', r4'⟩ := thresholds_zero _ cr (by omega)
    obtain ⟨ng', xg', hng', hxg', g1', g2', g3', g4'⟩ := thresholds_zero _ cg (by omega)
    obtain ⟨nb', xb', hnb', hxb', b1', b2', b3', b4'⟩ := thresholds_zero _ cb (by omega)
    have zr := (remapped_extremes img.reds mn mx hlt hmx256).1
    have zg := (remapped_extremes img.greens mn mx hlt hmx256).1
    have zb := (remapped_extremes img.blues mn mx hlt hmx256).1
    have tr := (remapped_extremes img.reds mn mx hlt hmx256).2
    have tg := (remapped_extremes img.greens mn mx hlt hmx256).2
    have tb := (remapped_extremes img.blues mn mx hlt hmx256).2
    rw [← hr1] at zr tr
    rw [← hg1] at zg tg
    rw [← hb1] at zb tb
    have hzero : nr' = 0 ∨ ng' = 0 ∨ nb' = 0 := by
      rcases hmn with h | h | h
      · left; have := r2' 0 (zr (h ▸ r1)); omega
      · right; left; have := g2' 0 (zg (h ▸ g1)); omega
      · right; right; have := b2' 0 (zb (h ▸ b1)); omega
    have htop : xr' = 255 ∨ xg' = 255 ∨ xb' = 255 := by
      rcases hmx with h | h | h
      · left; have := r4' 255 (tr (h ▸ r3)); have := cr xr' r3'; omega
      · right; left; have := g4' 255 (tg (h ▸ g3)); have := cg xg' g3'; omega
      · right; right; have := b4' 255 (tb (h ▸ b3)); have := cb xb' b3'; omega
    have hx1 := cr xr' r3'
    have hx2 := cg xg' g3'
    have hx3 := cb xb' b3'
    have hmin' := scan3_ok calculate_min_luminance _ 0 nr' ng' nb' hnr' hng' hnb'
    have hmax' := scan3_ok calculate_max_luminance _ 0 xr' xg' xb' hxr' hxg' hxb'
    have f3 := ppm_normalize_eq _ hwf1 0 _ _ hmin' hmax'
    have emn' : min nr' (min ng' nb') = 0 := by omega
    have emx' : max xr' (max xg' xb') = 255 := by omega
    dsimp only at f3
    rw [emn', emx'] at f3
    rw [f3]
    have hm := map_map_eq_self (remap_rgb 0 255)
      (img.matrix.map (fun row => row.map (remap_rgb mn mx)))
      (by
        intro row hrow p hp
        obtain ⟨q1, q2, q3⟩ := hwf1.2.2 row hrow p hp
        unfold remap_rgb
        rw [calculate_new_value_full_range _ q1, calculate_new_value_full_range _ q2,
          calculate_new_value_full_range _ q3])
    show Except.ok (ImagePPM.mk _ _ _) = Except.ok (ImagePPM.mk _ _ _)
    rw [hm]

theorem header_read_ok (s : List Nat) (w h : Nat) (rest : List Nat)
    (hr : Image.read s = .ok (w, h, rest)) :
    ∃ wi hi : Int, (INT_MIN ≤ wi ∧ wi ≤ INT_MAX) ∧ (INT_MIN ≤ hi ∧ hi ≤ INT_MAX) ∧
      w = (wi % (SIZE_MOD : Int)).toNat ∧ h = (hi % (SIZE_MOD : Int)).toNat := by
  unfold Image.read at hr
  obtain ⟨⟨buf, s1⟩, _, h2⟩ := bind_eq_ok _ _ _ hr
  dsimp only at h2
  cases hf : find buf 32 with
  | none => rw [hf] at h2; cases h2
  | some pos =>
    rw [hf] at h2
    dsimp only at h2
    obtain ⟨wi, hwi, h3⟩ := bind_eq_ok _ _ _ h2
    obtain ⟨hi, hhi, h4⟩ := bind_eq_ok _ _ _ h3
    obtain ⟨⟨buf2, s2⟩, _, h5⟩ := bind_eq_ok _ _ _ h4
    dsimp only at h5
    obtain ⟨m, _, h6⟩ := bind_eq_ok _ _ _ h5
    split_ifs at h6
    cases h6
    exact ⟨wi, hi, stoi_range _ _ hwi, stoi_range _ _ hhi, rfl, rfl⟩

theorem dimension_of_int (n : Int) (bound : Nat) (hn : INT_MIN ≤ n ∧ n ≤ INT_MAX)
    (hb : bound < 2 ^ 63) (hle : (n % (SIZE_MOD : Int)).toNat ≤ bound) :
    (n % (SIZE_MOD : Int)).toNat < 2 ^ 31 := by
  have e : ((SIZE_MOD : Nat) : Int) = 18446744073709551616 := by norm_num [SIZE_MOD]
  rw [e] at hle ⊢
  have hb2 : bound < 9223372036854775808 := by simpa using hb
  simp only [INT_MIN, INT_MAX] at hn
  have : (2 : Nat) ^ 31 = 2147483648 := by norm_num
  rw [this]
  omega

theorem read_n_length {α : Type} (read_one : List Nat → Result (α × List Nat)) :
    ∀ (n : Nat) (s : List Nat) (l : List α) (rest : List Nat),
      read_n read_one n s = .ok (l, rest) → l.length = n := by
  intro n
  induction n with
  | zero => intro s l rest h; cases h; rfl
  | succ n ih =>
    intro s l rest h
    unfold read_n at h
    obtain ⟨⟨a, s1⟩, _, h2⟩ := bind_eq_ok _ _ _ h
    dsimp only at h2
    obtain ⟨⟨l', s2⟩, h3, h4⟩ := bind_eq_ok _ _ _ h2
    cases h4
    rw [List.length_cons, ih _ _ _ h3]

theorem read_n_all {α : Type} (read_one : List Nat → Result (α × List Nat)) (P : α → Prop)
    (hone : ∀ s a rest, read_one s = .ok (a, rest) → P a) :
    ∀ (n : Nat) (s : List Nat) (l : List α) (rest : List Nat),
      read_n read_one n s = .ok (l, rest) → ∀ a ∈ l, P a := by
  intro n
  induction n with
  | zero => intro s l rest h; cases h; intro a ha; cases ha
  | succ n ih =>
    intro s l rest h
    unfold read_n at h
    obtain ⟨⟨a, s1⟩, h1, h2⟩ := bind_eq_ok _ _ _ h
    dsimp only at h2
    obtain ⟨⟨l', s2⟩, h3, h4⟩ := bind_eq_ok _ _ _ h2
    cases h4
    intro b hb
    rcases List.mem_cons.mp hb with rfl | hb
    · exact hone _ _ _ h1
    · exact ih _ _ _ h3 b hb

theorem pgm_read_ok (s : List Nat) (img : ImagePGM) (rest : List Nat)
    (h : ImagePGM.read s = .ok (img, rest)) :
    img.width < 2 ^ 31 ∧ img.height < 2 ^ 31 ∧ img.matrix.length = img.height ∧
      ∀ row ∈ img.matrix, row.length = img.width := by
  unfold ImagePGM.read at h
  obtain ⟨⟨w, ht, s1⟩, hhead, h2⟩ := bind_eq_ok _ _ _ h
  dsimp only at h2
  obtain ⟨wi, hi, rw1, rh1, ew, eh⟩ := header_read_ok _ _ _ _ hhead
  split_ifs at h2 with hsz
  obtain ⟨⟨m, s2⟩, hm, h3⟩ := bind_eq_ok _ _ _ h2
  cases h3
  simp only [not_or, not_lt] at hsz
  have hv := max_size_values
  refine ⟨?_, ?_, read_n_length _ _ _ _ _ hm, ?_⟩
  · show w < 2 ^ 31
    rw [ew] at hsz ⊢
    exact dimension_of_int wi (max_size 1) rw1 (by rw [hv.1]; norm_num) hsz.1
  · show ht < 2 ^ 31
    rw [eh] at hsz ⊢
    exact dimension_of_int hi (max_size 24) rh1 (by rw [hv.2.2]; norm_num) hsz.2
  · exact read_n_all _ (fun row => row.length = w)
      (fun s' a r' h' => read_n_length _ _ _ _ _ h') _ _ _ _ hm

theorem ppm_read_ok (s : List Nat) (img : ImagePPM) (rest : List Nat)
    (h : ImagePPM.read s = .ok (img, rest)) :
    img.width < 2 ^ 31 ∧ img.height < 2 ^ 31 ∧ img.matrix.length = img.height ∧
      ∀ row ∈ img.matrix, row.length = img.width := by
  unfold ImagePPM.read at h
  obtain ⟨⟨w, ht, s1⟩, hhead, h2⟩ := bind_eq_ok _ _ _ h
  dsimp only at h2
  obtain ⟨wi, hi, rw1, rh1, ew, eh⟩ := header_read_ok _ _ _ _ hhead
  split_ifs at h2 with hsz
  obtain ⟨⟨m, s2⟩, hm, h3⟩ := bind_eq_ok _ _ _ h2
  cases h3
  simp only [not_or, not_lt] at hsz
  have hv := max_size_values
  refine ⟨?_, ?_, read_n_length _ _ _ _ _ hm, ?_⟩
  · show w < 2 ^ 31
    rw [ew] at hsz ⊢
    exact dimension_of_int wi (max_size 3) rw1 (by rw [hv.2.1]; norm_num) hsz.1
  · show ht < 2 ^ 31
    rw [eh] at hsz ⊢
    exact dimension_of_int hi (max_size 24) rh1 (by rw [hv.2.2]; norm_num) hsz.2
  · exact read_n_all _ (fun row => row.length = w)
      (fun s' a r' h' => read_n_length _ _ _ _ _ h') _ _ _ _ hm

theorem read_image_ok (s : List Nat) (image : Image) (h : Image.read_image s = .ok image) :
    (∀ img, image = .pgm img → img.width < 2 ^ 31 ∧ img.height < 2 ^ 31 ∧
      img.matrix.length = img.height ∧ ∀ row ∈ img.matrix, row.length = img.width) ∧
    (∀ img, image = .ppm img → img.width < 2 ^ 31 ∧ img.height < 2 ^ 31 ∧
      img.matrix.length = img.height ∧ ∀ row ∈ img.matrix, row.length = img.width) := by
  unfold Image.read_image at h
  obtain ⟨⟨type, s1⟩, _, h2⟩ := bind_eq_ok _ _ _ h
  dsimp only at h2
  obtain ⟨image0, _, h3⟩ := bind_eq_ok _ _ _ h2
  cases image0 with
  | pgm i0 =>
    dsimp only at h3
    obtain ⟨⟨img', s2⟩, hr, h4⟩ := bind_eq_ok _ _ _ h3
    cases h4
    constructor
    · intro img e
      cases e
      exact pgm_read_ok _ _ _ hr
    · intro img e
      cases e
  | ppm i0 =>
    dsimp only at h3
    obtain ⟨⟨img', s2⟩, hr, h4⟩ := bind_eq_ok _ _ _ h3
    cases h4
    constructor
    · intro img e
      cases e
    · intro img e
      cases e
      exact ppm_read_ok _ _ _ hr

/-! ## The claims -/

/-- C1, as stated, fails: on the one-row image `0 100 200` with `ignore_count`
2 the scans give `min_luminance` 200 and `max_luminance` 0; the pixel 100 is
strictly above `max_luminance` and `normalize` sets it to 0, not to 255. -/
theorem normalize_above_max_not_255 :
    three_level_image.well_formed ∧
    three_level_image.min_luminance 2 = .ok 200 ∧
    three_level_image.max_luminance 2 = .ok 0 ∧
    pixel_at three_level_image.matrix 0 1 = some ⟨100⟩ ∧
    three_level_image.normalize 2 = .ok ⟨3, 1, [[⟨0⟩, ⟨0⟩, ⟨255⟩]]⟩ ∧
    ¬ (∀ img img' : ImagePGM, ∀ k : Int, ∀ mx row column : Nat, ∀ p q : grayscale_pixel,
        img.well_formed → img.max_luminance k = .ok mx → img.normalize k = .ok img' →
        pixel_at img.matrix row column = some p → pixel_at img'.matrix row column = some q →
        mx < p.luminance → q.luminance = 255) := by
  refine ⟨by decide, by decide, by decide, by decide, by decide, ?_⟩
  intro h
  have := h three_level_image ⟨3, 1, [[⟨0⟩, ⟨0⟩, ⟨255⟩]]⟩ 2 0 0 1 ⟨100⟩ ⟨0⟩
    (by decide) (by decide) (by decide) (by decide) (by decide) (by decide)
  exact absurd this (by decide)

/-- C1, amended: `calculate_new_value` returns 0 for a value below `min_value`
and 255 for a value not below `min_value` and above `max_value`; and for a
well-formed grayscale image and an `ignore_count` below the number of pixels,
`normalize` returns an image in which every pixel that was strictly below
`min_luminance` is 0 and every pixel that was strictly above `max_luminance`
and not below `min_luminance` is 255. -/
theorem normalize_clamps_outside_thresholds (img : ImagePGM) (ignore_count : Int)
    (hwf : img.well_formed) (hk : ignore_count < ((img.width * img.height : Nat) : Int)) :
    (∀ v diff mn mx : Nat, v < mn → calculate_new_value v diff mn mx = 0) ∧
    (∀ v diff mn mx : Nat, mn ≤ v → mx < v → calculate_new_value v diff mn mx = 255) ∧
    ∃ (mn mx : Nat) (img' : ImagePGM), img.min_luminance ignore_count = .ok mn ∧
      img.max_luminance ignore_count = .ok mx ∧ img.normalize ignore_count = .ok img' ∧
      ∀ (row column : Nat) (p : grayscale_pixel), pixel_at img.matrix row column = some p →
        ∃ q, pixel_at img'.matrix row column = some q ∧
          (p.luminance < mn → q.luminance = 0) ∧
          (mn ≤ p.luminance → mx < p.luminance → q.luminance = 255) := by
  refine ⟨fun v d mn mx h => calculate_new_value_below v d mn mx h,
    fun v d mn mx h1 h2 => calculate_new_value_above v d mn mx h1 h2, ?_⟩
  rw [← pgm_samples_length img hwf] at hk
  obtain ⟨mn, mx, hmn, hmx, _⟩ :=
    thresholds_counts img.samples (pgm_samples_lt img hwf) ignore_count hk
  obtain ⟨h1, h2, h3⟩ := pgm_normalize_eq img hwf ignore_count mn mx hmn hmx
  refine ⟨mn, mx, _, h1, h2, h3, ?_⟩
  intro row column p hp
  refine ⟨⟨calculate_new_value p.luminance (diff_u8 mx mn) mn mx⟩, ?_, ?_, ?_⟩
  · have hmap := pixel_at_map
      (fun p : grayscale_pixel => ⟨calculate_new_value p.luminance (diff_u8 mx mn) mn mx⟩)
      img.matrix row column
    rw [hp] at hmap
    exact hmap
  · intro h; exact calculate_new_value_below _ _ _ _ h
  · intro h4 h5; exact calculate_new_value_above _ _ _ _ h4 h5

/-- Instance of `normalize_clamps_outside_thresholds`: the 2 x 2 ramp with
`ignore_count` 1. -/
theorem normalize_clamps_outside_thresholds_witness :
    ramp_image.well_formed ∧ (1 : Int) < ((ramp_image.width * ramp_image.height : Nat) : Int) ∧
    ∃ (mn mx : Nat) (img' : ImagePGM), ramp_image.min_luminance 1 = .ok mn ∧
      ramp_image.max_luminance 1 = .ok mx ∧ ramp_image.normalize 1 = .ok img' ∧
      ∀ (row column : Nat) (p : grayscale_pixel),
        pixel_at ramp_image.matrix row column = some p →
        ∃ q, pixel_at img'.matrix row column = some q ∧
          (p.luminance < mn → q.luminance = 0) ∧
          (mn ≤ p.luminance → mx < p.luminance → q.luminance = 255) :=
  ⟨by decide, by decide,
    (normalize_clamps_outside_thresholds ramp_image 1 (by decide) (by decide)).2.2⟩

/-- C2: for `min_luminance <= v <= max_luminance` (8-bit values) with
`diff = max_luminance - min_luminance > 0`, the 8-bit `diff` is that difference,
`calculate_new_value` returns `floor((v - min_luminance) * 255 / diff)`, and this
quotient is at most 255, so the narrowing to 8 bits changes nothing. -/
theorem calculate_new_value_rescale (v min_luminance max_luminance : Nat)
    (hlo : min_luminance ≤ v) (hhi : v ≤ max_luminance) (hmax : max_luminance < 256)
    (hdiff : 0 < max_luminance - min_luminance) :
    diff_u8 max_luminance min_luminance = max_luminance - min_luminance ∧
    calculate_new_value v (max_luminance - min_luminance) min_luminance max_luminance
      = (v - min_luminance) * 255 / (max_luminance - min_luminance) ∧
    (v - min_luminance) * 255 / (max_luminance - min_luminance) ≤ 255 := by
  have hq : (v - min_luminance) * 255 / (max_luminance - min_luminance) ≤ 255 := by
    apply Nat.div_le_of_le_mul
    have : v - min_luminance ≤ max_luminance - min_luminance := by omega
    calc (v - min_luminance) * 255 ≤ (max_luminance - min_luminance) * 255 :=
          Nat.mul_le_mul_right _ this
      _ = (max_luminance - min_luminance) * 255 := rfl
  refine ⟨diff_u8_of_le _ _ (by omega) hmax, ?_, hq⟩
  rw [calculate_new_value_mid v _ _ _ hlo hhi hmax hdiff]
  exact Nat.mod_eq_of_lt (by omega)

/-- Instance of `calculate_new_value_rescale`: value 100 between thresholds 50
and 200 is mapped to 85. -/
theorem calculate_new_value_rescale_witness :
    calculate_new_value 100 (200 - 50) 50 200 = 85 ∧
    (diff_u8 200 50 = 200 - 50 ∧
      calculate_new_value 100 (200 - 50) 50 200 = (100 - 50) * 255 / (200 - 50) ∧
      (100 - 50) * 255 / (200 - 50) ≤ 255) :=
  ⟨by decide, calculate_new_value_rescale 100 50 200 (by decide) (by decide) (by decide)
    (by decide)⟩

/-- C4: for a well-formed grayscale image with `width > 0` and `height > 0`
and `ignore_count` 0, the `min_luminance` computed by `ImagePGM::normalize` is
the smallest sample of the grid and the `max_luminance` is the largest. -/
theorem thresholds_without_clipping (img : ImagePGM) (hwf : img.well_formed)
    (hw : 0 < img.width) (hh : 0 < img.height) :
    ∃ mn mx, img.min_luminance 0 = .ok mn ∧ img.max_luminance 0 = .ok mx ∧
      mn ∈ img.samples ∧ (∀ v ∈ img.samples, mn ≤ v) ∧
      mx ∈ img.samples ∧ (∀ v ∈ img.samples, v ≤ mx) := by
  have hne : 0 < img.samples.length := by
    rw [pgm_samples_length img hwf]; exact Nat.mul_pos hw hh
  obtain ⟨mn, mx, hmn, hmx, h1, h2, h3, h4⟩ :=
    thresholds_zero img.samples (pgm_samples_lt img hwf) hne
  obtain ⟨e1, e2, _⟩ := pgm_normalize_eq img hwf 0 mn mx hmn hmx
  exact ⟨mn, mx, e1, e2, h1, h2, h3, h4⟩

/-- Instance of `thresholds_without_clipping`: the 2 x 2 ramp has thresholds 10
and 40. -/
theorem thresholds_without_clipping_witness :
    ramp_image.well_formed ∧ 0 < ramp_image.width ∧ 0 < ramp_image.height ∧
    ramp_image.min_luminance 0 = .ok 10 ∧ ramp_image.max_luminance 0 = .ok 40 ∧
    ∃ mn mx, ramp_image.min_luminance 0 = .ok mn ∧ ramp_image.max_luminance 0 = .ok mx ∧
      mn ∈ ramp_image.samples ∧ (∀ v ∈ ramp_image.samples, mn ≤ v) ∧
      mx ∈ ramp_image.samples ∧ (∀ v ∈ ramp_image.samples, v ≤ mx) :=
  ⟨by decide, by decide, by decide, by decide, by decide,
    thresholds_without_clipping ramp_image (by decide) (by decide) (by decide)⟩

/-- C5: for a well-formed grayscale image whose smallest sample `lo` and
largest sample `hi` differ, `normalize` with `ignore_count` 0 returns an image
in which every pixel that held `lo` holds 0 and every pixel that held `hi`
holds 255. -/
theorem full_range_stretch (img : ImagePGM) (hwf : img.well_formed) (lo hi : Nat)
    (hlo : lo ∈ img.samples) (hlo_min : ∀ v ∈ img.samples, lo ≤ v)
    (hhi : hi ∈ img.samples) (hhi_max : ∀ v ∈ img.samples, v ≤ hi) (hne : lo ≠ hi) :
    ∃ img', img.normalize 0 = .ok img' ∧
      ∀ (row column : Nat) (p : grayscale_pixel), pixel_at img.matrix row column = some p →
        (p.luminance = lo → pixel_at img'.matrix row column = some ⟨0⟩) ∧
        (p.luminance = hi → pixel_at img'.matrix row column = some ⟨255⟩) := by
  have hb := pgm_samples_lt img hwf
  have hpos : 0 < img.samples.length := List.length_pos_of_mem hlo
  obtain ⟨mn, mx, hmn, hmx, h1, h2, h3, h4⟩ := thresholds_zero img.samples hb hpos
  have emn : mn = lo := Nat.le_antisymm (h2 lo hlo) (hlo_min mn h1)
  have emx : mx = hi := Nat.le_antisymm (hhi_max mx h3) (h4 hi hhi)
  subst emn emx
  obtain ⟨_, _, e3⟩ := pgm_normalize_eq img hwf 0 mn mx hmn hmx
  have hle : mn ≤ mx := h2 mx h3
  have hlt : mn < mx := by omega
  have hmx256 : mx < 256 := hb mx h3
  have hd : diff_u8 mx mn = mx - mn := diff_u8_of_le mx mn hle hmx256
  refine ⟨_, e3, ?_⟩
  intro row column p hp
  have hmap := pixel_at_map
    (fun p : grayscale_pixel => ⟨calculate_new_value p.luminance (diff_u8 mx mn) mn mx⟩)
    img.matrix row column
  rw [hp] at hmap
  have hq : pixel_at (ImagePGM.mk img.width img.height (img.matrix.map (fun row =>
      row.map (fun p => ⟨calculate_new_value p.luminance (diff_u8 mx mn) mn mx⟩)))).matrix
      row column = some ⟨calculate_new_value p.luminance (diff_u8 mx mn) mn mx⟩ := hmap
  constructor
  · intro hpl
    have : calculate_new_value p.luminance (diff_u8 mx mn) mn mx = 0 := by
      rw [hpl, hd, calculate_new_value_mid mn _ mn mx (le_refl _) hle hmx256 (by omega)]
      simp
    rw [hq, this]
  · intro hpl
    have : calculate_new_value p.luminance (diff_u8 mx mn) mn mx = 255 := by
      rw [hpl, hd, calculate_new_value_mid mx _ mn mx hle (le_refl _) hmx256 (by omega),
        Nat.mul_div_cancel_left 255 (by omega : 0 < mx - mn)]
    rw [hq, this]

/-- Instance of `full_range_stretch`: the 2 x 2 ramp, smallest sample 10 and
largest 40. -/
theorem full_range_stretch_witness :
    ramp_image.normalize 0 = .ok ⟨2, 2, [[⟨0⟩, ⟨85⟩], [⟨170⟩, ⟨255⟩]]⟩ ∧
    ∃ img', ramp_image.normalize 0 = .ok img' ∧
      ∀ (row column : Nat) (p : grayscale_pixel),
        pixel_at ramp_image.matrix row column = some p →
        (p.luminance = 10 → pixel_at img'.matrix row column = some ⟨0⟩) ∧
        (p.luminance = 40 → pixel_at img'.matrix row column = some ⟨255⟩) :=
  ⟨by decide, full_range_stretch ramp_image (by decide) 10 40 (by decide) (by decide)
    (by decide) (by decide) (by decide)⟩

/-- C7: for a 256-bucket histogram and any `ignore_count`,
`calculate_min_luminance` returns the least index whose sum
`cnt[0] + ... + cnt[i]` exceeds `ignore_count`, and 255 when no index of 0..255
has such a sum; for 10 pixels at value 0, 90 at value 200 and `ignore_count` 5 it
returns 0. -/
theorem calculate_min_luminance_least_index (cnt : Histogram) (ignore_count : Int) :
    (∃ r, calculate_min_luminance cnt ignore_count = .ok r ∧ r < 256 ∧
      ((∃ j, j < 256 ∧ sum_upto cnt j > ignore_count) →
        sum_upto cnt r > ignore_count ∧ ∀ j, j < r → sum_upto cnt j ≤ ignore_count) ∧
      ((∀ j, j < 256 → sum_upto cnt j ≤ ignore_count) → r = 255)) ∧
    calculate_min_luminance two_level_histogram 5 = .ok 0 := by
  refine ⟨?_, by decide⟩
  exact min_loop_spec cnt ignore_count 257 0 0 (by omega) (by omega) (by simp [sum_below])
    (by intro j hj; omega)

/-- C8: for a 256-bucket histogram whose total count exceeds `ignore_count`,
`calculate_max_luminance` returns the greatest index whose sum
`cnt[i] + ... + cnt[255]` exceeds `ignore_count`, without a read outside buckets
0..255 (such a read is the `out_of_bounds` failure); for 10 pixels at value 0,
90 at value 200 and `ignore_count` 5 it returns 200. -/
theorem calculate_max_luminance_greatest_index (cnt : Histogram) (ignore_count : Int)
    (htotal : sum_from cnt 0 > ignore_count) :
    (∃ r, calculate_max_luminance cnt ignore_count = .ok r ∧ r < 256 ∧
      sum_from cnt r > ignore_count ∧
      ∀ j, r < j → j < 256 → sum_from cnt j ≤ ignore_count) ∧
    calculate_max_luminance two_level_histogram 5 = .ok 200 := by
  refine ⟨?_, by decide⟩
  obtain ⟨r, hr, hr255, hrk, hrhigh⟩ := max_loop_spec cnt ignore_count 257 255 0
    (by omega) (by omega) (by rw [sum_from_end])
    (by intro j h1 h2; omega) ⟨0, by omega, htotal⟩
  exact ⟨r, hr, by omega, hrk, hrhigh⟩

/-- Instance of `calculate_max_luminance_greatest_index`: the histogram of 10
pixels at 0 and 90 pixels at 200 with `ignore_count` 95, where the scan has to
come down to bucket 0. -/
theorem calculate_max_luminance_greatest_index_witness :
    sum_from two_level_histogram 0 > 95 ∧
    calculate_max_luminance two_level_histogram 95 = .ok 0 ∧
    ∃ r, calculate_max_luminance two_level_histogram 95 = .ok r ∧ r < 256 ∧
      sum_from two_level_histogram r > 95 ∧
      ∀ j, r < j → j < 256 → sum_from two_level_histogram j ≤ 95 :=
  ⟨by decide, by decide,
    (calculate_max_luminance_greatest_index two_level_histogram 95 (by decide)).1⟩

/-- C6, as stated, fails.  On the one-row grayscale image `10 100 100` with
`ignore_count` 1 the thresholds are both 100 and `normalize` changes the pixel
10 to 0; on the colour image of two pixels (10, 20, 30) with `ignore_count` 0,
a uniformly coloured image, `normalize` changes every pixel to (0, 127, 255). -/
theorem normalize_equal_thresholds_changes_pixels :
    dark_outlier_image.well_formed ∧
    dark_outlier_image.min_luminance 1 = .ok 100 ∧
    dark_outlier_image.max_luminance 1 = .ok 100 ∧
    dark_outlier_image.normalize 1 = .ok ⟨3, 1, [[⟨0⟩, ⟨100⟩, ⟨100⟩]]⟩ ∧
    dark_outlier_image.normalize 1 ≠ .ok dark_outlier_image ∧
    uniform_colour_image.well_formed ∧
    uniform_colour_image.normalize 0 = .ok ⟨2, 1, [[⟨0, 127, 255⟩, ⟨0, 127, 255⟩]]⟩ ∧
    uniform_colour_image.normalize 0 ≠ .ok uniform_colour_image := by
  refine ⟨by decide, by decide, by decide, by decide, by decide, by decide, by decide, by decide⟩

/-- C6, amended: when the thresholds computed by `normalize` for a well-formed
grayscale or colour image are one value `m`, `normalize` returns an image in
which every sample equal to `m` is unchanged, every sample below `m` is 0 and
every sample above `m` is 255; with `ignore_count` 0 the returned image is the
input image. -/
theorem normalize_equal_thresholds :
    (∀ (img : ImagePGM) (ignore_count : Int) (m : Nat), img.well_formed →
      img.min_luminance ignore_count = .ok m → img.max_luminance ignore_count = .ok m →
      ∃ img', img.normalize ignore_count = .ok img' ∧
        (∀ (row column : Nat) (p : grayscale_pixel),
          pixel_at img.matrix row column = some p →
          pixel_at img'.matrix row column = some
            ⟨if p.luminance < m then 0 else if m < p.luminance then 255 else p.luminance⟩) ∧
        (ignore_count = 0 → img' = img)) ∧
    (∀ (img : ImagePPM) (ignore_count : Int) (m : Nat), img.well_formed →
      img.min_luminance ignore_count = .ok m → img.max_luminance ignore_count = .ok m →
      ∃ img', img.normalize ignore_count = .ok img' ∧
        (∀ (row column : Nat) (p : RGB_pixel), pixel_at img.matrix row column = some p →
          pixel_at img'.matrix row column = some
            ⟨if p.red < m then 0 else if m < p.red then 255 else p.red,
              if p.green < m then 0 else if m < p.green then 255 else p.green,
              if p.blue < m then 0 else if m < p.blue then 255 else p.blue⟩) ∧
        (ignore_count = 0 → img' = img)) :=
  ⟨fun img k m hwf hmin hmax => gray_equal_thresholds img k m hwf hmin hmax,
    fun img k m hwf hmin hmax => colour_equal_thresholds img k m hwf hmin hmax⟩

/-- Instance of `normalize_equal_thresholds`: the uniform 2 x 2 grayscale image
of value 7 and the colour image of two pixels (9, 9, 9), both with
`ignore_count` 0, are returned unchanged. -/
theorem normalize_equal_thresholds_witness :
    (uniform_gray_image.well_formed ∧ uniform_gray_image.min_luminance 0 = .ok 7 ∧
      uniform_gray_image.max_luminance 0 = .ok 7 ∧
      ∃ img', uniform_gray_image.normalize 0 = .ok img' ∧
        (∀ (row column : Nat) (p : grayscale_pixel),
          pixel_at uniform_gray_image.matrix row column = some p →
          pixel_at img'.matrix row column = some
            ⟨if p.luminance < 7 then 0 else if 7 < p.luminance then 255 else p.luminance⟩) ∧
        ((0 : Int) = 0 → img' = uniform_gray_image)) ∧
    (uniform_grey_colour_image.well_formed ∧ uniform_grey_colour_image.min_luminance 0 = .ok 9 ∧
      uniform_grey_colour_image.max_luminance 0 = .ok 9 ∧
      ∃ img', uniform_grey_colour_image.normalize 0 = .ok img' ∧
        (∀ (row column : Nat) (p : RGB_pixel),
          pixel_at uniform_grey_colour_image.matrix row column = some p →
          pixel_at img'.matrix row column = some
            ⟨if p.red < 9 then 0 else if 9 < p.red then 255 else p.red,
              if p.green < 9 then 0 else if 9 < p.green then 255 else p.green,
              if p.blue < 9 then 0 else if 9 < p.blue then 255 else p.blue⟩) ∧
        ((0 : Int) = 0 → img' = uniform_grey_colour_image)) :=
  ⟨⟨by decide, by decide, by decide,
      normalize_equal_thresholds.1 uniform_gray_image 0 7 (by decide) (by decide) (by decide)⟩,
    ⟨by decide, by decide, by decide,
      normalize_equal_thresholds.2 uniform_grey_colour_image 0 9 (by decide) (by decide)
        (by decide)⟩⟩

/-- C3: every image that `read_image` returns has width and height below 2^31
(they are results of `std::stoi`) and a grid of exactly `height` rows of `width`
pixels; and for every grayscale image and every colour image with such
dimensions whose grid has exactly `height` rows of `width` 8-bit samples,
writing the image succeeds and `read_image` on the bytes written returns an
image of the same variant with the same width, height and grid. -/
theorem write_then_read :
    (∀ img : ImagePGM, img.well_formed → img.width < 2 ^ 31 → img.height < 2 ^ 31 →
      ∃ bytes, (Image.pgm img).write = .ok bytes ∧ Image.read_image bytes = .ok (.pgm img)) ∧
    (∀ img : ImagePPM, img.well_formed → img.width < 2 ^ 31 → img.height < 2 ^ 31 →
      ∃ bytes, (Image.ppm img).write = .ok bytes ∧ Image.read_image bytes = .ok (.ppm img)) ∧
    (∀ (s : List Nat) (img : ImagePGM), Image.read_image s = .ok (.pgm img) →
      img.width < 2 ^ 31 ∧ img.height < 2 ^ 31 ∧ img.matrix.length = img.height ∧
        ∀ row ∈ img.matrix, row.length = img.width) ∧
    (∀ (s : List Nat) (img : ImagePPM), Image.read_image s = .ok (.ppm img) →
      img.width < 2 ^ 31 ∧ img.height < 2 ^ 31 ∧ img.matrix.length = img.height ∧
        ∀ row ∈ img.matrix, row.length = img.width) := by
  refine ⟨?_, ?_, ?_, ?_⟩
  · intro img hwf hw hh
    refine ⟨_, pgm_print_eq img hwf, ?_⟩
    rw [read_image_pgm, pgm_read_print img hwf hw hh]
    rfl
  · intro img hwf hw hh
    refine ⟨_, ppm_print_eq img hwf, ?_⟩
    rw [read_image_ppm, ppm_read_print img hwf hw hh]
    rfl
  · intro s img h
    exact (read_image_ok s _ h).1 img rfl
  · intro s img h
    exact (read_image_ok s _ h).2 img rfl

/-- Instance of `write_then_read`: the 2 x 2 ramp and the colour image of two
pixels. -/
theorem write_then_read_witness :
    (ramp_image.well_formed ∧ ramp_image.width < 2 ^ 31 ∧ ramp_image.height < 2 ^ 31 ∧
      ∃ bytes, (Image.pgm ramp_image).write = .ok bytes ∧
        Image.read_image bytes = .ok (.pgm ramp_image)) ∧
    (two_pixel_colour_image.well_formed ∧ two_pixel_colour_image.width < 2 ^ 31 ∧
      two_pixel_colour_image.height < 2 ^ 31 ∧
      ∃ bytes, (Image.ppm two_pixel_colour_image).write = .ok bytes ∧
        Image.read_image bytes = .ok (.ppm two_pixel_colour_image)) :=
  ⟨⟨by decide, by decide, by decide,
      write_then_read.1 ramp_image (by decide) (by decide) (by decide)⟩,
    ⟨by decide, by decide, by decide,
      write_then_read.2.1 two_pixel_colour_image (by decide) (by decide) (by decide)⟩⟩

/-- C10, as stated, fails: with the third header line `99999999999`
`read_image` stops in `std::stoi` with `std::out_of_range`, which is not the
invalid-argument error of the maximum-value check; and with the third header
line `0255`, which is not the text `255`, `read_image` succeeds. -/
theorem read_image_other_maximum_lines :
    Image.read_image header_with_huge_maximum = .error (.out_of_range "stoi") ∧
    Image.read_image header_with_huge_maximum ≠ .error (.invalid_argument
      "Wrong format of the input file -- maximum possible value for pixel is not 255.") ∧
    Image.read_image header_with_padded_maximum = .ok (.pgm ⟨1, 1, [[⟨7⟩]]⟩) := by
  refine ⟨by decide, by decide, by decide⟩

/-- C10, amended: for an input whose tag line is `P5` or `P6` and whose
geometry line is well formed, if `std::stoi` reads from the third header line an
`int` other than 255 then `read_image` fails with the invalid-argument error
"Wrong format of the input file -- maximum possible value for pixel is not 255."
and returns no image; if `std::stoi` rejects the line, `read_image` fails with
that error of `std::stoi`; and `read_image` returns an image only when
`std::stoi` reads 255 from the line. -/
theorem read_image_checks_maximum (tag geometry line rest : List Nat) (pos : Nat) (w h : Int)
    (htag : tag = PGM_FORMAT ∨ tag = PPM_FORMAT) (hg : 10 ∉ geometry) (hl : 10 ∉ line)
    (hpos : find geometry 32 = some pos) (hw : stoi (geometry.take pos) = .ok w)
    (hh : stoi (geometry.drop (pos + 1)) = .ok h) :
    (∀ n, stoi line = .ok n → n ≠ 255 →
      Image.read_image (tag ++ 10 :: (geometry ++ 10 :: (line ++ 10 :: rest)))
        = .error (.invalid_argument
          "Wrong format of the input file -- maximum possible value for pixel is not 255.")) ∧
    (∀ e, stoi line = .error e →
      Image.read_image (tag ++ 10 :: (geometry ++ 10 :: (line ++ 10 :: rest))) = .error e) ∧
    (∀ image, Image.read_image (tag ++ 10 :: (geometry ++ 10 :: (line ++ 10 :: rest)))
        = .ok image → stoi line = .ok 255) := by
  have hhead := parse_header_of_geometry geometry line rest pos w h hpos hw hh
  have hlines := header_read_lines geometry line rest hg hl
  have hbad : ∀ n, stoi line = .ok n → n ≠ 255 →
      Image.read_image (tag ++ 10 :: (geometry ++ 10 :: (line ++ 10 :: rest)))
        = .error (.invalid_argument
          "Wrong format of the input file -- maximum possible value for pixel is not 255.") := by
    intro n hn hne
    have hcheck := max_value_mismatch n (stoi_range line n hn) hne
    rcases htag with rfl | rfl
    · rw [read_image_pgm]
      unfold ImagePGM.read
      rw [hlines, hhead, hn, bind_ok, if_pos hcheck]
      rfl
    · rw [read_image_ppm]
      unfold ImagePPM.read
      rw [hlines, hhead, hn, bind_ok, if_pos hcheck]
      rfl
  have herr : ∀ e, stoi line = .error e →
      Image.read_image (tag ++ 10 :: (geometry ++ 10 :: (line ++ 10 :: rest))) = .error e := by
    intro e he
    rcases htag with rfl | rfl
    · rw [read_image_pgm]
      unfold ImagePGM.read
      rw [hlines, hhead, he]
      rfl
    · rw [read_image_ppm]
      unfold ImagePPM.read
      rw [hlines, hhead, he]
      rfl
  refine ⟨hbad, herr, ?_⟩
  intro image himg
  cases hs : stoi line with
  | error e => rw [herr e hs] at himg; cases himg
  | ok n =>
    by_cases hn : n = 255
    · rw [hn]
    · rw [hbad n hs hn] at himg; cases himg

/-- Instance of `read_image_checks_maximum`: the header `P5`, `1 1`, `65535`
followed by one pixel byte. -/
theorem read_image_checks_maximum_witness :
    Image.read_image ([80, 53] ++ 10 :: ([49, 32, 49] ++ 10 :: ([54, 53, 53, 51, 53] ++ 10 :: [7])))
      = .error (.invalid_argument
        "Wrong format of the input file -- maximum possible value for pixel is not 255.") :=
  (read_image_checks_maximum [80, 53] [49, 32, 49] [54, 53, 53, 51, 53] [7] 1 1 1
    (Or.inl (by decide)) (by decide) (by decide) (by decide) (by decide) (by decide)).1
    65535 (by decide) (by decide)

/-- C11, as stated, fails: the input `XX` without a newline has a first line
that is neither `P5` nor `P6`, and `read_image` on the strict stream stops in
`std::getline` with the failure of the stream, not with the invalid-argument
error "Unknown format of the image."; the same holds for the empty input. -/
theorem read_image_unterminated_tag :
    Image.read_image [88, 88] = .error .ios_failure ∧
    Image.read_image [] = .error .ios_failure ∧
    Image.read_image [88, 88] ≠ .error (.invalid_argument "Unknown format of the image.") ∧
    [88, 88] ≠ PGM_FORMAT ∧ [88, 88] ≠ PPM_FORMAT := by
  decide

/-- C11, amended: for an input whose first line is ended by a newline,
`read_image` fails with the invalid-argument error "Unknown format of the
image." if and only if that line is neither exactly `P5` nor exactly `P6`; for
`P5` the object created, and any image returned, is a grayscale image, and for
`P6` a colour image. -/
theorem read_image_unknown_tag (line rest : List Nat) (hline : 10 ∉ line) :
    (Image.read_image (line ++ 10 :: rest)
        = .error (.invalid_argument "Unknown format of the image.")
      ↔ line ≠ PGM_FORMAT ∧ line ≠ PPM_FORMAT) ∧
    Image.create_image_by_type PGM_FORMAT = .ok (.pgm ⟨0, 0, []⟩) ∧
    Image.create_image_by_type PPM_FORMAT = .ok (.ppm ⟨0, 0, []⟩) ∧
    (∀ image, Image.read_image (PGM_FORMAT ++ 10 :: rest) = .ok image →
      ∃ img, image = .pgm img) ∧
    (∀ image, Image.read_image (PPM_FORMAT ++ 10 :: rest) = .ok image →
      ∃ img, image = .ppm img) := by
  refine ⟨⟨?_, ?_⟩, by decide, by decide, ?_, ?_⟩
  · intro h
    constructor
    · intro hl
      subst hl
      rw [read_image_pgm] at h
      rcases bind_eq_error _ _ _ h with h1 | ⟨a, _, h2⟩
      · exact reader_failure_not_unknown (pgm_read_error _ _ h1)
      · cases h2
    · intro hl
      subst hl
      rw [read_image_ppm] at h
      rcases bind_eq_error _ _ _ h with h1 | ⟨a, _, h2⟩
      · exact reader_failure_not_unknown (ppm_read_error _ _ h1)
      · cases h2
  · rintro ⟨h1, h2⟩
    unfold Image.read_image
    rw [getline_line line rest hline, bind_ok]
    dsimp only
    unfold Image.create_image_by_type
    rw [if_neg h1, if_neg h2]
    rfl
  · intro image h
    rw [read_image_pgm] at h
    obtain ⟨⟨img, s⟩, _, h2⟩ := bind_eq_ok _ _ _ h
    cases h2
    exact ⟨img, rfl⟩
  · intro image h
    rw [read_image_ppm] at h
    obtain ⟨⟨img, s⟩, _, h2⟩ := bind_eq_ok _ _ _ h
    cases h2
    exact ⟨img, rfl⟩

/-- Instance of `read_image_unknown_tag`: the input `P4`, newline, `1 1`,
newline. -/
theorem read_image_unknown_tag_witness :
    (10 : Nat) ∉ [80, 52] ∧
    Image.read_image ([80, 52] ++ 10 :: [49, 32, 49, 10])
      = .error (.invalid_argument "Unknown format of the image.") :=
  ⟨by decide,
    (read_image_unknown_tag [80, 52] [49, 32, 49, 10] (by decide)).1.mpr
      ⟨by decide, by decide⟩⟩

/-- C12: for a well-formed image, every assignment of the rows to workers
(each row to exactly one worker), every order in which the workers fold their
local histograms into the shared one and every order of the row iterations of
the remap give the histogram and the result of the run with one worker; and in
a returned image every cell is `calculate_new_value` of its own old value with
the shared thresholds.  Stated for the grayscale and for the colour image. -/
theorem thread_count_invariance :
    (∀ (img : ImagePGM) (workers : List (List Nat)) (order : List Nat) (ignore_count : Int),
      img.well_formed → workers.flatten.Perm (List.range img.height) →
      order.Perm (List.range img.height) →
      img.histogram_by workers = img.histogram ∧
      img.normalize_by workers order ignore_count = img.normalize ignore_count ∧
      ∀ img1, img.normalize_by workers order ignore_count = .ok img1 →
        ∃ mn mx, img.min_luminance ignore_count = .ok mn ∧
          img.max_luminance ignore_count = .ok mx ∧
          ∀ (row column : Nat) (p : grayscale_pixel),
            pixel_at img.matrix row column = some p →
            pixel_at img1.matrix row column
              = some ⟨calculate_new_value p.luminance (diff_u8 mx mn) mn mx⟩) ∧
    (∀ (img : ImagePPM) (workers : List (List Nat)) (order : List Nat) (ignore_count : Int),
      img.well_formed → workers.flatten.Perm (List.range img.height) →
      order.Perm (List.range img.height) →
      img.histograms_by workers = img.histograms ∧
      img.normalize_by workers order ignore_count = img.normalize ignore_count ∧
      ∀ img1, img.normalize_by workers order ignore_count = .ok img1 →
        ∃ mn mx, img.min_luminance ignore_count = .ok mn ∧
          img.max_luminance ignore_count = .ok mx ∧
          ∀ (row column : Nat) (p : RGB_pixel), pixel_at img.matrix row column = some p →
            pixel_at img1.matrix row column
              = some ⟨calculate_new_value p.red (diff_u8 mx mn) mn mx,
                  calculate_new_value p.green (diff_u8 mx mn) mn mx,
                  calculate_new_value p.blue (diff_u8 mx mn) mn mx⟩) := by
  constructor
  · intro img workers order k hwf hworkers horder
    have heq := pgm_normalize_by_eq img hwf workers order k hworkers horder
    refine ⟨pgm_histogram_by_eq img hwf workers hworkers, heq, ?_⟩
    intro img1 h1
    rw [heq] at h1
    obtain ⟨mn, mx, _, _, e1, e2, rfl⟩ := pgm_normalize_inv img hwf k img1 h1
    refine ⟨mn, mx, e1, e2, ?_⟩
    intro row column p hp
    have hmap := pixel_at_map
      (fun p : grayscale_pixel => ⟨calculate_new_value p.luminance (diff_u8 mx mn) mn mx⟩)
      img.matrix row column
    rw [hp] at hmap
    exact hmap
  · intro img workers order k hwf hworkers horder
    have heq := ppm_normalize_by_eq img hwf workers order k hworkers horder
    refine ⟨ppm_histograms_by_eq img hwf workers hworkers, heq, ?_⟩
    intro img1 h1
    rw [heq] at h1
    obtain ⟨tmin, tmax, hmin, hmax, rfl⟩ := ppm_normalize_inv img hwf k img1 h1
    refine ⟨min tmin.1 (min tmin.2.1 tmin.2.2), max tmax.1 (max tmax.2.1 tmax.2.2), ?_, ?_, ?_⟩
    · rw [ppm_min_luminance_eq img hwf, hmin]; rfl
    · rw [ppm_max_luminance_eq img hwf, hmax]; rfl
    · intro row column p hp
      have hmap := pixel_at_map
        (remap_rgb (min tmin.1 (min tmin.2.1 tmin.2.2)) (max tmax.1 (max tmax.2.1 tmax.2.2)))
        img.matrix row column
      rw [hp] at hmap
      exact hmap

/-- Instance of `thread_count_invariance`: three rows counted by two workers
(rows 2 and rows 0, 1) and remapped in the order 1, 2, 0; two colour rows
counted by two workers in the order row 1, row 0. -/
theorem thread_count_invariance_witness :
    (three_row_image.histogram_by [[2], [0, 1]] = three_row_image.histogram ∧
      three_row_image.normalize_by [[2], [0, 1]] [1, 2, 0] 1 = three_row_image.normalize 1) ∧
    (two_row_colour_image.histograms_by [[1], [0]] = two_row_colour_image.histograms ∧
      two_row_colour_image.normalize_by [[1], [0]] [1, 0] 0
        = two_row_colour_image.normalize 0) ∧
    three_row_image.normalize_by [[2], [0, 1]] [1, 2, 0] 1
      = .ok ⟨2, 3, [[⟨0⟩, ⟨0⟩], [⟨85⟩, ⟨170⟩], [⟨255⟩, ⟨255⟩]]⟩ :=
  ⟨⟨(thread_count_invariance.1 three_row_image [[2], [0, 1]] [1, 2, 0] 1 (by decide)
        (by decide) (by decide)).1,
      (thread_count_invariance.1 three_row_image [[2], [0, 1]] [1, 2, 0] 1 (by decide)
        (by decide) (by decide)).2.1⟩,
    ⟨(thread_count_invariance.2 two_row_colour_image [[1], [0]] [1, 0] 0 (by decide)
        (by decide) (by decide)).1,
      (thread_count_invariance.2 two_row_colour_image [[1], [0]] [1, 0] 0 (by decide)
        (by decide) (by decide)).2.1⟩,
    by decide⟩

/-- C13: writing a grayscale image with a grid of `height` rows of `width`
pixels produces the bytes `P5`, newline, the decimal width, a space, the decimal
height, newline, `255`, newline, then one byte per pixel in row-major order;
writing a colour image produces the same with the tag `P6` and the three bytes
red, green, blue per pixel.  The decimal text of `n` consists of digits, has the
value `n` and no leading zero. -/
theorem written_byte_layout :
    (∀ img : ImagePGM, img.well_formed →
      (Image.pgm img).write = .ok ([80, 53, 10] ++ to_string img.width ++ [32]
        ++ to_string img.height ++ [10] ++ [50, 53, 53, 10]
        ++ img.matrix.flatten.map (fun p => p.luminance))) ∧
    (∀ img : ImagePPM, img.well_formed →
      (Image.ppm img).write = .ok ([80, 54, 10] ++ to_string img.width ++ [32]
        ++ to_string img.height ++ [10] ++ [50, 53, 53, 10]
        ++ (img.matrix.flatten.map (fun p => [p.red, p.green, p.blue])).flatten)) ∧
    (∀ n : Nat, to_string n ≠ [] ∧ (∀ c ∈ to_string n, 48 ≤ c ∧ c ≤ 57) ∧
      (to_string n).foldl (fun a c => a * 10 + (c - 48)) 0 = n ∧
      (0 < n → (to_string n).head? ≠ some 48)) := by
  refine ⟨?_, ?_, ?_⟩
  · intro img hwf
    show img.print = _
    rw [pgm_print_eq img hwf, flatten_rows, flatten_singletons]
    unfold Image.print
    rw [to_string_max_value]
    simp [PGM_FORMAT, List.append_assoc]
  · intro img hwf
    show img.print = _
    rw [ppm_print_eq img hwf, flatten_rows]
    unfold Image.print
    rw [to_string_max_value]
    simp [PPM_FORMAT, List.append_assoc]
  · intro n
    refine ⟨to_string_ne_nil n, ?_, to_string_value n, to_string_head n⟩
    intro c hc
    have := to_string_digits n c hc
    simpa [isdigit] using this

/-- Instance of `written_byte_layout`: the 2 x 2 ramp and the colour image of
two pixels. -/
theorem written_byte_layout_witness :
    (Image.pgm ramp_image).write
      = .ok [80, 53, 10, 50, 32, 50, 10, 50, 53, 53, 10, 10, 20, 30, 40] ∧
    (Image.ppm two_pixel_colour_image).write
      = .ok [80, 54, 10, 50, 32, 49, 10, 50, 53, 53, 10, 10, 20, 30, 40, 50, 60] ∧
    (Image.pgm ramp_image).write = .ok ([80, 53, 10] ++ to_string ramp_image.width ++ [32]
        ++ to_string ramp_image.height ++ [10] ++ [50, 53, 53, 10]
        ++ ramp_image.matrix.flatten.map (fun p => p.luminance)) ∧
    (Image.ppm two_pixel_colour_image).write
      = .ok ([80, 54, 10] ++ to_string two_pixel_colour_image.width ++ [32]
        ++ to_string two_pixel_colour_image.height ++ [10] ++ [50, 53, 53, 10]
        ++ (two_pixel_colour_image.matrix.flatten.map
          (fun p => [p.red, p.green, p.blue])).flatten) :=
  ⟨by decide, by decide, written_byte_layout.1 ramp_image (by decide),
    written_byte_layout.2.1 two_pixel_colour_image (by decide)⟩

/-- C14 fails on the code: with the input file `P5`, `1 1`, `99999999999`
(a maximum-value line that is not 255) reading fails in `std::stoi` with
`std::out_of_range`, which neither handler of `main` catches: no diagnostic line
is printed and the process ends in `std::terminate`, not with exit code 1.  The
output file is not opened. -/
theorem main_uncaught_read_failure :
    example_env.file "in.pgm" = some header_with_huge_maximum ∧
    Image.read_image header_with_huge_maximum = .error (.out_of_range "stoi") ∧
    main example_env ["normalize", "1", "in.pgm", "out.pgm"]
      = ⟨[], ["in.pgm"], none, .terminate (.out_of_range "stoi")⟩ := by
  decide

/-- C15: with fewer than 3 positional arguments (`argc < 4`) the driver prints
the one line "Error: wrong number of arguments.", returns exit code 1 and opens
no file. -/
theorem main_argument_count (env : Env) (argv : List String) (h : argv.length < 4) :
    main env argv = ⟨["Error: wrong number of arguments."], [], none, .code 1⟩ ∧
    handle [] (.invalid_argument "wrong number of arguments.")
      = ⟨["Error: wrong number of arguments."], [], none, .code 1⟩ := by
  constructor
  · unfold main
    rw [if_pos (by simpa [NUMBER_OF_DEFAULT_ARGUMENTS] using h)]
    rfl
  · rfl

/-- Instance of `main_argument_count`: the program name and two arguments. -/
theorem main_argument_count_witness :
    main example_env ["normalize", "1", "ramp.pgm"]
      = ⟨["Error: wrong number of arguments."], [], none, .code 1⟩ :=
  (main_argument_count example_env ["normalize", "1", "ramp.pgm"] (by decide)).1

/-- C16: for a histogram of non-negative counts with total `N` and an
`ignore_count` `k` with `2 * k < N`, both scans return and
`calculate_min_luminance cnt k <= calculate_max_luminance cnt k`, so the 8-bit
`diff` is the true difference; for 5 pixels at value 0, 5 at value 200 and
`k = 6` (where `2 * k >= N`) the scans return 200 and 0. -/
theorem thresholds_ordered (cnt : Histogram) (k : Int)
    (hnonneg : ∀ i, i < 256 → 0 ≤ cnt i) (hhalf : 2 * k < sum_from cnt 0) :
    (∃ mn mx, calculate_min_luminance cnt k = .ok mn ∧
      calculate_max_luminance cnt k = .ok mx ∧ mn ≤ mx ∧ diff_u8 mx mn = mx - mn) ∧
    (sum_from split_histogram 0 = 10 ∧ calculate_min_luminance split_histogram 6 = .ok 200 ∧
      calculate_max_luminance split_histogram 6 = .ok 0) := by
  refine ⟨?_, by decide, by decide, by decide⟩
  have hN0 : 0 ≤ sum_from cnt 0 := by
    have h := sum_from_antitone cnt hnonneg 256 0 (by omega)
    rw [Nat.zero_add, sum_from_end] at h
    exact h
  have htotal : sum_from cnt 0 > k := by omega
  have hupto : sum_upto cnt 255 > k := by
    have h := sum_split cnt 256 (le_refl _)
    rw [sum_from_end] at h
    show sum_below cnt 256 > k
    omega
  obtain ⟨mn, hmn, hmn256, hleast, _⟩ := min_loop_spec cnt k 257 0 0
    (by omega) (by omega) (by simp [sum_below]) (by intro j hj; omega)
  obtain ⟨mx, hmx, hmx255, hmxk, hmxhigh⟩ := max_loop_spec cnt k 257 255 0
    (by omega) (by omega) (by rw [sum_from_end]) (by intro j h1 h2; omega) ⟨0, by omega, htotal⟩
  obtain ⟨hmnk, hmnlow⟩ := hleast ⟨255, by omega, hupto⟩
  have hle : mn ≤ mx := by
    by_contra hc
    have hlt : mx < mn := by omega
    have h1 : sum_below cnt mn ≤ k := by
      have := hmnlow (mn - 1) (by omega)
      unfold sum_upto at this
      have e : mn - 1 + 1 = mn := by omega
      rw [e] at this
      exact this
    have h2 : sum_from cnt (mx + 1) ≤ k := hmxhigh (mx + 1) (by omega) (by omega)
    have h3 : sum_from cnt mn ≤ sum_from cnt (mx + 1) := by
      have := sum_from_antitone cnt hnonneg (mn - (mx + 1)) (mx + 1) (by omega)
      have e : mx + 1 + (mn - (mx + 1)) = mn := by omega
      rw [e] at this
      exact this
    have h4 := sum_split cnt mn (by omega)
    omega
  exact ⟨mn, mx, hmn, hmx, hle, diff_u8_of_le mx mn hle (by omega)⟩

/-- Instance of `thresholds_ordered`: 10 pixels at value 0, 90 at value 200 and
`ignore_count` 5. -/
theorem thresholds_ordered_witness :
    (∀ i, i < 256 → 0 ≤ two_level_histogram i) ∧ 2 * (5 : Int) < sum_from two_level_histogram 0 ∧
    ∃ mn mx, calculate_min_luminance two_level_histogram 5 = .ok mn ∧
      calculate_max_luminance two_level_histogram 5 = .ok mx ∧ mn ≤ mx ∧
      diff_u8 mx mn = mx - mn :=
  ⟨by decide, by decide, (thresholds_ordered two_level_histogram 5 (by decide) (by decide)).1⟩

/-- C17 fails on the code: on the all-zero histogram with `ignore_count` 0, the
histogram of the image without pixels that `read_image` returns for the file
`P5`, `0 0`, `255`, the scan of `calculate_max_luminance` does not return 0: after
bucket 0 its index wraps to 2^64 - 1 and the next read is outside the array, and
so `normalize` of that image has no result. -/
theorem calculate_max_luminance_reads_outside :
    calculate_max_luminance zero_histogram 0 = .error (.out_of_bounds (2 ^ 64 - 1)) ∧
    calculate_max_luminance zero_histogram 0 ≠ .ok 0 ∧
    (∀ j, j < 256 → sum_from zero_histogram j ≤ 0) ∧
    Image.read_image [80, 53, 10, 48, 32, 48, 10, 50, 53, 53, 10] = .ok (.pgm empty_image) ∧
    empty_image.histogram = .ok zero_histogram ∧
    empty_image.normalize 0 = .error (.out_of_bounds (2 ^ 64 - 1)) := by
  refine ⟨by decide, by decide, sum_from_zero_histogram, by decide, ?_, by decide⟩
  rw [pgm_histogram_eq empty_image (by decide), zero_histogram_eq]
  rfl

/-- C18: for 8-bit thresholds with `max_luminance < min_luminance` and the
wrapped 8-bit `diff`, `calculate_new_value` returns 0 for `v < min_luminance` and
255 otherwise; whenever `v` is not between the thresholds the result is the same
for every `diff`; and when `min_luminance <= v <= max_luminance` the 8-bit `diff`
is the true difference `max_luminance - min_luminance`. -/
theorem wrapped_diff_unused (v mn mx : Nat) (hmx : mx < 256) :
    (mx < mn → calculate_new_value v (diff_u8 mx mn) mn mx = if v < mn then 0 else 255) ∧
    (¬ (mn ≤ v ∧ v ≤ mx) → ∀ diff, calculate_new_value v diff mn mx = if v < mn then 0 else 255) ∧
    (mn ≤ v → v ≤ mx → diff_u8 mx mn = mx - mn ∧
      calculate_new_value v (diff_u8 mx mn) mn mx
        = if 0 < mx - mn then (v - mn) * 255 / (mx - mn) else v) := by
  have houtside : ¬ (mn ≤ v ∧ v ≤ mx) → ∀ diff,
      calculate_new_value v diff mn mx = if v < mn then 0 else 255 := by
    intro h diff
    by_cases h1 : v < mn
    · rw [calculate_new_value_below v diff mn mx h1, if_pos h1]
    · rw [calculate_new_value_above v diff mn mx (by omega) (by omega), if_neg h1]
  refine ⟨fun h => houtside (by omega) _, houtside, ?_⟩
  intro h1 h2
  have hd := diff_u8_of_le mx mn (by omega) hmx
  refine ⟨hd, ?_⟩
  rw [hd]
  by_cases hpos : 0 < mx - mn
  · rw [if_pos hpos, calculate_new_value_mid v _ mn mx h1 h2 hmx hpos]
    apply Nat.mod_eq_of_lt
    have hq : (v - mn) * 255 / (mx - mn) ≤ 255 := by
      apply Nat.div_le_of_le_mul
      exact Nat.mul_le_mul_right _ (by omega)
    omega
  · rw [if_neg hpos, calculate_new_value_same v _ mn mx h1 h2 (by omega)]

/-- Instance of `wrapped_diff_unused`: thresholds 200 and 0 (wrapped `diff` 56)
and the value 100. -/
theorem wrapped_diff_unused_witness :
    diff_u8 0 200 = 56 ∧ calculate_new_value 100 (diff_u8 0 200) 200 0 = 0 ∧
    calculate_new_value 250 (diff_u8 0 200) 200 0 = 255 ∧
    ((0 < 200 → calculate_new_value 100 (diff_u8 0 200) 200 0
        = if 100 < 200 then 0 else 255) ∧
      (¬ (200 ≤ 100 ∧ 100 ≤ 0) → ∀ diff, calculate_new_value 100 diff 200 0
        = if 100 < 200 then 0 else 255) ∧
      (200 ≤ 100 → 100 ≤ 0 → diff_u8 0 200 = 0 - 200 ∧
        calculate_new_value 100 (diff_u8 0 200) 200 0
          = if 0 < 0 - 200 then (100 - 200) * 255 / (0 - 200) else 100)) :=
  ⟨by decide, by decide, by decide, wrapped_diff_unused 100 200 0 (by decide)⟩

/-- C19: for 8-bit thresholds with the 8-bit `diff` and 8-bit values `a <= b`,
`calculate_new_value a <= calculate_new_value b`. -/
theorem calculate_new_value_monotone (a b mn mx : Nat) (hab : a ≤ b) (hb : b < 256)
    (hmx : mx < 256) :
    calculate_new_value a (diff_u8 mx mn) mn mx ≤ calculate_new_value b (diff_u8 mx mn) mn mx := by
  by_cases ha1 : a < mn
  · rw [calculate_new_value_below a _ mn mx ha1]
    exact Nat.zero_le _
  · have ha2 : mn ≤ a := by omega
    by_cases hb1 : mx < b
    · rw [calculate_new_value_above b _ mn mx (by omega) hb1]
      by_cases ha3 : mx < a
      · rw [calculate_new_value_above a _ mn mx ha2 ha3]
      · have hd := diff_u8_of_le mx mn (by omega) hmx
        by_cases hpos : 0 < mx - mn
        · rw [hd, calculate_new_value_mid a _ mn mx ha2 (by omega) hmx hpos]
          have := Nat.mod_lt ((a - mn) * 255 / (mx - mn)) (by omega : 0 < 256)
          omega
        · rw [hd, calculate_new_value_same a _ mn mx ha2 (by omega) (by omega)]
          omega
    · have hd := diff_u8_of_le mx mn (by omega) hmx
      by_cases hpos : 0 < mx - mn
      · rw [hd, calculate_new_value_mid a _ mn mx ha2 (by omega) hmx hpos,
          calculate_new_value_mid b _ mn mx (by omega) (by omega) hmx hpos]
        have hq : ∀ v, v ≤ mx → (v - mn) * 255 / (mx - mn) % 256 = (v - mn) * 255 / (mx - mn) := by
          intro v hv
          apply Nat.mod_eq_of_lt
          have : (v - mn) * 255 / (mx - mn) ≤ 255 := by
            apply Nat.div_le_of_le_mul
            exact Nat.mul_le_mul_right _ (by omega)
          omega
        rw [hq a (by omega), hq b (by omega)]
        exact Nat.div_le_div_right (Nat.mul_le_mul_right _ (by omega))
      · rw [hd, calculate_new_value_same a _ mn mx ha2 (by omega) (by omega),
          calculate_new_value_same b _ mn mx (by omega) (by omega) (by omega)]
        exact hab

/-- Instance of `calculate_new_value_monotone`: thresholds 50 and 200, values 60
and 70. -/
theorem calculate_new_value_monotone_witness :
    calculate_new_value 60 (diff_u8 200 50) 50 200 = 17 ∧
    calculate_new_value 70 (diff_u8 200 50) 50 200 = 34 ∧
    calculate_new_value 60 (diff_u8 200 50) 50 200
      ≤ calculate_new_value 70 (diff_u8 200 50) 50 200 :=
  ⟨by decide, by decide,
    calculate_new_value_monotone 60 70 50 200 (by decide) (by decide) (by decide)⟩

/-- C20: for a well-formed grayscale or colour image with `width > 0` and
`height > 0`, `normalize` with `ignore_count` 0 returns an image on which
`normalize` with `ignore_count` 0 returns that same image. -/
theorem normalize_idempotent :
    (∀ img : ImagePGM, img.well_formed → 0 < img.width → 0 < img.height →
      ∃ img1, img.normalize 0 = .ok img1 ∧ img1.normalize 0 = .ok img1) ∧
    (∀ img : ImagePPM, img.well_formed → 0 < img.width → 0 < img.height →
      ∃ img1, img.normalize 0 = .ok img1 ∧ img1.normalize 0 = .ok img1) :=
  ⟨pgm_idempotent, ppm_idempotent⟩

/-- Instance of `normalize_idempotent`: the 2 x 2 ramp and the colour image of
two pixels. -/
theorem normalize_idempotent_witness :
    (ramp_image.normalize 0 = .ok ⟨2, 2, [[⟨0⟩, ⟨85⟩], [⟨170⟩, ⟨255⟩]]⟩ ∧
      (ImagePGM.mk 2 2 [[⟨0⟩, ⟨85⟩], [⟨170⟩, ⟨255⟩]]).normalize 0
        = .ok ⟨2, 2, [[⟨0⟩, ⟨85⟩], [⟨170⟩, ⟨255⟩]]⟩) ∧
    (∃ img1, ramp_image.normalize 0 = .ok img1 ∧ img1.normalize 0 = .ok img1) ∧
    (∃ img1, two_pixel_colour_image.normalize 0 = .ok img1 ∧ img1.normalize 0 = .ok img1) :=
  ⟨⟨by decide, by decide⟩,
    normalize_idempotent.1 ramp_image (by decide) (by decide) (by decide),
    normalize_idempotent.2 two_pixel_colour_image (by decide) (by decide) (by decide)⟩

end Graphics
